import Mathlib

/-!
# OpenSVC control plane: object paths and the cluster data store

A shallow embedding of `core/path/path.go` (object path allocation, formatting,
parsing and matching), of `daemon/daemondata/cmd_apply_full.go` (the
`ApplyFull` store command), of `daemon/hb/main.go` (the heartbeat rescan and
the reader of received messages), of `daemon/scheduler/main.go` (the jobs of
the scheduler), of `daemon/daemondiscover/cfg.go` (the discovery of remote
configurations) and of `daemon/monitor/instcfg/main.go` (the config file
check), followed by the properties proved about them.

Go strings are embedded as `String`, read through their list of code points.
-/

set_option maxRecDepth 4000

/-! ## Go runtime helpers -/

deriving instance DecidableEq for Except

/-- The type of Go strings, under a name that a method called `String` does
not hide. -/
abbrev Str : Type := String

namespace unicode

/-- Go `unicode.ToLower`, on what this program can observe of it: the ASCII
capitals map to their small letter, and the only two non-ASCII code points
whose lower case is an ASCII letter are U+0130 (to `i`) and U+212A (to `k`).
Every other code point has a non-ASCII lower case; it is kept as it is. -/
def ToLower (r : Char) : Char :=
  if 'A' ≤ r ∧ r ≤ 'Z' then Char.ofNat (r.toNat + 32)
  else if r = Char.ofNat 0x130 then 'i'
  else if r = Char.ofNat 0x212A then 'k'
  else r

end unicode

namespace strings

/-- Go `strings.ToLower`: every code point mapped through `unicode.ToLower`. -/
def ToLower (s : String) : String := ⟨s.data.map unicode.ToLower⟩

/-- Splitting of a code point list around a one code point separator. -/
def splitRunes (sep : Char) : List Char → List (List Char)
  | [] => [[]]
  | c :: cs =>
    if c = sep then [] :: splitRunes sep cs
    else
      match splitRunes sep cs with
      | [] => [[c]]
      | w :: ws => (c :: w) :: ws

/-- Go `strings.Split(s, sep)` for a separator of one code point: the fields
between the separators, `[""]` for the empty string. -/
def Split (s : String) (sep : Char) : List String :=
  (splitRunes sep s.data).map String.mk

/-- Replacement of the first occurrence of `old` in a code point list. -/
def replaceFirst (old new : List Char) : List Char → List Char
  | [] => if old = [] then new else []
  | c :: cs =>
    if old.isPrefixOf (c :: cs) then new ++ (c :: cs).drop old.length
    else c :: replaceFirst old new cs

/-- Go `strings.Replace(s, old, new, 1)`: the first occurrence replaced. -/
def Replace1 (s old new : String) : String :=
  ⟨replaceFirst old.data new.data s.data⟩

end strings

/-! ## Regular expressions (Go `regexp`, anchored patterns) -/

/-- Regular expressions over code points, with character classes. -/
inductive Regexp where
  | empty : Regexp
  | eps : Regexp
  | cls : (Char → Bool) → Regexp
  | seq : Regexp → Regexp → Regexp
  | alt : Regexp → Regexp → Regexp
  | star : Regexp → Regexp

namespace Regexp

/-- One or more repetitions, `r+`. -/
def plus (r : Regexp) : Regexp := seq r (star r)

/-- Zero or one occurrence, `r?`. -/
def opt (r : Regexp) : Regexp := alt r eps

/-- Whether the expression accepts the empty string. -/
def nullable : Regexp → Bool
  | empty => false
  | eps => true
  | cls _ => false
  | seq a b => a.nullable && b.nullable
  | alt a b => a.nullable || b.nullable
  | star _ => true

/-- Brzozowski derivative with respect to one code point. -/
def deriv : Regexp → Char → Regexp
  | empty, _ => empty
  | eps, _ => empty
  | cls p, c => if p c then eps else empty
  | seq a b, c => if a.nullable then alt (seq (a.deriv c) b) (b.deriv c) else seq (a.deriv c) b
  | alt a b, c => alt (a.deriv c) (b.deriv c)
  | star a, c => seq (a.deriv c) (star a)

/-- Whether the whole code point list is in the language (`^...$`). -/
def matchRunes : Regexp → List Char → Bool
  | r, [] => r.nullable
  | r, c :: cs => matchRunes (r.deriv c) cs

/-- Go `(*Regexp).MatchString` for a pattern anchored by `^` and `$`. -/
def MatchString (r : Regexp) (s : String) : Bool := r.matchRunes s.data

/-- Every character class of the expression only holds code points of `P`. -/
def classesWithin (P : Char → Prop) : Regexp → Prop
  | empty => True
  | eps => True
  | cls p => ∀ c, p c = true → P c
  | seq a b => a.classesWithin P ∧ b.classesWithin P
  | alt a b => a.classesWithin P ∧ b.classesWithin P
  | star a => a.classesWithin P

/-- A syntactic criterion for the empty language. -/
def dead : Regexp → Prop
  | empty => True
  | eps => False
  | cls _ => False
  | seq a b => a.dead ∨ b.dead
  | alt a b => a.dead ∧ b.dead
  | star _ => False

end Regexp

/-! ## Go errors -/

namespace errors

/-- A Go error value: one made by `errors.New`, or one that wraps another error
under a message (`errors.Wrap`, `errors.Wrapf`). -/
inductive Error where
  | new : String → Error
  | wrap : Error → String → Error
  deriving DecidableEq, Repr

/-- Go `errors.New`. -/
def New (msg : String) : Error := .new msg

/-- Go `errors.Wrap`, and `errors.Wrapf` once the message is formatted. -/
def Wrap (err : Error) (msg : String) : Error := .wrap err msg

/-- Go `errors.Is`: the error is the target, or wraps an error that is. -/
def Is : Error → Error → Bool
  | .new m, target => decide (Error.new m = target)
  | .wrap c m, target => decide (Error.wrap c m = target) || Is c target

end errors

/-! ## Package `core/kind` -/

namespace kind

/-- Modelled from the spec: the closed set of object kinds of package
`core/kind`, which is not among the sources (`svc`, `vol`, `cfg`, `sec`,
`usr`, `ccfg`, `nscfg`), with `Invalid` for anything else. -/
inductive T where
  | Invalid | Svc | Vol | Cfg | Sec | Usr | Ccfg | Nscfg
  deriving DecidableEq, Repr

/-- Modelled from the spec: `kind.New`, the kind of a keyword, `Invalid` when
the keyword is not one of the closed set. -/
def New (s : String) : T :=
  if s = "svc" then .Svc
  else if s = "vol" then .Vol
  else if s = "cfg" then .Cfg
  else if s = "sec" then .Sec
  else if s = "usr" then .Usr
  else if s = "ccfg" then .Ccfg
  else if s = "nscfg" then .Nscfg
  else .Invalid

/-- Modelled from the spec: `kind.T.String`, the keyword of a kind. -/
def T.String : T → String
  | .Invalid => ""
  | .Svc => "svc"
  | .Vol => "vol"
  | .Cfg => "cfg"
  | .Sec => "sec"
  | .Usr => "usr"
  | .Ccfg => "ccfg"
  | .Nscfg => "nscfg"

/-- Modelled from the spec: `kind.KindNames`, every kind keyword. -/
def KindNames : List String := ["svc", "vol", "cfg", "sec", "usr", "ccfg", "nscfg"]

end kind

/-! ## Package `core/path` -/

namespace path

/-- An opensvc object path-like identifier. Ex: ns1/svc/svc1 -/
structure T where
  Name : String
  Namespace : String
  Kind : kind.T
  deriving DecidableEq, Repr

/-- The error raised when the path allocator can not return a path because one
of the path element is not valid. -/
def ErrInvalid : errors.Error := errors.New "invalid path"

/-- The character separating a path's namespace, kind and name. -/
def Separator : String := "/"

/-- The class `[a-zA-Z]`. -/
def isAlpha (c : Char) : Bool := ('a' ≤ c && c ≤ 'z') || ('A' ≤ c && c ≤ 'Z')

/-- The class `[a-zA-Z0-9]`. -/
def isAlnum (c : Char) : Bool := isAlpha c || ('0' ≤ c && c ≤ '9')

/-- The pattern `^[a-zA-Z]([a-zA-Z0-9\-]+[\.]?)*[a-zA-Z0-9]$`. -/
def hostnameRegexRFC952 : Regexp :=
  .seq (.cls isAlpha)
    (.seq (.star (.seq (Regexp.plus (.cls (fun c => isAlnum c || c == '-')))
                      (Regexp.opt (.cls (fun c => c == '.')))))
          (.cls isAlnum))

/-- The names no object can have: the kind keywords and `node`. -/
def forbiddenNames : List String := kind.KindNames ++ ["node"]

/-- Allocation of a new path from its elements. -/
def New (name : String) (nspace : String) (kd : String) : Except errors.Error T :=
  let name := strings.ToLower name
  let nspace := strings.ToLower nspace
  let kd := strings.ToLower kd
  -- apply defaults
  let kd := if kd = "" then "svc" else kd
  let nspace := if nspace = "" then "root" else nspace
  let k := kind.New kd
  if k = kind.T.Invalid then
    .error (errors.Wrap ErrInvalid ("invalid kind " ++ kd))
  else
    let name := if k = kind.T.Nscfg then "namespace" else name
    if name = "" then
      .error (errors.Wrap ErrInvalid "name is empty")
    else if !hostnameRegexRFC952.MatchString name then
      .error (errors.Wrap ErrInvalid ("invalid name " ++ name ++ " (rfc952)"))
    else if !hostnameRegexRFC952.MatchString nspace then
      .error (errors.Wrap ErrInvalid ("invalid namespace " ++ nspace ++ " (rfc952)"))
    else if forbiddenNames.contains name then
      .error (errors.Wrap ErrInvalid ("reserved name '" ++ name ++ "'"))
    else
      .ok { Namespace := nspace, Name := name, Kind := k }

/-- The canonical string of a path. -/
def T.String (t : T) : String :=
  if t.Kind = kind.T.Invalid then ""
  else
    let s := if t.Namespace ≠ "" ∧ t.Namespace ≠ "root" then t.Namespace ++ Separator else ""
    let s := if (t.Kind ≠ kind.T.Svc ∧ t.Kind ≠ kind.T.Ccfg) ∨ s ≠ "" then
        s ++ t.Kind.String ++ Separator
      else s
    s ++ t.Name

/-- A new path from a path string representation. -/
def Parse (s : String) : Except errors.Error T :=
  let s := strings.ToLower s
  let l := strings.Split s '/'
  match l with
  | [l0, l1, l2] => New l2 l0 l1
  | [l0, l1] =>
    if l1 = "" then New "namespace" l0 "nscfg" -- ex: ns1/
    else New l1 "root" l0 -- ex: cfg/c1
  | [l0] =>
    if l0 = "cluster" then New l0 "root" "ccfg"
    else New l0 "root" "svc"
  | _ => New "" "" ""

/-- What `New` establishes on the path it returns. -/
structure T.Canonical (t : T) : Prop where
  kind_ne : t.Kind ≠ kind.T.Invalid
  name_match : hostnameRegexRFC952.MatchString t.Name = true
  name_lower : strings.ToLower t.Name = t.Name
  name_free : forbiddenNames.contains t.Name = false
  name_nscfg : t.Kind = kind.T.Nscfg → t.Name = "namespace"
  ns_match : hostnameRegexRFC952.MatchString t.Namespace = true
  ns_lower : strings.ToLower t.Namespace = t.Namespace

end path

/-! ## Package `github.com/danwakefield/fnmatch` -/

namespace fnmatch

/-- Modelled from the spec: in the `fnmatch` matcher, the part of the subject
after its first `/` (`strchr` then one rune unpacked), `none` when it has no
`/`. -/
def afterSlash : List Char → Option (List Char)
  | [] => none
  | c :: cs => if c = '/' then some cs else afterSlash cs

/-- Modelled from the spec: in the `fnmatch` matcher, the general case of `*`:
the rest of the pattern tried on every non-empty suffix of the subject, up to
and including the first one that starts with `/`. -/
def starLoop (m : List Char → Bool) : List Char → Bool
  | [] => false
  | c :: cs => if m (c :: cs) then true else if c = '/' then false else starLoop m cs

/-- Modelled from the spec: the `fnmatch`-style matcher with case-folding and
path-separator awareness, `fnmatch.Match(pattern, s, FNM_IGNORECASE|FNM_PATHNAME)`
of the imported package github.com/danwakefield/fnmatch (a port of BSD
fnmatch.c), which is not among the sources. It is written at the flags
`path.Match` passes: case is folded, a `/` of the subject is matched only by a
`/` of the pattern, `?` takes one rune other than `/`, `*` takes runes other
than `/`, a backslash quotes the next rune. The bracket expression matcher of
the package is the parameter `rangematch`: given the pattern after `[` and the
subject rune, it tells whether the rune is accepted and how many pattern runes
the expression takes. -/
def MatchRunes (rangematch : List Char → Char → Bool × Nat) (pattern s : List Char) : Bool :=
  match pattern with
  | [] => s.isEmpty
  | c :: pattern =>
    if c = '?' then
      match s with
      | [] => false
      | sc :: s => if sc = '/' then false else MatchRunes rangematch pattern s
    else if c = '*' then
      -- collapse multiple *'s
      let pattern := pattern.dropWhile (fun x => x == '*')
      -- optimize for patterns with * at end or before /
      if pattern.isEmpty then !s.contains '/'
      else if pattern.head? = some '/' then
        match afterSlash s with
        | none => false
        | some s => MatchRunes rangematch pattern.tail s
      else
        -- general case, recurse
        starLoop (fun test => MatchRunes rangematch pattern test) s
    else if c = '[' then
      match s with
      | [] => false
      | sc :: s =>
        if sc = '/' then false
        else if (rangematch pattern sc).1 then
          MatchRunes rangematch (pattern.drop (rangematch pattern sc).2) s
        else false
    else
      match s with
      | [] => false
      | sc :: s =>
        if c = '\\' then
          match pattern with
          | [] => if sc = c ∨ unicode.ToLower sc = unicode.ToLower c then s.isEmpty else false
          | c :: pattern =>
            if sc = c ∨ unicode.ToLower sc = unicode.ToLower c then MatchRunes rangematch pattern s
            else false
        else if sc = c ∨ unicode.ToLower sc = unicode.ToLower c then MatchRunes rangematch pattern s
        else false
termination_by pattern.length
decreasing_by
  all_goals simp_wf
  all_goals
    first
    | omega
    | exact Nat.lt_succ_of_le (List.dropWhile_sublist _).length_le
    | exact Nat.lt_succ_of_le
        (Nat.le_trans (Nat.sub_le _ _) (List.dropWhile_sublist _).length_le)

/-- Modelled from the spec: the function `fnmatch.Match` on strings, at the
flags `FNM_IGNORECASE|FNM_PATHNAME`. -/
def Match (rangematch : List Char → Char → Bool × Nat) (pattern s : String) : Bool :=
  MatchRunes rangematch pattern.data s.data

end fnmatch

namespace path

/-- Whether the object matches the pattern, using a fnmatch matching algorithm
with a few special cases to mask the root namespace tricks and the svc object
kind as default. -/
def T.Match (rangematch : List Char → Char → Bool × Nat) (t : T) (pattern : Str) : Bool :=
  let l := strings.Split pattern '/'
  let s := t.String
  match l with
  | [_] =>
    if pattern = "**" then true
    else if pattern = "*" then
      if fnmatch.Match rangematch "*/svc/*" s then true
      else if fnmatch.Match rangematch "*" s then true
      else false
    else
      if fnmatch.Match rangematch pattern s then true else false
  | [l0, l1] =>
    if l0 = "svc" ∧ fnmatch.Match rangematch l1 s then true
    else
      let pattern := strings.Replace1 pattern "**" "*/*"
      if fnmatch.Match rangematch pattern s then true else false
  | [l0, l1, l2] =>
    if l1 = "svc" ∧ l0 = "*" ∧ fnmatch.Match rangematch l2 s then true
    else if fnmatch.Match rangematch pattern s then true
    else false
  | _ => false

end path

/-! ## Package `daemon/daemondata` -/

/-- A Go map keyed by strings: the entry of a key, `none` when it has none. -/
abbrev GoMap (α : Type) : Type := String → Option α

namespace GoMap

/-- The empty map. -/
def empty {α : Type} : GoMap α := fun _ => none

/-- The statement `m[k] = v`. -/
def set {α : Type} (m : GoMap α) (k : String) (v : α) : GoMap α :=
  fun x => if x = k then some v else m x

/-- The expression `m[k]`: the zero value when the key has no entry. -/
def get {α : Type} [Inhabited α] (m : GoMap α) (k : String) : α :=
  (m k).getD default

end GoMap

namespace cluster

/-- Modelled from the spec: the node state `cluster.NodeStatus`, declared
outside the sources. It holds the generation map `Gen` (peer to last seen
generation of the peer, its own entry included), the one field the store command
reads; `Rest` stands for its configuration, monitor state and status. -/
structure NodeStatus (σ : Type) where
  Gen : GoMap Nat
  Rest : σ

end cluster

namespace jsondelta

/-- Modelled from the spec: one operation of a JSON delta (`jsondelta.Operation`,
declared outside the sources): a path, a kind and a value. -/
structure Operation (σ : Type) where
  OpPath : List String
  OpValue : cluster.NodeStatus σ
  OpKind : String

end jsondelta

namespace event

/-- Modelled from the spec: an event published on the bus (`event.Event`,
declared outside the sources); `Data` is the marshalled patch. -/
structure Event where
  Kind : String
  ID : Nat
  Timestamp : Nat
  Data : String

end event

namespace daemondata

/-- Modelled from the spec: the store state `data`, declared outside the
sources, on the fields the `ApplyFull` command touches: the node states
(`pending.Monitor.Nodes`), the generation bookkeeping of the peers
(`mergedFromPeer`, `mergedOnPeer`, the need-full flags `remotesNeedFull`), the
name of the local node, and what the command sends out: the events published on
the bus and the package event counter. -/
structure data (σ : Type) where
  Nodes : GoMap (cluster.NodeStatus σ)
  mergedFromPeer : GoMap Nat
  mergedOnPeer : GoMap Nat
  remotesNeedFull : GoMap Bool
  localNode : String
  bus : List event.Event
  eventId : Nat

/-- The queued command: the name of the sender and its node state. -/
structure opApplyRemoteFull (σ : Type) where
  nodename : String
  full : cluster.NodeStatus σ

/-- The command `opApplyRemoteFull.call`. `marshal` is `json.Marshal` on the
patch (`none` for an error) and `now` is the reading of the clock; the event
counter is taken as a 64 bit unsigned integer. The command counter and the log
lines are left out. -/
def opApplyRemoteFull.call {σ : Type} (marshal : List (jsondelta.Operation σ) → Option String)
    (now : Nat) (o : opApplyRemoteFull σ) (d : data σ) : data σ :=
  let d := { d with Nodes := d.Nodes.set o.nodename o.full }
  let d := { d with mergedFromPeer := d.mergedFromPeer.set o.nodename (o.full.Gen.get o.nodename) }
  let d := { d with remotesNeedFull := d.remotesNeedFull.set o.nodename false }
  let d :=
    match (d.Nodes o.nodename).bind (fun n => n.Gen d.localNode) with
    | some gen => { d with mergedOnPeer := d.mergedOnPeer.set o.nodename gen }
    | none => d
  let absolutePatch : List (jsondelta.Operation σ) :=
    [{ OpPath := ["monitor", "nodes", o.nodename], OpValue := o.full, OpKind := "replace" }]
  match marshal absolutePatch with
  | none => d
  | some eventData =>
    let eventId := (d.eventId + 1) % 2 ^ 64
    { d with
      eventId := eventId
      bus := d.bus ++ [{ Kind := "patch", ID := eventId, Timestamp := now, Data := eventData }] }

/-- The store method `ApplyFull`: the command queued and run by the store. -/
def ApplyFull {σ : Type} (marshal : List (jsondelta.Operation σ) → Option String)
    (now : Nat) (d : data σ) (nodename : String) (full : cluster.NodeStatus σ) : data σ :=
  opApplyRemoteFull.call marshal now { nodename := nodename, full := full } d

/-- The local node's own generation: `Nodes[localNode].Gen[localNode]`. -/
def ownGen {σ : Type} (d : data σ) : Nat :=
  match d.Nodes d.localNode with
  | some n => n.Gen.get d.localNode
  | none => 0

end daemondata

/-! ## Scenarios -/

namespace daemondata

/-- Scenario store of the node n1: the peer P was merged up to generation 10
and a full of P is awaited. -/
def scenarioNeedFull : data Unit :=
  { Nodes := GoMap.empty, mergedFromPeer := GoMap.empty.set "P" 10,
    mergedOnPeer := GoMap.empty, remotesNeedFull := GoMap.empty.set "P" true,
    localNode := "n1", bus := [], eventId := 0 }

/-- Scenario node state of the peer P, at its own generation 15. -/
def scenarioFull : cluster.NodeStatus Unit := { Gen := GoMap.empty.set "P" 15, Rest := () }

/-- Scenario store of the node n1, at its own generation 10. -/
def scenarioOwn : data Unit :=
  { Nodes := GoMap.empty.set "n1" { Gen := GoMap.empty.set "n1" 10, Rest := () },
    mergedFromPeer := GoMap.empty, mergedOnPeer := GoMap.empty,
    remotesNeedFull := GoMap.empty, localNode := "n1", bus := [], eventId := 0 }

/-- Scenario node state that holds the generation 3 for n1. -/
def scenarioStale : cluster.NodeStatus Unit := { Gen := GoMap.empty.set "n1" 3, Rest := () }

end daemondata

/-! ## Go maps that the code ranges over -/

namespace GoMap

/-- The statement `delete(m, k)`. -/
def delete {α : Type} (m : GoMap α) (k : String) : GoMap α :=
  fun x => if x = k then none else m x

end GoMap

/-- A Go map keyed by strings that the code ranges over: finitely many entries
with distinct keys. -/
abbrev RangeMap (α : Type) : Type := AList (fun _ : String => α)

namespace RangeMap

/-- The entries a `range` statement goes through. Go leaves the order
unspecified: `visit` gives the order in which the keys are taken. -/
def range {α : Type} (visit : List String → List String) (m : RangeMap α) :
    List (String × α) :=
  (visit m.keys).filterMap (fun k => (m.lookup k).map (fun v => (k, v)))

end RangeMap

namespace errors

/-- The method `Error()`: the message of an error, a wrapped error after the
message that wraps it. -/
def Error.Error : Error → String
  | .new msg => msg
  | .wrap cause msg => msg ++ ": " ++ cause.Error

end errors

/-! ## Package `daemon/hb` -/

namespace hb

/-- Modelled from the spec: a configured heartbeat driver (`hbcfg.Confer`,
declared outside the sources): its name, which is its rid, the signature of its
parameters, and the ids of its receiver and of its transmitter, `none` for a
nil one. -/
structure Confer where
  Name : String
  Signature : String
  Rx : Option String
  Tx : Option String
  deriving DecidableEq, Repr

/-- Modelled from the spec: the commands sent to the heartbeat controller
(`hbctrl`, declared outside the sources). -/
inductive CtrlCmd where
  | CmdRegister (Id : String)
  | CmdUnregister (Id : String)
  | CmdSetState (Id : String) (State : String)
  deriving DecidableEq, Repr

/-- What the receivers and transmitters answer during a rescan: the error of
`Start` and of `Stop` of the component of a given id, `none` for a success. -/
structure Drivers where
  Start : String → Option errors.Error
  Stop : String → Option errors.Error

/-- The calls the rescan makes, in the order it makes them. -/
inductive Call where
  | stopHbRid (rid : String)
  | startHb (rid : String) (signature : String)
  deriving DecidableEq, Repr

/-- The heartbeat sub daemon, on what the rescan touches: the running
transmitters and receivers by rid, the recorded signatures, what was sent on
the controller and transmitter registration channels, and the trace of the
`stopHbRid` and `startHb` calls. -/
structure T where
  txs : GoMap String
  rxs : GoMap String
  ridSignature : RangeMap String
  ctrlC : List CtrlCmd
  registerTxC : List String
  unregisterTxC : List String
  calls : List Call

/-- The sub daemon as `New` returns it. -/
def New : T :=
  { txs := GoMap.empty, rxs := GoMap.empty, ridSignature := ∅, ctrlC := [],
    registerTxC := [], unregisterTxC := [], calls := [] }

/-- The method `stopHb`, on a component given by its id; `isTx` tells whether
it is a transmitter. -/
def T.stopHb (drv : Drivers) (isTx : Bool) (hbId : String) (t : T) : T × Option errors.Error :=
  let t := if isTx then { t with unregisterTxC := t.unregisterTxC ++ [hbId] } else t
  let t := { t with ctrlC := t.ctrlC ++ [CtrlCmd.CmdUnregister hbId] }
  (t, drv.Stop hbId)

/-- The method `startHbTx`. -/
def T.startHbTx (drv : Drivers) (hb : Confer) (t : T) : T × Option errors.Error :=
  match hb.Tx with
  | none => (t, some (errors.New ("nil tx for " ++ hb.Name)))
  | some tx =>
    let t := { t with ctrlC := t.ctrlC ++ [CtrlCmd.CmdRegister tx] }
    match drv.Start tx with
    | some err => ({ t with ctrlC := t.ctrlC ++ [CtrlCmd.CmdSetState tx "failed"] }, some err)
    | none =>
      ({ t with registerTxC := t.registerTxC ++ [tx], txs := t.txs.set hb.Name tx }, none)

/-- The method `startHbRx`. -/
def T.startHbRx (drv : Drivers) (hb : Confer) (t : T) : T × Option errors.Error :=
  match hb.Rx with
  | none => (t, some (errors.New ("nil rx for " ++ hb.Name)))
  | some rx =>
    let t := { t with ctrlC := t.ctrlC ++ [CtrlCmd.CmdRegister rx] }
    match drv.Start rx with
    | some err => ({ t with ctrlC := t.ctrlC ++ [CtrlCmd.CmdSetState rx "failed"] }, some err)
    | none => ({ t with rxs := t.rxs.set hb.Name rx }, none)

/-- The method `startHb`: the receiver, then the transmitter. -/
def T.startHb (drv : Drivers) (hb : Confer) (t : T) : T × Option errors.Error :=
  let t := { t with calls := t.calls ++ [Call.startHb hb.Name hb.Signature] }
  let rx := t.startHbRx drv hb
  match rx.2 with
  | some err => (rx.1, some err)
  | none =>
    let tx := rx.1.startHbTx drv hb
    match tx.2 with
    | some err => (tx.1, some err)
    | none => (tx.1, none)

/-- The method `stopHbRid`. The message of its error has a dangling format
verb, as `fmt.Errorf` prints it. -/
def T.stopHbRid (drv : Drivers) (rid : String) (t : T) : T × Option errors.Error :=
  let t := { t with calls := t.calls ++ [Call.stopHbRid rid] }
  let tx : T × List String :=
    match t.txs rid with
    | some tx =>
      let r := t.stopHb drv true tx
      match r.2 with
      | some _ => (r.1, ["tx"])
      | none => ({ r.1 with txs := r.1.txs.delete rid }, [])
    | none => (t, [])
  let rx : T × List String :=
    match tx.1.rxs rid with
    | some rx =>
      let r := tx.1.stopHb drv false rx
      match r.2 with
      | some _ => (r.1, tx.2 ++ ["rx"])
      | none => ({ r.1 with rxs := r.1.rxs.delete rid }, tx.2)
    | none => tx
  let failures := rx.2
  if failures.length > 0 then
    (rx.1, some (errors.New ("stop hb rid %!s(MISSING) error for " ++ ", ".intercalate failures)))
  else (rx.1, none)

/-- The method `getHbConfigured`: the configured drivers by name. `node` is
what `clusterhb.New` and `Hbs` give, the drivers already configured. -/
def getHbConfigured (node : Except errors.Error (List Confer)) :
    RangeMap Confer × Option errors.Error :=
  match node with
  | .error err => (∅, some err)
  | .ok hbs => (hbs.foldl (fun ridHb h => ridHb.insert h.Name h) ∅, none)

/-- First loop of `rescanHb`, one rid: stop the running heartbeats that don't
anymore exist in configuration. -/
def rescanDeleted (drv : Drivers) (ridSignatureNew : RangeMap String)
    (acc : T × List String) (kv : String × String) : T × List String :=
  let rid := kv.1
  if rid ∈ ridSignatureNew then acc
  else
    let r := acc.1.stopHbRid drv rid
    match r.2 with
    | none => ({ r.1 with ridSignature := r.1.ridSignature.erase rid }, acc.2)
    | some err => (r.1, acc.2 ++ [err.Error])

/-- Second loop of `rescanHb`, one rid: stop the running heartbeats where
configuration has been changed. -/
def rescanChanged (drv : Drivers) (acc : T × List String × RangeMap String)
    (kv : String × String) : T × List String × RangeMap String :=
  let rid := kv.1
  let newSig := kv.2
  match acc.1.ridSignature.lookup rid with
  | some sig =>
    if sig ≠ newSig then
      let r := acc.1.stopHbRid drv rid
      match r.2 with
      | some err => (r.1, acc.2.1 ++ [err.Error], acc.2.2)
      | none => (r.1, acc.2.1, acc.2.2.insert rid newSig)
    else acc
  | none => acc

/-- Third loop of `rescanHb`, one rid: start the configuration changed stopped
heartbeats. The rid is one of `ridHb`, as every stopped rid is. -/
def rescanRestart (drv : Drivers) (ridHb : RangeMap Confer) (acc : T × List String)
    (kv : String × String) : T × List String :=
  let rid := kv.1
  let newSig := kv.2
  match ridHb.lookup rid with
  | none => acc
  | some hb =>
    let r := acc.1.startHb drv hb
    let errs :=
      match r.2 with
      | some err => acc.2 ++ [err.Error]
      | none => acc.2
    ({ r.1 with ridSignature := r.1.ridSignature.insert rid newSig }, errs)

/-- Fourth loop of `rescanHb`, one rid: start the new configuration
heartbeats. The rid is one of `ridHb`, as every rid of `ridSignatureNew` is. -/
def rescanNew (drv : Drivers) (ridHb : RangeMap Confer) (acc : T × List String)
    (kv : String × String) : T × List String :=
  let rid := kv.1
  let newSig := kv.2
  if rid ∉ acc.1.ridSignature then
    match ridHb.lookup rid with
    | none => acc
    | some hb =>
      let r := acc.1.startHb drv hb
      match r.2 with
      | some err => (r.1, acc.2 ++ [err.Error])
      | none => ({ r.1 with ridSignature := r.1.ridSignature.insert rid newSig }, acc.2)
  else ({ acc.1 with ridSignature := acc.1.ridSignature.insert rid newSig }, acc.2)

/-- The method `rescanHb`: the running heartbeats updated from the existing
configuration. `visit i` is the order of the `range` statement number `i`. -/
def T.rescanHb (visit : Nat → List String → List String) (drv : Drivers)
    (node : Except errors.Error (List Confer)) (t : T) : T × Option errors.Error :=
  match getHbConfigured node with
  | (_, some err) => (t, some err)
  | (ridHb, none) =>
    let ridSignatureNew : RangeMap String :=
      (ridHb.range (visit 0)).foldl (fun m kv => m.insert kv.1 kv.2.Signature) ∅
    let r1 := (t.ridSignature.range (visit 1)).foldl (rescanDeleted drv ridSignatureNew) (t, [])
    -- Stop first to release connexion holders
    let r2 := (ridSignatureNew.range (visit 2)).foldl (rescanChanged drv) (r1.1, r1.2, ∅)
    let r3 := (r2.2.2.range (visit 3)).foldl (rescanRestart drv ridHb) (r2.1, r2.2.1)
    let r4 := (ridSignatureNew.range (visit 4)).foldl (rescanNew drv ridHb) r3
    if r4.2.length > 0 then
      (r4.1, some (errors.New ("rescanHb errors: [" ++ " ".intercalate r4.2 ++ "]")))
    else (r4.1, none)

/-- Modelled from the spec: a heartbeat message (`hbtype.Msg`, declared outside
the sources): its kind, the sender, the generations the sender knows, the full
node state of a `full` message and the deltas of a `patch` message. -/
structure Msg (σ : Type) where
  Kind : String
  Nodename : String
  Gen : GoMap Nat
  Full : cluster.NodeStatus σ
  Deltas : List (jsondelta.Operation σ)

/-- What the reader of the received messages calls: the heartbeat cache and
the operations of the store. -/
inductive Op (σ : Type) where
  | SetFromPeerMsg (nodename : String) (mode : String) (gen : GoMap Nat)
  | ApplyPatch (nodename : String) (msg : Msg σ)
  | ApplyFull (nodename : String) (full : cluster.NodeStatus σ)
  | ApplyPing (nodename : String)

/-- Whether the call is an `ApplyFull` of the store. -/
def Op.isApplyFull {σ : Type} : Op σ → Bool
  | .ApplyFull _ _ => true
  | _ => false

/-- Whether the call is an `ApplyPatch` of the store. -/
def Op.isApplyPatch {σ : Type} : Op σ → Bool
  | .ApplyPatch _ _ => true
  | _ => false

/-- Whether the call is an `ApplyPing` of the store. -/
def Op.isApplyPing {σ : Type} : Op σ → Bool
  | .ApplyPing _ => true
  | _ => false

/-- Whether the call is an operation of the store. -/
def Op.isStoreOp {σ : Type} (op : Op σ) : Bool :=
  op.isApplyFull || op.isApplyPatch || op.isApplyPing

/-- The method `msgFromRx`, on one message read from `readMsgQueue`: what is
called, in order. -/
def msgFromRx {σ : Type} (msg : Msg σ) : List (Op σ) :=
  if msg.Kind = "patch" then
    let mode := toString msg.Deltas.length
    [.SetFromPeerMsg msg.Nodename mode msg.Gen, .ApplyPatch msg.Nodename msg]
  else if msg.Kind = "full" then
    [.SetFromPeerMsg msg.Nodename msg.Kind msg.Gen,
     .ApplyFull msg.Nodename msg.Full,
     .ApplyFull msg.Nodename msg.Full]
  else if msg.Kind = "ping" then
    [.SetFromPeerMsg msg.Nodename msg.Kind msg.Gen, .ApplyPing msg.Nodename]
  else []

/-- Whether the signature recorded for the rid of a configured entry differs
from the signature of the entry: the test of the second loop of `rescanHb`. -/
def sigChanged (ridSignature : RangeMap String) (kv : String × String) : Bool :=
  match ridSignature.lookup kv.1 with
  | some sig => decide (sig ≠ kv.2)
  | none => false

/-- The signature the configuration gives for a rid, `none` when the rid is
not configured. -/
def desiredSignature (hbs : List Confer) (rid : String) : Option String :=
  ((getHbConfigured (.ok hbs)).1.lookup rid).map (fun h => h.Signature)

/-- The call that starts the driver configured for a rid. -/
def startCall (hbs : List Confer) (rid : String) : Call :=
  Call.startHb rid ((desiredSignature hbs rid).getD "")

end hb

/-! ## Package `daemon/scheduler` -/

namespace node

/-- Modelled from the spec: the monitor state of a node (`node.MonitorState`,
declared outside the sources): `Zero`, `Idle`, `Upgrade`, `Shutting`,
`Maintenance`, and the other states by their name. -/
inductive MonitorState where
  | Zero | Idle | Upgrade | Shutting | Maintenance
  | Other (name : String)
  deriving DecidableEq, Repr

end node

namespace schedule

/-- Modelled from the spec: a schedule entry (`schedule.Entry`, declared
outside the sources): `(path, key, action, schedule-expression,
require_collector, require_provisioned, last_run_at, last_success_at,
next_run_at)`. The path, a `naming.Path` in the scheduler, is the object path
of `core/path`; it is the zero path for a node-level entry. Times are integers,
the zero time being 0. -/
structure Entry where
  Path : path.T
  Key : String
  Action : String
  Schedule : String
  RequireCollector : Bool
  RequireProvisioned : Bool
  LastRunAt : Int
  LastSuccessAt : Int
  NextRunAt : Int
  deriving DecidableEq, Repr

end schedule

namespace scheduler

/-- A job: when it was queued, its entry, and its cancel function, which
stops the timer of the given number. -/
structure Job where
  Queued : Int
  schedule : schedule.Entry
  cancel : Nat
  deriving DecidableEq, Repr

/-- The jobs by entry key. -/
abbrev Jobs : Type := RangeMap Job

/-- A timer armed by `time.AfterFunc`: its number, its delay, and the entry
and the planned time its function holds. -/
structure Timer where
  id : Nat
  delay : Int
  schedule : schedule.Entry
  next : Int
  deriving DecidableEq, Repr

/-- What one run of `createJob` reads from outside: the clock before
`GetNext`, what `GetNext` returns (`none` for an error), and the clock when the
job is added. -/
structure Reading where
  now : Int
  next : Option Int
  queued : Int
  deriving DecidableEq, Repr

/-- What the handlers read from outside while one event is handled: the order
of the `range` statements, the paths of `object.StatusData.GetPaths`, the
schedule of the node (`none` when `object.NewNode` fails) and the schedule of
an object (`none` when `object.New` fails or the object is no actor), each
entry with what `createJob` reads when it comes to it. -/
structure Env where
  visit : List String → List String
  GetPaths : List path.T
  nodeSchedule : Option (List (schedule.Entry × Reading))
  objectSchedule : path.T → Option (List (schedule.Entry × Reading))

/-- The scheduler: the jobs, whether scheduling is enabled, the last known
provisioned state by path, and, of the timers, those armed and the numbers of
those a cancel function was called on, in the order of the calls. -/
structure T where
  jobs : Jobs
  enabled : Bool
  provisioned : path.T → Option Bool
  timers : List Timer
  cancelled : List Nat

/-- The scheduler as `New` returns it. -/
def New : T :=
  { jobs := ∅, enabled := false, provisioned := fun _ => none, timers := [], cancelled := [] }

/-- The zero path, `naming.Path{}`. -/
def zeroPath : path.T := { Name := "", Namespace := "", Kind := kind.T.Invalid }

/-- The method `IsZero` of a path. -/
def IsZero (p : path.T) : Bool := decide (p = zeroPath)

/-- The key of an entry in the jobs map: its path and its schedule key. -/
def entryKey (e : schedule.Entry) : String := e.Path.String ++ ":" ++ e.Key

/-- The method `Jobs.Add`; `now` is the reading of the clock. -/
def T.Add (now : Int) (e : schedule.Entry) (cancel : Nat) (t : T) : T :=
  let k := entryKey e
  { t with jobs := t.jobs.insert k { Queued := now, schedule := e, cancel := cancel } }

/-- The method `Jobs.Del`. -/
def T.Del (e : schedule.Entry) (t : T) : T :=
  let k := entryKey e
  match t.jobs.lookup k with
  | none => t
  | some job => { t with cancelled := t.cancelled ++ [job.cancel], jobs := t.jobs.erase k }

/-- The method `Jobs.DelPath`. An entry deleted before the `range` statement
reaches it is not visited. -/
def T.DelPath (visit : List String → List String) (p : path.T) (t : T) : T :=
  (t.jobs.range visit).foldl
    (fun t ke =>
      if ke.1 ∈ t.jobs then
        if ke.2.schedule.Path ≠ p then t else t.Del ke.2.schedule
      else t)
    t

/-- The method `Jobs.Purge`. -/
def T.Purge (visit : List String → List String) (t : T) : T :=
  (t.jobs.range visit).foldl
    (fun t ke =>
      if ke.1 ∈ t.jobs then
        { t with cancelled := t.cancelled ++ [ke.2.cancel], jobs := t.jobs.erase ke.1 }
      else t)
    t

/-- The method `createJob`, up to the function of the timer, which is kept by
the entry and the planned time it holds. -/
def T.createJob (r : Reading) (e : schedule.Entry) (t : T) : T :=
  -- clean up the existing job
  let t := t.Del e
  if !t.enabled then t
  else
    match r.next with
    | none => t.Del e
    | some next =>
      if next < r.now then t.Del e
      else
        let e := { e with NextRunAt := next }
        let delay := next - r.now
        let tmr := t.timers.length
        let t := { t with timers := t.timers ++ [Timer.mk tmr delay e next] }
        t.Add r.queued e tmr

/-- The method `hasAnyJob`. -/
def T.hasAnyJob (visit : List String → List String) (p : path.T) (t : T) : Bool :=
  (t.jobs.range visit).any (fun ke => decide (ke.2.schedule.Path = p))

/-- The method `scheduleNode`. -/
def T.scheduleNode (env : Env) (t : T) : T :=
  match env.nodeSchedule with
  | none => t
  | some entries => entries.foldl (fun t er => t.createJob er.2 er.1) t

/-- The method `scheduleObject`. -/
def T.scheduleObject (env : Env) (p : path.T) (t : T) : T :=
  match t.provisioned p with
  | none => t
  | some false => t
  | some true =>
    match env.objectSchedule p with
    | none => t
    | some entries => entries.foldl (fun t er => t.createJob er.2 er.1) t

/-- The method `scheduleAll`. -/
def T.scheduleAll (env : Env) (t : T) : T :=
  (env.GetPaths.foldl (fun t p => t.scheduleObject env p) t).scheduleNode env

/-- The method `schedule`. -/
def T.schedule (env : Env) (p : path.T) (t : T) : T :=
  if !t.enabled then t
  else if IsZero p then t.scheduleNode env
  else t.scheduleObject env p

/-- The method `unschedule`. -/
def T.unschedule (env : Env) (p : path.T) (t : T) : T := t.DelPath env.visit p

/-- The handler of `InstanceStatusDeleted`: the jobs of the object are dropped. -/
def T.onInstStatusDeleted (env : Env) (p : path.T) (t : T) : T := t.unschedule env p

/-- The method `onMonObjectStatusUpdated`; `isProvisioned` is whether the
provisioned state of the event is one of true and not applicable. -/
def T.onMonObjectStatusUpdated (env : Env) (p : path.T) (isProvisioned : Bool) (t : T) : T :=
  let t := { t with provisioned := fun q => if q = p then some isProvisioned else t.provisioned q }
  let hasAnyJob := t.hasAnyJob env.visit p
  if isProvisioned && !hasAnyJob then t.schedule env p
  else if !isProvisioned && hasAnyJob then t.unschedule env p
  else t

/-- The handler of `InstanceConfigUpdated`: when scheduling is enabled, the
jobs of the object are dropped and scheduled again. -/
def T.onInstConfigUpdated (env : Env) (p : path.T) (t : T) : T :=
  if t.enabled then (t.unschedule env p).scheduleObject env p else t

/-- The handler of `NodeConfigUpdated`: when scheduling is enabled, the jobs
of the node are dropped and scheduled again. -/
def T.onNodeConfigUpdated (env : Env) (t : T) : T :=
  if t.enabled then (t.unschedule env zeroPath).scheduleNode env else t

/-- The node monitor states scheduling is disabled in. -/
def incompatibleNodeMonitorStatus : List node.MonitorState :=
  [.Zero, .Upgrade, .Shutting, .Maintenance]

/-- The handler of `NodeMonitorUpdated`: a state that is not compatible with
scheduling disables it and purges the jobs, another state enables it and
schedules everything when it was disabled. -/
def T.onNodeMonitorUpdated (env : Env) (state : node.MonitorState) (t : T) : T :=
  let incompatible := decide (state ∈ incompatibleNodeMonitorStatus)
  if incompatible && t.enabled then { t.Purge env.visit with enabled := false }
  else if !incompatible && !t.enabled then T.scheduleAll env { t with enabled := true }
  else t

/-- What the loop of the scheduler receives: the events of its subscription,
the event of a job that is done (with the entry, the begin and end times and
the error of the run, and what `createJob` reads when the entry is rescheduled),
any other internal event, and the end of the context. -/
inductive Event where
  | InstanceConfigUpdated (Path : path.T)
  | InstanceStatusDeleted (Path : path.T)
  | ObjectStatusDeleted (Path : path.T)
  | ObjectStatusUpdated (Path : path.T) (isProvisioned : Bool)
  | NodeConfigUpdated
  | NodeMonitorUpdated (State : node.MonitorState)
  | eventJobDone (schedule : schedule.Entry) (begin : Int) (finish : Int)
      (err : Option errors.Error) (r : Reading)
  | unsupported
  | ctxDone

/-- One turn of the method `loop`: the event received is handled. -/
def T.loop (env : Env) (ev : Event) (t : T) : T :=
  match ev with
  | .InstanceConfigUpdated p => t.onInstConfigUpdated env p
  | .InstanceStatusDeleted p => t.onInstStatusDeleted env p
  | .NodeMonitorUpdated state => t.onNodeMonitorUpdated env state
  | .NodeConfigUpdated => t.onNodeConfigUpdated env
  | .ObjectStatusUpdated p isProvisioned => t.onMonObjectStatusUpdated env p isProvisioned
  | .ObjectStatusDeleted _ => t
  | .eventJobDone schedule begin _ _ r =>
    -- remember last run, reschedule
    t.createJob r { schedule with LastRunAt := begin }
  | .unsupported => t
  | .ctxDone => t.Purge env.visit

/-- The states of the scheduler: the one `New` returns, and those a turn of
the loop leads to, whatever is read from outside, the `range` statements going
through each key once. -/
inductive Reachable : T → Prop where
  | init : Reachable New
  | step (env : Env) (ev : Event) (t : T) :
      Reachable t → (∀ l, (env.visit l).Perm l) → Reachable (t.loop env ev)

end scheduler

/-! ## Sorting -/

namespace strings

/-- The order of Go strings on code point lists: `a < b`. -/
def lessRunes : List Char → List Char → Bool
  | _, [] => false
  | [], _ :: _ => true
  | a :: as, b :: bs => if a < b then true else if b < a then false else lessRunes as bs

/-- The order of Go strings: `a < b`. -/
def Less (a b : String) : Bool := lessRunes a.data b.data

end strings

namespace sort

/-- Go `sort.Strings`: the strings in increasing order. -/
def Strings (l : List String) : List String :=
  l.insertionSort (fun a b => strings.Less b a = false)

end sort

/-! ## Package `core/instance` -/

namespace coreinstance

/-- Modelled from the spec: the configuration of an instance
(`instance.Config`, declared outside the sources), `(nodename, scope, checksum,
updated)` for a path. Times are integers, the zero time being 0. -/
structure Config where
  Path : path.T
  Nodename : String
  Scope : List String
  Checksum : String
  Updated : Int
  deriving DecidableEq, Repr

end coreinstance

/-! ## Package `daemon/daemondiscover` -/

namespace daemondiscover

/-- A fetch started by `go remoteconfig.Fetch(ctx, p, node, d.cfgCmdC)`: the
number of its context, the path and the node. -/
structure Fetch where
  ctx : Nat
  Path : path.T
  Node : String
  deriving DecidableEq, Repr

/-- Modelled from the spec: the discovery state (`discover`, declared outside
the sources): the local node; `moncfg[s]`, a per-instance watcher is running;
`fetcherFrom[s]`, `fetcherUpdated[s]`, `fetcherCancel[s]`, an in-progress
remote fetch; `fetcherNodeCancel[node][s]`, the per-peer index. A cancel
function is kept as the number of its context. Of the outside are kept: how
many contexts `context.WithCancel` has made, the cancel functions called, the
fetches started and the watchers started. -/
structure discover where
  localhost : String
  moncfg : GoMap Unit
  fetcherFrom : GoMap String
  fetcherUpdated : GoMap Int
  fetcherCancel : GoMap Nat
  fetcherNodeCancel : GoMap (GoMap Nat)
  contexts : Nat
  cancelled : List Nat
  fetches : List Fetch
  watchers : List (path.T × String)

/-- The method `cmdLocalCfgFileAdded`. -/
def discover.cmdLocalCfgFileAdded (p : path.T) (filename : String) (d : discover) : discover :=
  let s := p.String
  match d.moncfg s with
  | some _ => d
  | none => { d with watchers := d.watchers ++ [(p, filename)], moncfg := d.moncfg.set s () }

/-- The method `cmdInstCfgDone`; `fileExists` is `file.Exists(filename)`. -/
def discover.cmdInstCfgDone (fileExists : Bool) (p : path.T) (filename : String)
    (d : discover) : discover :=
  let s := p.String
  let moncfg :=
    match d.moncfg s with
    | some _ => d.moncfg.delete s
    | none => d.moncfg
  let d := { d with moncfg := moncfg }
  if fileExists then d.cmdLocalCfgFileAdded p filename else d

/-- The method `inScope`. -/
def discover.inScope (cfg : coreinstance.Config) (d : discover) : Bool :=
  cfg.Scope.any (fun node => decide (node = d.localhost))

/-- The method `cancelFetcher`; `none` when it calls a nil cancel function,
which panics. -/
def discover.cancelFetcher (s : String) (d : discover) : Option discover :=
  let node := d.fetcherFrom.get s
  match d.fetcherCancel s with
  | none => none
  | some cancel =>
    let d := { d with cancelled := d.cancelled ++ [cancel] }
    let d := { d with fetcherCancel := d.fetcherCancel.delete s }
    let fetcherNodeCancel :=
      match d.fetcherNodeCancel node with
      | some m => d.fetcherNodeCancel.set node (m.delete s)
      | none => d.fetcherNodeCancel
    let d := { d with fetcherNodeCancel := fetcherNodeCancel }
    let d := { d with fetcherUpdated := d.fetcherUpdated.delete s }
    some { d with fetcherFrom := d.fetcherFrom.delete s }

/-- The method `fetchCfgFromRemote`. -/
def discover.fetchCfgFromRemote (p : path.T) (node : String) (updated : Int)
    (d : discover) : discover :=
  let s := p.String
  match d.fetcherFrom s with
  | some _ => d
  | none =>
    let cancel := d.contexts
    let d := { d with contexts := d.contexts + 1 }
    let d := { d with fetcherCancel := d.fetcherCancel.set s cancel }
    let d := { d with fetcherFrom := d.fetcherFrom.set s node }
    let d := { d with fetcherUpdated := d.fetcherUpdated.set s updated }
    let fetcherNodeCancel :=
      match d.fetcherNodeCancel node with
      | some m => d.fetcherNodeCancel.set node (m.set s cancel)
      | none => d.fetcherNodeCancel.set node GoMap.empty
    let d := { d with fetcherNodeCancel := fetcherNodeCancel }
    { d with fetches := d.fetches ++ [{ ctx := cancel, Path := p, Node := node }] }

/-- The method `cmdRemoteCfgUpdated`; `none` when it panics. -/
def discover.cmdRemoteCfgUpdated (p : path.T) (node : String) (remoteCfg : coreinstance.Config)
    (d : discover) : Option discover :=
  let s := p.String
  match d.moncfg s with
  | some _ => some d
  | none =>
    let fetch (d : discover) : Option discover :=
      if p.Kind ≠ kind.T.Sec ∧ !d.inScope remoteCfg then some d
      else some (d.fetchCfgFromRemote p node remoteCfg.Updated)
    match d.fetcherUpdated s with
    | some remoteUpdated =>
      -- fetcher in progress for s
      if remoteCfg.Updated > remoteUpdated then
        match d.cancelFetcher s with
        | none => none
        | some d => fetch d
      else some d
    | none => fetch d

/-- The method `cmdRemoteCfgDeleted`; `none` when it panics. -/
def discover.cmdRemoteCfgDeleted (p : path.T) (node : String) (d : discover) : Option discover :=
  let s := p.String
  match d.fetcherFrom s with
  | some fetchFrom => if fetchFrom = node then d.cancelFetcher s else some d
  | none => some d

end daemondiscover

/-! ## Package `daemon/monitor/instcfg` -/

namespace instcfg

/-- What `configFileCheck` reads from outside: the modification time of the
file (the zero time when it has none), its MD5 checksum as `%x` prints it
(`none` for an error), the nodes the new configurer of the object resolves
(`none` when `object.NewConfigurer` fails), and the modification time of the
file after that. -/
structure Outside where
  mtime : Int
  md5 : Option String
  nodes : Option (List String)
  newMtime : Int

/-- The watcher of one instance config: its configuration, path, file name,
last modification time, local node name, the forced refresh flag and its
configurer, kept by the nodes it resolves. Of the outside are kept the
`SetInstanceConfig` commands sent to the store and how many times
`rawconfig.LoadSections` was called. -/
structure T where
  cfg : coreinstance.Config
  dataCmdC : List (path.T × coreinstance.Config)
  path : path.T
  filename : String
  lastMtime : Int
  localhost : String
  forceRefresh : Bool
  configure : Option (List String)
  loadSections : Nat

/-- The variable `clusterPath`: the path of the cluster configuration. -/
def clusterPath : path.T := { Name := "cluster", Namespace := "", Kind := kind.T.Ccfg }

/-- The variable `configFileCheckError`. -/
def configFileCheckError : errors.Error := errors.New "config file check"

/-- The method `setConfigure`; `nodes` is what the new configurer resolves,
`none` when `object.NewConfigurer` fails. -/
def T.setConfigure (nodes : Option (List String)) (o : T) : T × Option errors.Error :=
  match nodes with
  | none => (o, some (errors.New "NewConfigurer failure"))
  | some nodes => ({ o with configure := some nodes }, none)

/-- The method `updateCfg`: `o.cfg` updated when `newCfg` differs from it.
`ConfigEqual` is `instance.ConfigEqual`, declared outside the sources. -/
def T.updateCfg (ConfigEqual : coreinstance.Config → coreinstance.Config → Bool)
    (newCfg : coreinstance.Config) (o : T) : T :=
  if ConfigEqual o.cfg newCfg then o
  else { o with cfg := newCfg, dataCmdC := o.dataCmdC ++ [(o.path, newCfg)] }

/-- The method `configFileCheck`. -/
def T.configFileCheck (ConfigEqual : coreinstance.Config → coreinstance.Config → Bool)
    (out : Outside) (o : T) : T × Option errors.Error :=
  let mtime := out.mtime
  if mtime = 0 then (o, some configFileCheckError)
  else if mtime = o.lastMtime ∧ !o.forceRefresh then (o, none)
  else
    match out.md5 with
    | none => (o, some configFileCheckError)
    | some checksum =>
      let o := if o.path.String = clusterPath.String then
          { o with loadSections := o.loadSections + 1 }
        else o
      match o.setConfigure out.nodes with
      | (o, some _) => (o, some configFileCheckError)
      | (o, none) =>
        let o := { o with forceRefresh := false }
        let nodes := o.configure.getD []
        if nodes.length = 0 then (o, some configFileCheckError)
        else
          let newMtime := out.newMtime
          if newMtime = 0 then (o, some configFileCheckError)
          else if ¬ newMtime = mtime then (o, none)
          else if !nodes.contains o.localhost then (o, some configFileCheckError)
          else
            let cfg := o.cfg
            let cfg := { cfg with Nodename := o.localhost }
            let nodes := sort.Strings nodes
            let cfg := { cfg with Scope := nodes }
            let cfg := { cfg with Checksum := checksum }
            let cfg := { cfg with Updated := mtime }
            let o := { o with lastMtime := mtime }
            (o.updateCfg ConfigEqual cfg, none)

end instcfg

/-! ## Scenarios of the control plane -/

namespace hb

/-- Scenario drivers: every start and every stop succeeds. -/
def scenarioDrivers : Drivers := { Start := fun _ => none, Stop := fun _ => none }

/-- Scenario drivers: the receiver of hb#1 does not start. -/
def scenarioDriversRxFails : Drivers :=
  { Start := fun id => if id = "hb#1.rx" then some (errors.New "bind: address in use") else none,
    Stop := fun _ => none }

/-- Scenario sub daemon: hb#1 runs with the signature sigA. -/
def scenarioRunning : T :=
  { New with
    txs := GoMap.empty.set "hb#1" "hb#1.tx"
    rxs := GoMap.empty.set "hb#1" "hb#1.rx"
    ridSignature := (∅ : RangeMap String).insert "hb#1" "sigA" }

/-- Scenario configuration: hb#1 with the signature sigB and hb#2 with sigC. -/
def scenarioDesired : List Confer :=
  [{ Name := "hb#1", Signature := "sigB", Rx := some "hb#1.rx", Tx := some "hb#1.tx" },
   { Name := "hb#2", Signature := "sigC", Rx := some "hb#2.rx", Tx := some "hb#2.tx" }]

/-- Scenario configuration: hb#1 alone, with the signature sigB. -/
def scenarioChanged : List Confer :=
  [{ Name := "hb#1", Signature := "sigB", Rx := some "hb#1.rx", Tx := some "hb#1.tx" }]

/-- Scenario configuration: hb#1 alone, with the signature sigA. -/
def scenarioSame : List Confer :=
  [{ Name := "hb#1", Signature := "sigA", Rx := some "hb#1.rx", Tx := some "hb#1.tx" }]

/-- Scenario configuration: hb#1 with the signature sigA and hb#2 with sigC. -/
def scenarioGrown : List Confer :=
  [{ Name := "hb#1", Signature := "sigA", Rx := some "hb#1.rx", Tx := some "hb#1.tx" },
   { Name := "hb#2", Signature := "sigC", Rx := some "hb#2.rx", Tx := some "hb#2.tx" }]

end hb

namespace scheduler

/-- Scenario path (ns1, svc, s1). -/
def scenarioPath : path.T := { Name := "s1", Namespace := "ns1", Kind := kind.T.Svc }

/-- Scenario entry: the status schedule of the scenario path. -/
def scenarioEntry : schedule.Entry :=
  { Path := scenarioPath, Key := "status_schedule", Action := "status", Schedule := "@10",
    RequireCollector := false, RequireProvisioned := true,
    LastRunAt := 0, LastSuccessAt := 0, NextRunAt := 0 }

/-- Scenario outside: the scenario object has the scenario entry, whose next
run is at 200 when read at 100, the job being added at 101. -/
def scenarioEnv : Env :=
  { visit := fun l => l, GetPaths := [scenarioPath], nodeSchedule := some [],
    objectSchedule := fun p =>
      if p = scenarioPath then
        some [(scenarioEntry, { now := 100, next := some 200, queued := 101 })]
      else none }

/-- Scenario events: scheduling is enabled, the object is seen provisioned
and its job is armed, the object is seen unprovisioned, then the job, whose
timer had fired at 200, reports it is done. -/
def scenarioEvents : List Event :=
  [.NodeMonitorUpdated .Idle,
   .ObjectStatusUpdated scenarioPath true,
   .ObjectStatusUpdated scenarioPath false,
   .eventJobDone { scenarioEntry with NextRunAt := 200 } 200 201 none
     { now := 201, next := some 300, queued := 202 }]

/-- Scenario reading: the next run is at 102 when read at 100, and the job is
added at 105. -/
def scenarioLate : Reading := { now := 100, next := some 102, queued := 105 }

end scheduler

namespace daemondiscover

/-- Scenario path (ns, svc, x). -/
def scenarioPath : path.T := { Name := "x", Namespace := "ns", Kind := kind.T.Svc }

/-- Scenario discovery on the node n1: a fetch of ns/svc/x is in flight from
the node A, with the timestamp 10. -/
def scenarioFetching : discover :=
  { localhost := "n1", moncfg := GoMap.empty,
    fetcherFrom := GoMap.empty.set "ns/svc/x" "A",
    fetcherUpdated := GoMap.empty.set "ns/svc/x" 10,
    fetcherCancel := GoMap.empty.set "ns/svc/x" 0,
    fetcherNodeCancel := GoMap.empty.set "A" (GoMap.empty.set "ns/svc/x" 0),
    contexts := 1, cancelled := [], fetches := [{ ctx := 0, Path := scenarioPath, Node := "A" }],
    watchers := [] }

/-- Scenario discovery on the node n1: nothing watched, nothing fetched. -/
def scenarioIdle : discover :=
  { localhost := "n1", moncfg := GoMap.empty, fetcherFrom := GoMap.empty,
    fetcherUpdated := GoMap.empty, fetcherCancel := GoMap.empty,
    fetcherNodeCancel := GoMap.empty, contexts := 0, cancelled := [], fetches := [],
    watchers := [] }

/-- Scenario config of ns/svc/x, updated at `updated`, with the scope n1, n2. -/
def scenarioConfig (updated : Int) : coreinstance.Config :=
  { Path := scenarioPath, Nodename := "B", Scope := ["n1", "n2"], Checksum := "c0ffee",
    Updated := updated }

end daemondiscover

namespace instcfg

/-- Scenario watcher on the node n1, of a file last seen modified at `last`. -/
def scenarioWatcher (last : Int) : T :=
  { cfg := { Path := daemondiscover.scenarioPath, Nodename := "n1", Scope := ["n1"],
             Checksum := "c0ffee", Updated := last },
    dataCmdC := [], path := daemondiscover.scenarioPath, filename := "/etc/ns/svc/x.conf",
    lastMtime := last, localhost := "n1", forceRefresh := false, configure := some ["n1"],
    loadSections := 0 }

/-- Scenario outside: a file modified at `mtime`, for the nodes n1 and n2. -/
def scenarioOutside (mtime : Int) : Outside :=
  { mtime := mtime, md5 := some "c0ffee", nodes := some ["n2", "n1"], newMtime := mtime }

end instcfg

/-! ## Go `time` -/

namespace time

/-- Go `time.Millisecond`: times and durations are counted in nanoseconds. -/
def Millisecond : Int := 1000000

/-- The least `time.Duration`. -/
def minDuration : Int := -9223372036854775808

/-- The greatest `time.Duration`. -/
def maxDuration : Int := 9223372036854775807

/-- The method `Time.Sub`: the duration `t - u`, the least or the greatest
duration when `t - u` is out of their range. -/
def Sub (t u : Int) : Int :=
  if t - u < minDuration then minDuration
  else if maxDuration < t - u then maxDuration
  else t - u

end time

/-! ## Package `daemon/scheduler`: the function of a timer -/

namespace scheduler

/-- What the function of a timer reads from outside when the timer fires: the
clock, whether the collector is alive, what `t.action(e)` returns when it is
called, what `SetLastRun` and `SetLastSuccess` return when they are called,
and the clock at the end. -/
structure Firing where
  begin : Int
  collectorAlive : Bool
  action : Option errors.Error
  setLastRun : Option errors.Error
  setLastSuccess : Option errors.Error
  finish : Int
  deriving DecidableEq

/-- What the function of a timer calls on the entry. -/
inductive FireCall where
  | action (e : schedule.Entry)
  | SetLastRun (e : schedule.Entry) (begin : Int)
  | SetLastSuccess (e : schedule.Entry) (begin : Int)
  deriving DecidableEq

/-- The event `eventJobDone` as the function of a timer sends it. -/
structure JobDone where
  schedule : schedule.Entry
  begin : Int
  finish : Int
  err : Option errors.Error
  deriving DecidableEq

/-- What a run of the function of a timer does: its calls on the entry, the
errors it logs, and the event it sends on `t.events`. -/
structure Fired where
  calls : List FireCall
  logged : List errors.Error
  event : JobDone
  deriving DecidableEq

/-- The function literal that `createJob` gives to `time.AfterFunc`. `e` and
`next` are the entry and the planned time the function holds. The `err` that
`else if err := t.action(e)` declares is in scope in that `if` statement only:
the `err` read after it, by `if err == nil` and by `err: err`, is the variable
`err` of `createJob`, given here as `err`. -/
def timerFunc (e : schedule.Entry) (next : Int) (err : Option errors.Error) (o : Firing) :
    Fired :=
  let begin := o.begin
  -- prevent drift if the gap is small
  let begin := if time.Sub begin next < 500 * time.Millisecond then next else begin
  let ran : List FireCall × List errors.Error :=
    if e.RequireCollector && !o.collectorAlive then ([], [])
    else
      match o.action with
      | some actionErr => ([FireCall.action e], [actionErr])
      | none => ([FireCall.action e], [])
  -- remember last run, to not run the job too soon after a daemon restart
  let calls := ran.1 ++ [FireCall.SetLastRun e begin]
  let logged :=
    match o.setLastRun with
    | some runErr => ran.2 ++ [runErr]
    | none => ran.2
  -- remember last success, for users benefit
  let success : List FireCall × List errors.Error :=
    match err with
    | none =>
      match o.setLastSuccess with
      | some successErr => (calls ++ [FireCall.SetLastSuccess e begin], logged ++ [successErr])
      | none => (calls ++ [FireCall.SetLastSuccess e begin], logged)
    | some _ => (calls, logged)
  -- store end time, for duration sampling
  let finish := o.finish
  { calls := success.1, logged := success.2,
    event := JobDone.mk e begin finish err }

/-- A timer that `createJob` armed fires. `createJob` arms a timer only past
its return on `err != nil`, and does not assign `err` after: the `err` the
function of the timer reads is nil. -/
def Timer.fire (tmr : Timer) (o : Firing) : Fired :=
  timerFunc tmr.schedule tmr.next none o

/-- The event of a job that is done, as the loop receives it; `r` is what
`createJob` reads when the entry is rescheduled. -/
def JobDone.toEvent (c : JobDone) (r : Reading) : Event :=
  Event.eventJobDone c.schedule c.begin c.finish c.err r

end scheduler

namespace scheduler

/-- Every job of the map is stored under the key of its entry, as `Jobs.Add`
stores it. -/
def Jobs.keyed (jobs : Jobs) : Prop :=
  ∀ k job, jobs.lookup k = some job → entryKey job.schedule = k

end scheduler

namespace scheduler

/-- Scenario timer: armed at 1 s for the scenario entry planned at 11 s (in
nanoseconds). -/
def scenarioTimer : Timer :=
  Timer.mk 0 10000000000 { scenarioEntry with NextRunAt := 11000000000 } 11000000000

/-- Scenario firing: the timer fires `late` nanoseconds after the planned
time, the collector is alive, the action returns `action`, the last run and
the last success are stored, and the run ends one second after it began. -/
def scenarioFiring (late : Int) (action : Option errors.Error) : Firing :=
  { begin := 11000000000 + late, collectorAlive := true, action := action,
    setLastRun := none, setLastSuccess := none, finish := 12000000000 + late }

/-- Scenario outside: the scenario object has three entries, whose next runs
are at 200, 300 and 400 when read at 100. -/
def scenarioEnvThree : Env :=
  { visit := fun l => l, GetPaths := [scenarioPath], nodeSchedule := some [],
    objectSchedule := fun p =>
      if p = scenarioPath then
        some [(scenarioEntry, { now := 100, next := some 200, queued := 101 }),
              ({ scenarioEntry with Key := "sync_schedule", Action := "sync_all" },
                { now := 102, next := some 300, queued := 103 }),
              ({ scenarioEntry with Key := "comp_schedule", Action := "compliance_auto" },
                { now := 104, next := some 400, queued := 105 })]
      else none }

/-- Scenario state: the node monitor is idle and the scenario object,
provisioned, has its three jobs armed. -/
def scenarioArmed : T :=
  (New.loop scenarioEnvThree (.NodeMonitorUpdated .Idle)).loop scenarioEnvThree
    (.ObjectStatusUpdated scenarioPath true)

end scheduler

/-! ## Package `daemon/daemondiscover`: the loop -/

namespace daemondiscover

/-- Modelled from the spec: the message of a fetch that is complete
(`moncmd.RemoteFileConfig`, declared outside the sources): the path, the node
the config was fetched from, the temp file that holds it, and the context of
the fetch, by its number. What the handler sends on its result channel `Err`
is kept in the result of the handler. -/
structure RemoteFileConfig where
  Path : path.T
  Node : String
  Filename : String
  Ctx : Nat
  deriving DecidableEq

/-- What a run of `cmdRemoteCfgFetched` does: the calls `os.Rename(old, new)`,
what is sent on the result channel of the message, and the discovery state
after, `none` when the deferred `cancelFetcher` panics. -/
structure Fetched where
  renames : List (String × String)
  Err : List (Option errors.Error)
  d : Option discover

/-- The method `cmdRemoteCfgFetched`. `Etc` is `rawconfig.Paths.Etc`, `done` is
whether the context of the message is done, `rename` is what `os.Rename`
returns. -/
def discover.cmdRemoteCfgFetched (Etc : String) (done : Bool)
    (rename : Option errors.Error) (c : RemoteFileConfig) (d : discover) : Fetched :=
  if done then { renames := [], Err := [none], d := some d }
  else
    let pre := if c.Path.Namespace ≠ "root" then "namespaces/" else ""
    let s := c.Path.String
    let confFile := Etc ++ "/" ++ pre ++ s ++ ".conf"
    let err := rename
    -- the deferred call runs last
    { renames := [(c.Filename, confFile)], Err := [err], d := d.cancelFetcher c.Path.String }

/-- Modelled from the spec: the discovery state when the loop starts, with
empty maps. -/
def discover.init (localhost : String) : discover :=
  { localhost := localhost, moncfg := GoMap.empty, fetcherFrom := GoMap.empty,
    fetcherUpdated := GoMap.empty, fetcherCancel := GoMap.empty,
    fetcherNodeCancel := GoMap.empty, contexts := 0, cancelled := [], fetches := [],
    watchers := [] }

/-- What the loop `cfg` receives on `cfgCmdC` (the commands of `moncmd`,
declared outside the sources), each with what its handler reads from outside:
whether the file exists, whether the context of the message is done and what
`os.Rename` returns. -/
inductive Cmd where
  | CfgFsWatcherCreate (Path : path.T) (Filename : String)
  | MonCfgDone (Path : path.T) (Filename : String) (fileExists : Bool)
  | CfgUpdated (Path : path.T) (Node : String) (Config : coreinstance.Config)
  | CfgDeleted (Path : path.T) (Node : String)
  | RemoteFileConfig (c : RemoteFileConfig) (done : Bool) (rename : Option errors.Error)
  | unknown

/-- One turn of the loop of the method `cfg`: the command received is handled;
`none` when the handler panics. -/
def discover.cfg (Etc : String) (i : Cmd) (d : discover) : Option discover :=
  match i with
  | .CfgFsWatcherCreate p filename => some (d.cmdLocalCfgFileAdded p filename)
  | .MonCfgDone p filename fileExists => some (d.cmdInstCfgDone fileExists p filename)
  | .CfgUpdated p node config =>
    if node = d.localhost then some d
    else d.cmdRemoteCfgUpdated p node config
  | .CfgDeleted p node =>
    if node = d.localhost then some d
    else d.cmdRemoteCfgDeleted p node
  | .RemoteFileConfig c done rename => (d.cmdRemoteCfgFetched Etc done rename c).d
  | .unknown => some d

/-- The commands that can be received in a state: a message of a complete
fetch is the message of a fetch that was started, with the context made for
it, and its context is done once its cancel function was called (it may also
be done because the context of the daemon is). -/
def Cmd.delivered (d : discover) : Cmd → Prop
  | .RemoteFileConfig c done _ =>
    { ctx := c.Ctx, Path := c.Path, Node := c.Node } ∈ d.fetches ∧
      (c.Ctx ∈ d.cancelled → done = true)
  | _ => True

/-- The states of the discovery on a node: the one with empty maps, and those
a turn of the loop leads to without panic. -/
inductive Reachable (localhost : String) : discover → Prop where
  | init : Reachable localhost (discover.init localhost)
  | step (Etc : String) (i : Cmd) (d d1 : discover) :
      Reachable localhost d → i.delivered d → d.cfg Etc i = some d1 → Reachable localhost d1

/-- The bookkeeping of the fetches: the three maps of the fetches in progress
have the same keys; a registered cancel function is of a context that was made
and not cancelled, and of one path only; the cancelled contexts were made; a
fetch whose context is not cancelled has its cancel function registered for its
path. -/
structure discover.Bookkeeping (d : discover) : Prop where
  from_cancel : ∀ s, (d.fetcherFrom s).isSome = (d.fetcherCancel s).isSome
  updated_cancel : ∀ s, (d.fetcherUpdated s).isSome = (d.fetcherCancel s).isSome
  live : ∀ s c, d.fetcherCancel s = some c → c ∉ d.cancelled ∧ c < d.contexts
  inj : ∀ s1 s2 c, d.fetcherCancel s1 = some c → d.fetcherCancel s2 = some c → s1 = s2
  made : ∀ c ∈ d.cancelled, c < d.contexts
  fetch : ∀ f ∈ d.fetches, f.ctx ∉ d.cancelled → d.fetcherCancel f.Path.String = some f.ctx

/-- Scenario path (ns1, svc, s1). -/
def scenarioObject : path.T := { Name := "s1", Namespace := "ns1", Kind := kind.T.Svc }

/-- Scenario path (root, svc, s1). -/
def scenarioRootObject : path.T := { Name := "s1", Namespace := "root", Kind := kind.T.Svc }

/-- Scenario discovery on the node n1: from empty maps, a fetch of the path
`p` was started from the node B, with the timestamp 20. -/
def scenarioStarted (p : path.T) : discover := scenarioIdle.fetchCfgFromRemote p "B" 20

/-- Scenario message: the config of the path `p` fetched from the node B, with
the context 0. -/
def scenarioFetchedMsg (p : path.T) : RemoteFileConfig :=
  { Path := p, Node := "B", Filename := "/var/tmp/fetched.conf", Ctx := 0 }

end daemondiscover

namespace instcfg

/-- Scenario outside: a file modified at `mtime`, for the nodes n2 and n1,
whose modification time is `newMtime` after the read (the zero time when the
file is gone). -/
def scenarioOutsideAfter (mtime newMtime : Int) : Outside :=
  { mtime := mtime, md5 := some "c0ffee", nodes := some ["n2", "n1"], newMtime := newMtime }

end instcfg

namespace hb

/-- Scenario drivers: the transmitter of hb#1 does not stop. -/
def scenarioDriversTxStays : Drivers :=
  { Start := fun _ => none,
    Stop := fun id => if id = "hb#1.tx" then some (errors.New "stop timeout") else none }

end hb

/-! ## Lemmas on the runtime helpers -/

namespace unicode

theorem ToLower_idem (c : Char) : ToLower (ToLower c) = ToLower c := by
  unfold ToLower
  by_cases h : 'A' ≤ c ∧ c ≤ 'Z'
  · have h1 : 65 ≤ c.toNat := h.1
    have h2 : c.toNat ≤ 90 := h.2
    rw [if_pos h]
    have hc : c = Char.ofNat c.toNat := (Char.ofNat_toNat c).symm
    generalize c.toNat = n at *
    interval_cases n <;> decide
  · rw [if_neg h]
    by_cases h3 : c = Char.ofNat 0x130
    · subst h3; decide
    · rw [if_neg h3]
      by_cases h4 : c = Char.ofNat 0x212A
      · subst h4; decide
      · rw [if_neg h4, if_neg h, if_neg h3, if_neg h4]

/-- Only `/` has `/` as its lower case. -/
theorem ToLower_eq_slash (c : Char) (h : ToLower c = '/') : c = '/' := by
  unfold ToLower at h
  by_cases h0 : 'A' ≤ c ∧ c ≤ 'Z'
  · exfalso
    have h1 : 65 ≤ c.toNat := h0.1
    have h2 : c.toNat ≤ 90 := h0.2
    rw [if_pos h0] at h
    generalize c.toNat = n at *
    interval_cases n <;> exact absurd h (by decide)
  · rw [if_neg h0] at h
    by_cases h3 : c = Char.ofNat 0x130
    · rw [if_pos h3] at h; exact absurd h (by decide)
    · rw [if_neg h3] at h
      by_cases h4 : c = Char.ofNat 0x212A
      · rw [if_pos h4] at h; exact absurd h (by decide)
      · rw [if_neg h4] at h; exact h

end unicode

namespace strings

theorem ToLower_twice (s : String) : ToLower (ToLower s) = ToLower s := by
  simp [ToLower, List.map_map, Function.comp_def, unicode.ToLower_idem]

theorem splitRunes_ne_nil (sep : Char) (l : List Char) : splitRunes sep l ≠ [] := by
  induction l with
  | nil => simp [splitRunes]
  | cons c cs ih =>
    unfold splitRunes
    split
    · simp
    · split <;> simp

/-- A list without the separator is a single field. -/
theorem splitRunes_of_not_mem (sep : Char) (l : List Char) (h : sep ∉ l) :
    splitRunes sep l = [l] := by
  induction l with
  | nil => rfl
  | cons c cs ih =>
    have hc : c ≠ sep := fun e => h (by simp [e])
    have hcs : sep ∉ cs := fun e => h (List.mem_cons_of_mem _ e)
    simp [splitRunes, hc, ih hcs]

/-- The first field ends at the first separator. -/
theorem splitRunes_append (sep : Char) (a b : List Char) (h : sep ∉ a) :
    splitRunes sep (a ++ sep :: b) = a :: splitRunes sep b := by
  induction a with
  | nil => simp [splitRunes]
  | cons c cs ih =>
    have hc : c ≠ sep := fun e => h (by simp [e])
    have hcs : sep ∉ cs := fun e => h (List.mem_cons_of_mem _ e)
    simp [splitRunes, hc, ih hcs]

/-- Nothing is replaced in a list in which the first rune of `old` does not
occur. -/
theorem replaceFirst_of_not_mem (o : Char) (old new l : List Char) (h : o ∉ l) :
    replaceFirst (o :: old) new l = l := by
  induction l with
  | nil => simp [replaceFirst]
  | cons c cs ih =>
    have hc : c ≠ o := fun e => h (by simp [e])
    have hcs : o ∉ cs := fun e => h (List.mem_cons_of_mem _ e)
    have hc2 : o ≠ c := fun e => hc e.symm
    simp [replaceFirst, List.isPrefixOf, hc2, ih hcs]

end strings

namespace Regexp

theorem dead_nullable {r : Regexp} (h : r.dead) : r.nullable = false := by
  induction r with
  | empty => rfl
  | eps => exact absurd h id
  | cls p => exact absurd h id
  | seq a b iha ihb =>
    rcases h with h | h
    · simp [nullable, iha h]
    · simp [nullable, ihb h]
  | alt a b iha ihb => simp [nullable, iha h.1, ihb h.2]
  | star a _ => exact absurd h id

theorem dead_deriv {r : Regexp} (c : Char) (h : r.dead) : (r.deriv c).dead := by
  induction r with
  | empty => exact h
  | eps => exact absurd h id
  | cls p => exact absurd h id
  | seq a b iha ihb =>
    rcases h with h | h
    · simp [deriv, dead_nullable h, dead, iha h]
    · by_cases hn : a.nullable = true
      · simp [deriv, hn, dead, h, ihb h]
      · simp [deriv, hn, dead, h]
  | alt a b iha ihb => exact ⟨iha h.1, ihb h.2⟩
  | star a _ => exact absurd h id

theorem dead_matchRunes {r : Regexp} (s : List Char) (h : r.dead) : r.matchRunes s = false := by
  induction s generalizing r with
  | nil => exact dead_nullable h
  | cons c cs ih => exact ih (dead_deriv c h)

theorem classesWithin_deriv {P : Char → Prop} {r : Regexp} (c : Char)
    (h : r.classesWithin P) : (r.deriv c).classesWithin P := by
  induction r with
  | empty => trivial
  | eps => trivial
  | cls p => simp only [deriv]; split <;> trivial
  | seq a b iha ihb =>
    simp only [deriv]
    split
    · exact ⟨⟨iha h.1, h.2⟩, ihb h.2⟩
    · exact ⟨iha h.1, h.2⟩
  | alt a b iha ihb => exact ⟨iha h.1, ihb h.2⟩
  | star a iha => exact ⟨iha h, h⟩

theorem deriv_dead_of_not {P : Char → Prop} {r : Regexp} (c : Char)
    (h : r.classesWithin P) (hc : ¬ P c) : (r.deriv c).dead := by
  induction r with
  | empty => trivial
  | eps => trivial
  | cls p =>
    have : p c = false := by
      cases hp : p c
      · rfl
      · exact absurd (h c hp) hc
    simp [deriv, this, dead]
  | seq a b iha ihb =>
    simp only [deriv]
    split
    · exact ⟨Or.inl (iha h.1), ihb h.2⟩
    · exact Or.inl (iha h.1)
  | alt a b iha ihb => exact ⟨iha h.1, ihb h.2⟩
  | star a iha => exact Or.inl (iha h)

/-- A matched string is made of code points the classes accept. -/
theorem matchRunes_forall {P : Char → Prop} {r : Regexp} (s : List Char)
    (h : r.classesWithin P) (hm : r.matchRunes s = true) : ∀ c ∈ s, P c := by
  induction s generalizing r with
  | nil => simp
  | cons c cs ih =>
    have hP : P c := by
      by_contra hc
      have := dead_matchRunes cs (deriv_dead_of_not c h hc)
      simp [matchRunes, this] at hm
    intro x hx
    rcases List.mem_cons.1 hx with e | e
    · exact e ▸ hP
    · exact ih (classesWithin_deriv c h) hm x e

end Regexp

namespace kind

theorem New_String (k : T) (h : k ≠ T.Invalid) : New k.String = k := by
  cases k <;> first | exact absurd rfl h | decide

theorem String_lower (k : T) : strings.ToLower k.String = k.String := by
  cases k <;> decide

theorem String_ne_empty (k : T) (h : k ≠ T.Invalid) : k.String ≠ "" := by
  cases k <;> first | exact absurd rfl h | decide

theorem String_no_slash (k : T) : '/' ∉ k.String.data := by
  cases k <;> decide

end kind

namespace path

/-- The code points the hostname pattern accepts are not separators. -/
theorem hostnameRegexRFC952_classes :
    hostnameRegexRFC952.classesWithin (fun c => c ≠ '/') := by
  have h1 : ∀ c, isAlpha c = true → c ≠ '/' := by
    intro c h e; subst e; exact absurd h (by decide)
  have h2 : ∀ c, isAlnum c = true → c ≠ '/' := by
    intro c h e; subst e; exact absurd h (by decide)
  refine ⟨h1, ⟨⟨?_, ?_⟩, ?_, trivial⟩, h2⟩
  · intro c h e; subst e; exact absurd h (by decide)
  · intro c h e; subst e; exact absurd h (by decide)
  · intro c h e; subst e; exact absurd h (by decide)

/-- A string the hostname pattern accepts holds no separator. -/
theorem no_slash_of_match (s : String) (h : hostnameRegexRFC952.MatchString s = true) :
    '/' ∉ s.data := by
  intro hm
  exact Regexp.matchRunes_forall s.data hostnameRegexRFC952_classes h '/' hm rfl

/-- The hostname pattern rejects the empty string. -/
theorem ne_empty_of_match (s : String) (h : hostnameRegexRFC952.MatchString s = true) :
    s ≠ "" := by
  intro e; subst e; exact absurd h (by decide)

theorem New_ok_canonical {name nspace kd : String} {t : T}
    (h : New name nspace kd = .ok t) : t.Canonical := by
  unfold New at h
  simp only [] at h
  generalize hkd : (if strings.ToLower kd = "" then "svc" else strings.ToLower kd) = kd1 at h
  generalize hns : (if strings.ToLower nspace = "" then "root" else strings.ToLower nspace)
    = ns1 at h
  generalize hnm : (if kind.New kd1 = kind.T.Nscfg then "namespace" else strings.ToLower name)
    = nm1 at h
  split_ifs at h with h1 h2 h3 h4 h5
  simp only [Except.ok.injEq] at h
  subst h
  simp only [Bool.not_eq_true', Bool.not_eq_false', Bool.not_eq_true] at h3 h4 h5
  refine ⟨h1, by simpa using h3, ?_, by simpa using h5, ?_, by simpa using h4, ?_⟩
  · show strings.ToLower nm1 = nm1
    rw [← hnm]
    split
    · decide
    · exact strings.ToLower_twice _
  · intro hk
    show nm1 = _
    rw [← hnm]
    exact if_pos hk
  · show strings.ToLower ns1 = ns1
    rw [← hns]
    split
    · decide
    · exact strings.ToLower_twice _

theorem New_of_canonical {t : T} (h : t.Canonical) :
    New t.Name t.Namespace t.Kind.String = .ok t := by
  have hns := ne_empty_of_match _ h.ns_match
  have hnm := ne_empty_of_match _ h.name_match
  have hk := kind.String_ne_empty _ h.kind_ne
  unfold New
  simp only [h.name_lower, h.ns_lower, kind.String_lower, hns, hk, if_false,
    kind.New_String _ h.kind_ne, h.kind_ne]
  have hname : (if t.Kind = kind.T.Nscfg then "namespace" else t.Name) = t.Name := by
    split
    · next hk => exact (h.name_nscfg hk).symm
    · rfl
  simp only [hname, hnm, h.name_match, h.ns_match, h.name_free, if_false, Bool.not_true]
  rfl

end path

namespace strings

theorem ToLower_append (a b : String) : ToLower (a ++ b) = ToLower a ++ ToLower b := by
  apply String.ext
  simp [ToLower]

theorem Split_one (a : String) (h : '/' ∉ a.data) : Split a '/' = [a] := by
  simp [Split, splitRunes_of_not_mem _ _ h]

theorem Split_two (a b : String) (ha : '/' ∉ a.data) (hb : '/' ∉ b.data) :
    Split (a ++ "/" ++ b) '/' = [a, b] := by
  have : (a ++ "/" ++ b).data = a.data ++ '/' :: b.data := by simp
  simp [Split, this, splitRunes_append _ _ _ ha, splitRunes_of_not_mem _ _ hb]

theorem Split_three (a b c : String) (ha : '/' ∉ a.data) (hb : '/' ∉ b.data)
    (hc : '/' ∉ c.data) : Split (a ++ "/" ++ b ++ "/" ++ c) '/' = [a, b, c] := by
  have : (a ++ "/" ++ b ++ "/" ++ c).data = a.data ++ '/' :: (b.data ++ '/' :: c.data) := by
    simp
  simp [Split, this, splitRunes_append _ _ _ ha, splitRunes_append _ _ _ hb,
    splitRunes_of_not_mem _ _ hc]

end strings

namespace path

theorem Parse_one (a : String) (hl : strings.ToLower a = a) (ha : '/' ∉ a.data) :
    Parse a = if a = "cluster" then New a "root" "ccfg" else New a "root" "svc" := by
  unfold Parse
  simp only [hl, strings.Split_one a ha]

theorem Parse_two (a b : String) (hla : strings.ToLower a = a) (hlb : strings.ToLower b = b)
    (ha : '/' ∉ a.data) (hb : '/' ∉ b.data) :
    Parse (a ++ "/" ++ b) = if b = "" then New "namespace" a "nscfg" else New b "root" a := by
  have hs : strings.ToLower "/" = "/" := by decide
  unfold Parse
  simp only [strings.ToLower_append, hla, hlb, hs, strings.Split_two a b ha hb]

theorem Parse_three (a b c : String) (hla : strings.ToLower a = a)
    (hlb : strings.ToLower b = b) (hlc : strings.ToLower c = c)
    (ha : '/' ∉ a.data) (hb : '/' ∉ b.data) (hc : '/' ∉ c.data) :
    Parse (a ++ "/" ++ b ++ "/" ++ c) = New c a b := by
  have hs : strings.ToLower "/" = "/" := by decide
  unfold Parse
  simp only [strings.ToLower_append, hla, hlb, hlc, hs, strings.Split_three a b c ha hb hc]

/-- The canonical string of a path `New` returned, by cases. -/
theorem String_of_canonical {t : T} (h : t.Canonical) :
    t.String =
      if t.Namespace = "root" then
        if t.Kind = kind.T.Svc ∨ t.Kind = kind.T.Ccfg then t.Name
        else t.Kind.String ++ "/" ++ t.Name
      else t.Namespace ++ "/" ++ t.Kind.String ++ "/" ++ t.Name := by
  have hns := ne_empty_of_match _ h.ns_match
  unfold T.String
  simp only [h.kind_ne, if_false, hns, ne_eq, not_false_eq_true, true_and, Separator]
  by_cases hr : t.Namespace = "root"
  · simp only [hr, not_true_eq_false, if_false, if_true, or_false]
    by_cases hk : t.Kind = kind.T.Svc ∨ t.Kind = kind.T.Ccfg
    · have : ¬ (¬ t.Kind = kind.T.Svc ∧ ¬ t.Kind = kind.T.Ccfg) := by tauto
      simp only [this, hk, if_false, if_true]
      apply String.ext; simp
    · have : (¬ t.Kind = kind.T.Svc ∧ ¬ t.Kind = kind.T.Ccfg) := by tauto
      simp only [this, hk, if_false, if_true]
      apply String.ext; simp
  · have hne : t.Namespace ++ "/" ≠ "" := by
      intro e
      have := congrArg String.length e
      simp only [String.length_append] at this
      have h1 : "/".length = 1 := by decide
      have h0 : "".length = 0 := by decide
      omega
    simp only [hr, not_false_eq_true, if_true, if_false, hne, or_true]

end path

/-! ## Object paths: parsing, formatting, allocation -/

namespace path

theorem New_ok_kind {name nspace kd : String} {t : T} (h : New name nspace kd = .ok t) :
    t.Kind = kind.New (if strings.ToLower kd = "" then "svc" else strings.ToLower kd) := by
  unfold New at h
  simp only [] at h
  generalize hkd : (if strings.ToLower kd = "" then "svc" else strings.ToLower kd) = kd1 at h
  generalize (if strings.ToLower nspace = "" then "root" else strings.ToLower nspace) = ns1 at h
  generalize (if kind.New kd1 = kind.T.Nscfg then "namespace" else strings.ToLower name)
    = nm1 at h
  split_ifs at h
  simp only [Except.ok.injEq] at h
  subst h
  rfl

/-- Parsing the canonical string of a path `New` returned, by cases. -/
theorem Parse_String_of_canonical {t : T} (h : t.Canonical) :
    Parse t.String =
      if t.Namespace = "root" ∧ (t.Kind = kind.T.Svc ∨ t.Kind = kind.T.Ccfg) then
        if t.Name = "cluster" then New t.Name "root" "ccfg" else New t.Name "root" "svc"
      else .ok t := by
  have hnm := ne_empty_of_match _ h.name_match
  have hnms := no_slash_of_match _ h.name_match
  have hnss := no_slash_of_match _ h.ns_match
  have hks := kind.String_no_slash t.Kind
  have hkl := kind.String_lower t.Kind
  rw [String_of_canonical h]
  by_cases hr : t.Namespace = "root"
  · by_cases hk : t.Kind = kind.T.Svc ∨ t.Kind = kind.T.Ccfg
    · simp only [hr, hk, if_true, and_self]
      exact Parse_one _ h.name_lower hnms
    · simp only [hr, hk, if_true, if_false, and_false]
      rw [Parse_two _ _ hkl h.name_lower hks hnms, if_neg hnm]
      have := New_of_canonical h
      rwa [hr] at this
  · simp only [hr, if_false, false_and]
    rw [Parse_three _ _ _ h.ns_lower hkl h.name_lower hnss hks hnms]
    exact New_of_canonical h

end path

/-- C1, as stated, fails: the valid path (root, svc, cluster), which `New` and
`Parse` both return, has the canonical string "cluster", which parses to the
other path (root, ccfg, cluster). -/
theorem C1_round_trip_counterexample :
    path.New "cluster" "root" "svc" = .ok { Name := "cluster", Namespace := "root", Kind := .Svc } ∧
    path.Parse "svc/cluster" = .ok { Name := "cluster", Namespace := "root", Kind := .Svc } ∧
    path.T.String { Name := "cluster", Namespace := "root", Kind := .Svc } = "cluster" ∧
    path.Parse "cluster" = .ok { Name := "cluster", Namespace := "root", Kind := .Ccfg } ∧
    path.Parse (path.T.String { Name := "cluster", Namespace := "root", Kind := .Svc })
      ≠ .ok { Name := "cluster", Namespace := "root", Kind := .Svc } := by
  decide

/-- C1, amended: for every path `t` that `New` returns without error,
`Parse t.String` returns `t` itself exactly when `t` is neither the
root-namespace svc named "cluster" nor a root-namespace ccfg with another name
than "cluster"; in particular every other valid path round-trips. -/
theorem C1_round_trip (name nspace kd : String) (t : path.T)
    (h : path.New name nspace kd = .ok t) :
    path.Parse t.String = .ok t ↔
      ¬ (t.Namespace = "root" ∧
          ((t.Kind = kind.T.Svc ∧ t.Name = "cluster") ∨
           (t.Kind = kind.T.Ccfg ∧ t.Name ≠ "cluster"))) := by
  have hc := path.New_ok_canonical h
  rw [path.Parse_String_of_canonical hc]
  by_cases hr : t.Namespace = "root"
  swap
  · simp [hr]
  by_cases hs : t.Kind = kind.T.Svc
  · by_cases hn : t.Name = "cluster"
    · simp only [hr, hs, hn, true_and, true_or, if_true, and_self, not_true_eq_false,
        iff_false, ne_eq, and_false, or_false]
      intro e
      have := path.New_ok_kind e
      rw [hs] at this
      exact absurd this (by decide)
    · have h1 := path.New_of_canonical hc
      rw [hr, hs] at h1
      simp only [hr, hs, hn, true_and, true_or, if_true, if_false, and_false, false_or,
        reduceCtorEq, false_and, not_false_eq_true, iff_true]
      exact h1
  · by_cases hk : t.Kind = kind.T.Ccfg
    · by_cases hn : t.Name = "cluster"
      · have h1 := path.New_of_canonical hc
        rw [hr, hk] at h1
        simp only [hr, hk, hn, true_and, or_true, if_true, reduceCtorEq, false_and,
          ne_eq, not_true_eq_false, and_false, or_self, not_false_eq_true, iff_true]
        rw [hn] at h1
        exact h1
      · simp only [hr, hk, hn, true_and, or_true, if_true, if_false, reduceCtorEq, false_and,
          ne_eq, not_false_eq_true, and_self, false_or, not_true_eq_false, iff_false]
        intro e
        have := path.New_ok_kind e
        rw [hk] at this
        exact absurd this (by decide)
    · simp [hr, hs, hk]

/-- Witness of C1 (amended): (ns1, svc, s1) round-trips. -/
theorem C1_round_trip_witness :
    path.Parse (path.T.String { Name := "s1", Namespace := "ns1", Kind := .Svc })
      = .ok { Name := "s1", Namespace := "ns1", Kind := .Svc } :=
  (C1_round_trip "S1" "ns1" "" { Name := "s1", Namespace := "ns1", Kind := .Svc }
    (by decide)).2 (by decide)

namespace kind

/-- A keyword of the closed set is the keyword of its kind. -/
theorem String_New (k : String) (h : New k ≠ T.Invalid) : (New k).String = k := by
  unfold New at h ⊢
  split_ifs at h ⊢ with h1 h2 h3 h4 h5 h6 h7
  · exact h1.symm
  · exact h2.symm
  · exact h3.symm
  · exact h4.symm
  · exact h5.symm
  · exact h6.symm
  · exact h7.symm
  · exact absurd rfl h

end kind

/-- C2: every path matches the pattern "**", whatever its namespace, kind and
name (valid or not) and whatever the bracket expression matcher. -/
theorem C2_match_double_star (rangematch : List Char → Char → Bool × Nat) (p : path.T) :
    p.Match rangematch "**" = true := by
  have hs : strings.Split "**" '/' = ["**"] := by decide
  unfold path.T.Match
  simp only [hs, if_true]

/-- C3: for a namespace `ns` other than root and a name `n` that the hostname
pattern accepts in lower case, `n` not reserved, and a kind keyword `k` other
than nscfg, `Parse (ns/k/n)` is the path (ns, k, n), whose canonical string is
`ns/k/n` again; a single segment `m` parses to (root, svc, m), except that
"cluster" parses to (root, ccfg, cluster). -/
theorem C3_parse_defaults (ns k n m : String)
    (hns : path.hostnameRegexRFC952.MatchString ns = true) (hnsl : strings.ToLower ns = ns)
    (hroot : ns ≠ "root")
    (hk : kind.New k ≠ kind.T.Invalid) (hk2 : kind.New k ≠ kind.T.Nscfg)
    (hn : path.hostnameRegexRFC952.MatchString n = true) (hnl : strings.ToLower n = n)
    (hnf : path.forbiddenNames.contains n = false)
    (hm : path.hostnameRegexRFC952.MatchString m = true) (hml : strings.ToLower m = m)
    (hmf : path.forbiddenNames.contains m = false) :
    path.Parse (ns ++ "/" ++ k ++ "/" ++ n)
        = .ok { Namespace := ns, Kind := kind.New k, Name := n } ∧
      path.T.String { Namespace := ns, Kind := kind.New k, Name := n }
        = ns ++ "/" ++ k ++ "/" ++ n ∧
      path.Parse m =
        .ok (if m = "cluster" then { Namespace := "root", Kind := .Ccfg, Name := "cluster" }
             else { Namespace := "root", Kind := .Svc, Name := m }) := by
  have hks := kind.String_New k hk
  have c1 : path.T.Canonical { Namespace := ns, Kind := kind.New k, Name := n } :=
    ⟨hk, hn, hnl, hnf, fun e => absurd e hk2, hns, hnsl⟩
  refine ⟨?_, ?_, ?_⟩
  · have h1 := path.Parse_String_of_canonical c1
    have h2 := path.String_of_canonical c1
    simp only [hroot, if_false, false_and, hks] at h1 h2
    rw [h2] at h1
    exact h1
  · have h2 := path.String_of_canonical c1
    simp only [hroot, if_false, hks] at h2
    exact h2
  · rw [path.Parse_one m hml (path.no_slash_of_match m hm)]
    by_cases hc : m = "cluster"
    · subst hc; decide
    · simp only [hc, if_false]
      exact path.New_of_canonical (t := { Namespace := "root", Kind := .Svc, Name := m })
        ⟨fun e => kind.T.noConfusion e, hm, hml, hmf, fun e => kind.T.noConfusion e,
          show path.hostnameRegexRFC952.MatchString "root" = true by decide,
          show strings.ToLower "root" = "root" by decide⟩

/-- Witness of C3: "ns1/svc/s1" parses to (ns1, svc, s1), whose canonical string
is "ns1/svc/s1", and "cluster" parses to (root, ccfg, cluster). -/
theorem C3_parse_defaults_witness :
    path.Parse "ns1/svc/s1" = .ok { Namespace := "ns1", Kind := .Svc, Name := "s1" } ∧
      path.T.String { Namespace := "ns1", Kind := .Svc, Name := "s1" } = "ns1/svc/s1" ∧
      path.Parse "cluster" = .ok { Namespace := "root", Kind := .Ccfg, Name := "cluster" } :=
  C3_parse_defaults "ns1" "svc" "s1" "cluster" (by decide) (by decide) (by decide) (by decide)
    (by decide) (by decide) (by decide) (by decide) (by decide) (by decide) (by decide)

namespace path

/-- An error that wraps `ErrInvalid` is recognised as `ErrInvalid`. -/
theorem Is_Wrap_ErrInvalid (msg : String) :
    errors.Is (errors.Wrap ErrInvalid msg) ErrInvalid = true := by
  simp [errors.Is, errors.Wrap, ErrInvalid, errors.New]

end path

/-- C4, as stated, fails: with the kind nscfg an empty name is no error, and
the name returned is not the lowercased name argument. -/
theorem C4_new_errors_counterexample :
    strings.ToLower "" = "" ∧
    path.New "" "ns1" "nscfg" = .ok { Namespace := "ns1", Kind := .Nscfg, Name := "namespace" } ∧
    path.New "Foo" "ns1" "nscfg" = .ok { Namespace := "ns1", Kind := .Nscfg, Name := "namespace" } ∧
    strings.ToLower "Foo" ≠ "namespace" := by
  decide

/-- C4, amended: with `kd1` and `ns1` the lowercased kind and namespace after
the defaults (svc, root), `k` the kind of `kd1`, and `nm` the name that is
checked - "namespace" when `k` is nscfg, the lowercased name otherwise - `New`
either returns an error wrapping `ErrInvalid`, and then `k` is invalid, or `nm`
is empty, or `nm` or `ns1` is rejected by the hostname pattern, or `nm` is
reserved; or none of these holds and `New` returns the path (ns1, k, nm). -/
theorem C4_new_errors (name nspace kd : String) :
    let kd1 := if strings.ToLower kd = "" then "svc" else strings.ToLower kd
    let ns1 := if strings.ToLower nspace = "" then "root" else strings.ToLower nspace
    let k := kind.New kd1
    let nm := if k = kind.T.Nscfg then "namespace" else strings.ToLower name
    let bad := k = kind.T.Invalid ∨ nm = "" ∨ path.hostnameRegexRFC952.MatchString nm = false ∨
      path.hostnameRegexRFC952.MatchString ns1 = false ∨ nm ∈ path.forbiddenNames
    ((∃ e, path.New name nspace kd = .error e ∧ errors.Is e path.ErrInvalid = true) ∧ bad) ∨
      (path.New name nspace kd = .ok { Namespace := ns1, Kind := k, Name := nm } ∧ ¬ bad) := by
  intro kd1 ns1 k nm bad
  have hN : path.New name nspace kd =
      if k = kind.T.Invalid then .error (errors.Wrap path.ErrInvalid ("invalid kind " ++ kd1))
      else if nm = "" then .error (errors.Wrap path.ErrInvalid "name is empty")
      else if !path.hostnameRegexRFC952.MatchString nm then
        .error (errors.Wrap path.ErrInvalid ("invalid name " ++ nm ++ " (rfc952)"))
      else if !path.hostnameRegexRFC952.MatchString ns1 then
        .error (errors.Wrap path.ErrInvalid ("invalid namespace " ++ ns1 ++ " (rfc952)"))
      else if path.forbiddenNames.contains nm then
        .error (errors.Wrap path.ErrInvalid ("reserved name '" ++ nm ++ "'"))
      else .ok { Namespace := ns1, Name := nm, Kind := k } := rfl
  rw [hN]
  by_cases h1 : k = kind.T.Invalid
  · exact Or.inl ⟨⟨errors.Wrap path.ErrInvalid _, by rw [if_pos h1], path.Is_Wrap_ErrInvalid _⟩, Or.inl h1⟩
  by_cases h2 : nm = ""
  · exact Or.inl ⟨⟨errors.Wrap path.ErrInvalid _, by rw [if_neg h1, if_pos h2], path.Is_Wrap_ErrInvalid _⟩, Or.inr (Or.inl h2)⟩
  by_cases h3 : path.hostnameRegexRFC952.MatchString nm = false
  · exact Or.inl ⟨⟨errors.Wrap path.ErrInvalid _, by rw [if_neg h1, if_neg h2, if_pos (by simp [h3])], path.Is_Wrap_ErrInvalid _⟩,
      Or.inr (Or.inr (Or.inl h3))⟩
  by_cases h4 : path.hostnameRegexRFC952.MatchString ns1 = false
  · exact Or.inl ⟨⟨errors.Wrap path.ErrInvalid _, by rw [if_neg h1, if_neg h2, if_neg (by simpa using h3),
      if_pos (by simp [h4])], path.Is_Wrap_ErrInvalid _⟩, Or.inr (Or.inr (Or.inr (Or.inl h4)))⟩
  by_cases h5 : nm ∈ path.forbiddenNames
  · exact Or.inl ⟨⟨errors.Wrap path.ErrInvalid _, by rw [if_neg h1, if_neg h2, if_neg (by simpa using h3),
      if_neg (by simpa using h4), if_pos (by simpa using h5)], path.Is_Wrap_ErrInvalid _⟩,
      Or.inr (Or.inr (Or.inr (Or.inr h5)))⟩
  · refine Or.inr ⟨by rw [if_neg h1, if_neg h2, if_neg (by simpa using h3),
      if_neg (by simpa using h4), if_neg (by simpa using h5)], ?_⟩
    rintro (h | h | h | h | h)
    · exact h1 h
    · exact h2 h
    · exact h3 h
    · exact h4 h
    · exact h5 h

/-- C5: with the kind nscfg the name is forced: for every namespace `ns` that
the hostname pattern accepts in lower case and every name argument, `New`
succeeds with the name "namespace", and `Parse` of `ns/` is the same path. -/
theorem C5_nscfg_forces_name (name ns : String)
    (hns : path.hostnameRegexRFC952.MatchString ns = true) (hnsl : strings.ToLower ns = ns) :
    path.New name ns "nscfg" = .ok { Namespace := ns, Kind := .Nscfg, Name := "namespace" } ∧
      path.Parse (ns ++ "/") = .ok { Namespace := ns, Kind := .Nscfg, Name := "namespace" } := by
  have hne := path.ne_empty_of_match ns hns
  have hN : ∀ x, path.New x ns "nscfg"
      = .ok { Namespace := ns, Kind := .Nscfg, Name := "namespace" } := by
    intro x
    have hk : strings.ToLower "nscfg" = "nscfg" := by decide
    have hk2 : kind.New "nscfg" = kind.T.Nscfg := by decide
    have hm : path.hostnameRegexRFC952.MatchString "namespace" = true := by decide
    unfold path.New
    have hf2 : "namespace" ∉ path.forbiddenNames := by decide
    simp [hk, hnsl, hne, hk2, hm, hns, hf2]
  refine ⟨hN name, ?_⟩
  have h2 := path.Parse_two ns "" hnsl (by decide) (path.no_slash_of_match ns hns) (by decide)
  have he : ns ++ "/" ++ "" = ns ++ "/" := by apply String.ext; simp
  rw [he] at h2
  rw [h2, if_pos rfl]
  exact hN _

/-- Witness of C5: an empty, an invalid and a reserved name with the kind
nscfg in the namespace ns1. -/
theorem C5_nscfg_forces_name_witness :
    (path.New "" "ns1" "nscfg" = .ok { Namespace := "ns1", Kind := .Nscfg, Name := "namespace" } ∧
      path.Parse ("ns1" ++ "/") = .ok { Namespace := "ns1", Kind := .Nscfg, Name := "namespace" }) ∧
    (path.New "-x-" "ns1" "nscfg" = .ok { Namespace := "ns1", Kind := .Nscfg, Name := "namespace" } ∧
      path.Parse ("ns1" ++ "/") = .ok { Namespace := "ns1", Kind := .Nscfg, Name := "namespace" }) ∧
    (path.New "node" "ns1" "nscfg" = .ok { Namespace := "ns1", Kind := .Nscfg, Name := "namespace" } ∧
      path.Parse ("ns1" ++ "/") = .ok { Namespace := "ns1", Kind := .Nscfg, Name := "namespace" }) :=
  ⟨C5_nscfg_forces_name "" "ns1" (by decide) (by decide),
   C5_nscfg_forces_name "-x-" "ns1" (by decide) (by decide),
   C5_nscfg_forces_name "node" "ns1" (by decide) (by decide)⟩

/-! ## Matching -/

namespace fnmatch

theorem afterSlash_append (a b : List Char) (h : '/' ∉ a) :
    afterSlash (a ++ '/' :: b) = some b := by
  induction a with
  | nil => simp [afterSlash]
  | cons c cs ih =>
    have hc : c ≠ '/' := fun e => h (by simp [e])
    have hcs : '/' ∉ cs := fun e => h (List.mem_cons_of_mem _ e)
    simp [afterSlash, hc, ih hcs]

/-- A lone `*` matches exactly the subjects without a separator. -/
theorem MatchRunes_star (rm : List Char → Char → Bool × Nat) (s : List Char) :
    MatchRunes rm ['*'] s = !s.contains '/' := by
  cases s <;> simp [MatchRunes]

/-- The pattern `*/rest` skips the first segment of the subject. -/
theorem MatchRunes_star_slash (rm : List Char → Char → Bool × Nat) (rest s : List Char) :
    MatchRunes rm ('*' :: '/' :: rest) s =
      match afterSlash s with
      | none => false
      | some s => MatchRunes rm rest s := by
  cases s <;> simp [MatchRunes]

/-- An ordinary rune of the pattern takes one rune of the subject, equal to it
up to case. -/
theorem MatchRunes_literal (rm : List Char → Char → Bool × Nat) (c : Char) (pat s : List Char)
    (h1 : c ≠ '?') (h2 : c ≠ '*') (h3 : c ≠ '[') (h4 : c ≠ '\\') :
    MatchRunes rm (c :: pat) s =
      match s with
      | [] => false
      | sc :: s =>
        if sc = c ∨ unicode.ToLower sc = unicode.ToLower c then MatchRunes rm pat s else false := by
  cases s <;> cases pat <;> simp [MatchRunes, h1, h2, h3, h4]

/-- A backslash quotes the rune that follows it. -/
theorem MatchRunes_escape (rm : List Char → Char → Bool × Nat) (c : Char) (pat s : List Char) :
    MatchRunes rm ('\\' :: c :: pat) s =
      match s with
      | [] => false
      | sc :: s =>
        if sc = c ∨ unicode.ToLower sc = unicode.ToLower c then MatchRunes rm pat s else false := by
  cases s <;> simp [MatchRunes]

/-- A backslash that ends the pattern stands for itself. -/
theorem MatchRunes_escape_end (rm : List Char → Char → Bool × Nat) (s : List Char) :
    MatchRunes rm ['\\'] s =
      match s with
      | [] => false
      | sc :: s =>
        if sc = '\\' ∨ unicode.ToLower sc = unicode.ToLower '\\' then s.isEmpty else false := by
  cases s <;> simp [MatchRunes]

end fnmatch

namespace fnmatch

/-- A subject rune that a pattern rune takes is a separator only when the
pattern rune is one. -/
theorem eq_slash_of_fold {sc c : Char} (h : sc = c ∨ unicode.ToLower sc = unicode.ToLower c)
    (hs : sc = '/') : c = '/' := by
  subst hs
  rcases h with h | h
  · exact h.symm
  · exact unicode.ToLower_eq_slash c h.symm

/-- A pattern without `*`, `?` and `[` matches no subject with more
separators than it has itself. -/
theorem count_slash_le (rm : List Char → Char → Bool × Nat) (n : Nat) :
    ∀ (pat s : List Char), pat.length ≤ n →
      (∀ c ∈ pat, c ≠ '*' ∧ c ≠ '?' ∧ c ≠ '[') →
      MatchRunes rm pat s = true → s.count '/' ≤ pat.count '/' := by
  induction n with
  | zero =>
    intro pat s hl _ hm
    have : pat = [] := List.length_eq_zero.1 (Nat.le_zero.1 hl)
    subst this
    cases s with
    | nil => simp
    | cons a as => simp [MatchRunes] at hm
  | succ n ih =>
    intro pat s hl hw hm
    cases pat with
    | nil =>
      cases s with
      | nil => simp
      | cons a as => simp [MatchRunes] at hm
    | cons c pat =>
      have hc := hw c (List.mem_cons_self _ _)
      have hw1 : ∀ x ∈ pat, x ≠ '*' ∧ x ≠ '?' ∧ x ≠ '[' :=
        fun x hx => hw x (List.mem_cons_of_mem _ hx)
      have hl1 : pat.length ≤ n := by simpa using hl
      by_cases he : c = '\\'
      · subst he
        cases pat with
        | nil =>
          rw [MatchRunes_escape_end] at hm
          cases s with
          | nil => simp at hm
          | cons sc s =>
            simp only at hm
            split_ifs at hm with h1
            have hs : s = [] := by simpa using hm
            subst hs
            have : sc ≠ '/' := fun e => absurd (eq_slash_of_fold h1 e) (by decide)
            simp [List.count_cons, this]
        | cons c2 pat =>
          rw [MatchRunes_escape] at hm
          cases s with
          | nil => simp at hm
          | cons sc s =>
            simp only at hm
            split_ifs at hm with h1
            have hw2 : ∀ x ∈ pat, x ≠ '*' ∧ x ≠ '?' ∧ x ≠ '[' :=
              fun x hx => hw1 x (List.mem_cons_of_mem _ hx)
            have hl2 : pat.length ≤ n := by
              simp only [List.length_cons] at hl1; omega
            have := ih pat s hl2 hw2 hm
            have hb : ('\\' == '/') = false := by decide
            simp only [List.count_cons, hb, Bool.false_eq_true, if_false, Nat.add_zero]
            by_cases hs : sc = '/'
            · have := eq_slash_of_fold h1 hs
              simp [hs, this]; omega
            · simp [hs]; omega
      · rw [MatchRunes_literal rm c pat s hc.2.1 hc.1 hc.2.2 he] at hm
        cases s with
        | nil => simp at hm
        | cons sc s =>
          simp only at hm
          split_ifs at hm with h1
          have := ih pat s hl1 hw1 hm
          simp only [List.count_cons]
          by_cases hs : sc = '/'
          · have := eq_slash_of_fold h1 hs
            simp [hs, this]; omega
          · simp [hs]; omega

end fnmatch

namespace fnmatch

theorem Match_star_of_no_slash (rm : List Char → Char → Bool × Nat) (s : String)
    (h : '/' ∉ s.data) : Match rm "*" s = true := by
  have hp : ("*" : String).data = ['*'] := rfl
  unfold Match
  rw [hp, MatchRunes_star]
  simpa using h

/-- The mask `*/svc/*` matches every three segment string whose middle segment
is `svc`. -/
theorem Match_svc_mask (rm : List Char → Char → Bool × Nat) (a b : String)
    (ha : '/' ∉ a.data) (hb : '/' ∉ b.data) :
    Match rm "*/svc/*" (a ++ "/" ++ "svc" ++ "/" ++ b) = true := by
  have hp : ("*/svc/*" : String).data = ['*', '/', 's', 'v', 'c', '/', '*'] := rfl
  have hs : (a ++ "/" ++ "svc" ++ "/" ++ b).data
      = a.data ++ '/' :: ('s' :: 'v' :: 'c' :: '/' :: b.data) := by simp
  unfold Match
  rw [hp, hs, MatchRunes_star_slash, afterSlash_append _ _ ha]
  simp only
  rw [MatchRunes_literal _ _ _ _ (by decide) (by decide) (by decide) (by decide)]
  simp only [true_or, if_true]
  rw [MatchRunes_literal _ _ _ _ (by decide) (by decide) (by decide) (by decide)]
  simp only [true_or, if_true]
  rw [MatchRunes_literal _ _ _ _ (by decide) (by decide) (by decide) (by decide)]
  simp only [true_or, if_true]
  rw [MatchRunes_literal _ _ _ _ (by decide) (by decide) (by decide) (by decide)]
  simp only [true_or, if_true]
  rw [MatchRunes_star]
  simpa using hb

/-- What a subject matched by a pattern that starts with `svc/` looks like. -/
theorem svc_head (rm : List Char → Char → Bool × Nat) (pat s : List Char)
    (h : MatchRunes rm ('s' :: 'v' :: 'c' :: '/' :: pat) s = true) :
    ∃ a b c rest, s = a :: b :: c :: '/' :: rest ∧
      (a = 's' ∨ unicode.ToLower a = unicode.ToLower 's') ∧
      (b = 'v' ∨ unicode.ToLower b = unicode.ToLower 'v') ∧
      (c = 'c' ∨ unicode.ToLower c = unicode.ToLower 'c') := by
  rw [MatchRunes_literal _ _ _ _ (by decide) (by decide) (by decide) (by decide)] at h
  cases s with
  | nil => simp at h
  | cons a s =>
    simp only at h
    split_ifs at h with h1
    rw [MatchRunes_literal _ _ _ _ (by decide) (by decide) (by decide) (by decide)] at h
    cases s with
    | nil => simp at h
    | cons b s =>
      simp only at h
      split_ifs at h with h2
      rw [MatchRunes_literal _ _ _ _ (by decide) (by decide) (by decide) (by decide)] at h
      cases s with
      | nil => simp at h
      | cons c s =>
        simp only at h
        split_ifs at h with h3
        rw [MatchRunes_literal _ _ _ _ (by decide) (by decide) (by decide) (by decide)] at h
        cases s with
        | nil => simp at h
        | cons d s =>
          simp only at h
          split_ifs at h with h4
          have hd : d = '/' := by
            rcases h4 with h4 | h4
            · exact h4
            · exact unicode.ToLower_eq_slash d h4
          exact ⟨a, b, c, s, by rw [hd], h1, h2, h3⟩

end fnmatch

namespace path

/-- No valid path has a canonical string that the two segment pattern `svc/n`
itself matches, when `n` has no separator and no wildcard. -/
theorem no_Match_svc_pattern (rm : List Char → Char → Bool × Nat) {p : T} (hc : p.Canonical)
    (n : String) (hn : ∀ c ∈ n.data, c ≠ '/' ∧ c ≠ '*' ∧ c ≠ '?' ∧ c ≠ '[') :
    fnmatch.Match rm ("svc/" ++ n) p.String = false := by
  have hnms := no_slash_of_match _ hc.name_match
  have hnss := no_slash_of_match _ hc.ns_match
  have hn0 : '/' ∉ n.data := fun h => (hn _ h).1 rfl
  have hpd : ("svc/" ++ n).data = 's' :: 'v' :: 'c' :: '/' :: n.data := by simp
  cases hm : fnmatch.Match rm ("svc/" ++ n) p.String with
  | false => rfl
  | true =>
    exfalso
    unfold fnmatch.Match at hm
    rw [hpd, String_of_canonical hc] at hm
    by_cases hr : p.Namespace = "root"
    · simp only [hr, if_true] at hm
      by_cases hk : p.Kind = kind.T.Svc ∨ p.Kind = kind.T.Ccfg
      · simp only [hk, if_true] at hm
        obtain ⟨a, b, c, rest, hs, -⟩ := fnmatch.svc_head rm _ _ hm
        exact hnms (by rw [hs]; simp)
      · simp only [hk, if_false] at hm
        obtain ⟨a, b, c, rest, hs, h1, h2, h3⟩ := fnmatch.svc_head rm _ _ hm
        have hd : (p.Kind.String ++ "/" ++ p.Name).data
            = p.Kind.String.data ++ '/' :: p.Name.data := by simp
        rw [hd] at hs
        have hkk := hc.kind_ne
        cases hK : p.Kind with
        | Invalid => exact hkk hK
        | Svc => exact hk (Or.inl hK)
        | Ccfg => exact hk (Or.inr hK)
        | Vol =>
          rw [hK] at hs
          have : a = 'v' := by
            have := congrArg List.head? hs; simpa [kind.T.String] using this.symm
          subst this; exact absurd h1 (by decide)
        | Cfg =>
          rw [hK] at hs
          have : a = 'c' := by
            have := congrArg List.head? hs; simpa [kind.T.String] using this.symm
          subst this; exact absurd h1 (by decide)
        | Sec =>
          rw [hK] at hs
          have : b = 'e' := by
            have := congrArg (fun l => l.tail.head?) hs; simpa [kind.T.String] using this.symm
          subst this; exact absurd h2 (by decide)
        | Usr =>
          rw [hK] at hs
          have : a = 'u' := by
            have := congrArg List.head? hs; simpa [kind.T.String] using this.symm
          subst this; exact absurd h1 (by decide)
        | Nscfg =>
          rw [hK] at hs
          have : a = 'n' := by
            have := congrArg List.head? hs; simpa [kind.T.String] using this.symm
          subst this; exact absurd h1 (by decide)
    · simp only [hr, if_false] at hm
      have hd : (p.Namespace ++ "/" ++ p.Kind.String ++ "/" ++ p.Name).data
          = p.Namespace.data ++ '/' :: (p.Kind.String.data ++ '/' :: p.Name.data) := by simp
      rw [hd] at hm
      have hw : ∀ c ∈ 's' :: 'v' :: 'c' :: '/' :: n.data, c ≠ '*' ∧ c ≠ '?' ∧ c ≠ '[' := by
        intro c hcm
        simp only [List.mem_cons] at hcm
        rcases hcm with e | e | e | e | e
        · subst e; decide
        · subst e; decide
        · subst e; decide
        · subst e; decide
        · exact (hn c e).2
      have hle := fnmatch.count_slash_le rm _ _ _ (Nat.le_refl _) hw hm
      have h0 : n.data.count '/' = 0 := List.count_eq_zero.2 hn0
      simp [List.count_cons, List.count_append, h0] at hle
      omega

end path

/-- C6: the bare pattern "*" matches every valid path of kind svc, in any
namespace, and every valid path whose canonical string has no separator. -/
theorem C6_match_star (rangematch : List Char → Char → Bool × Nat)
    (name nspace kd : String) (p : path.T) (hv : path.New name nspace kd = .ok p)
    (h : p.Kind = kind.T.Svc ∨ '/' ∉ p.String.data) :
    p.Match rangematch "*" = true := by
  have hc := path.New_ok_canonical hv
  have hs : strings.Split "*" '/' = ["*"] := by decide
  have hne : ¬ ("*" : String) = "**" := by decide
  have key : fnmatch.Match rangematch "*/svc/*" p.String = true ∨
      fnmatch.Match rangematch "*" p.String = true := by
    by_cases h0 : '/' ∈ p.String.data
    · have hk : p.Kind = kind.T.Svc := h.resolve_right (fun h' => h' h0)
      have hstr := path.String_of_canonical hc
      by_cases hr : p.Namespace = "root"
      · simp only [hr, hk, true_or, if_true] at hstr
        rw [hstr] at h0
        exact absurd h0 (path.no_slash_of_match _ hc.name_match)
      · simp only [hr, hk, if_false] at hstr
        left
        rw [hstr]
        exact fnmatch.Match_svc_mask rangematch _ _ (path.no_slash_of_match _ hc.ns_match)
          (path.no_slash_of_match _ hc.name_match)
    · exact Or.inr (fnmatch.Match_star_of_no_slash rangematch _ h0)
  unfold path.T.Match
  simp only [hs, hne, if_false, if_true]
  rcases key with k | k
  · rw [if_pos k]
  · rw [if_pos k]
    exact ite_self true

/-- Witness of C6: (root, svc, foo) matches "*", and so does (ns1, svc, foo). -/
theorem C6_match_star_witness :
    path.T.Match (fun _ _ => (false, 0)) { Name := "foo", Namespace := "root", Kind := .Svc } "*"
        = true ∧
      path.T.Match (fun _ _ => (false, 0)) { Name := "foo", Namespace := "ns1", Kind := .Svc } "*"
        = true :=
  ⟨C6_match_star _ "foo" "root" "svc" _ (by decide) (Or.inl rfl),
   C6_match_star _ "foo" "ns1" "svc" _ (by decide) (Or.inl rfl)⟩

/-- C7: for every valid path `p` and every name `n` without separator and
without wildcard (`*`, `?`, `[`), the two segment pattern `svc/n` matches `p`
exactly when the pattern `n` does. -/
theorem C7_match_svc_segment (rangematch : List Char → Char → Bool × Nat)
    (name nspace kd : String) (p : path.T) (hv : path.New name nspace kd = .ok p)
    (n : String) (hn : ∀ c ∈ n.data, c ≠ '/' ∧ c ≠ '*' ∧ c ≠ '?' ∧ c ≠ '[') :
    p.Match rangematch ("svc/" ++ n) = p.Match rangematch n := by
  have hc := path.New_ok_canonical hv
  have hn0 : '/' ∉ n.data := fun h => (hn _ h).1 rfl
  have hn1 : '*' ∉ n.data := fun h => (hn _ h).2.1 rfl
  have he : "svc/" ++ n = "svc" ++ "/" ++ n := by apply String.ext; simp
  have hs2 : strings.Split ("svc/" ++ n) '/' = ["svc", n] := by
    rw [he]; exact strings.Split_two "svc" n (by decide) hn0
  have hs1 : strings.Split n '/' = [n] := strings.Split_one n hn0
  have hrep : strings.Replace1 ("svc/" ++ n) "**" "*/*" = "svc/" ++ n := by
    have hd : ("**" : String).data = '*' :: ['*'] := rfl
    have hnot : '*' ∉ ("svc/" ++ n).data := by
      simp only [String.data_append, List.mem_append, not_or]
      exact ⟨by decide, hn1⟩
    unfold strings.Replace1
    rw [hd, strings.replaceFirst_of_not_mem _ _ _ _ hnot]
  have hno := path.no_Match_svc_pattern rangematch hc n hn
  have hne1 : ¬ n = "**" := by
    intro e; rw [e] at hn1; exact hn1 (by decide)
  have hne2 : ¬ n = "*" := by
    intro e; rw [e] at hn1; exact hn1 (by decide)
  unfold path.T.Match
  simp only [hs2, hs1, hrep, hno, hne1, hne2, true_and, if_false, Bool.false_eq_true]

/-- Witness of C7: (root, svc, foo) matches "svc/foo" as it matches "foo", and
does not match "bar". -/
theorem C7_match_svc_segment_witness :
    path.T.Match (fun _ _ => (false, 0)) { Name := "foo", Namespace := "root", Kind := .Svc }
        ("svc/" ++ "foo")
      = path.T.Match (fun _ _ => (false, 0)) { Name := "foo", Namespace := "root", Kind := .Svc }
        "foo" ∧
    path.T.Match (fun _ _ => (false, 0)) { Name := "foo", Namespace := "root", Kind := .Svc }
        "svc/foo" = true ∧
    path.T.Match (fun _ _ => (false, 0)) { Name := "foo", Namespace := "root", Kind := .Svc }
        "bar" = false :=
  ⟨C7_match_svc_segment _ "foo" "root" "svc" _ (by decide) "foo" (by decide),
   by simp [path.T.Match, strings.Split, strings.splitRunes, fnmatch.Match, fnmatch.MatchRunes,
     path.T.String],
   by simp [path.T.Match, strings.Split, strings.splitRunes, fnmatch.Match, fnmatch.MatchRunes,
     path.T.String, unicode.ToLower]⟩

/-! ## The cluster data store: `ApplyFull` -/

/-- C8: after `ApplyFull(peer, full)` the stored state of `peer` is `full`,
`mergedFromPeer[peer]` is `full.Gen[peer]`, the need-full flag of `peer` is
false, and `mergedOnPeer[peer]` is `full.Gen[self]` when `full.Gen` has an
entry for the local node and is unchanged otherwise. -/
theorem C8_apply_full_post {σ : Type} (marshal : List (jsondelta.Operation σ) → Option String)
    (now : Nat) (d : daemondata.data σ) (peer : String) (full : cluster.NodeStatus σ) :
    let d1 := daemondata.ApplyFull marshal now d peer full
    d1.Nodes peer = some full ∧
      d1.mergedFromPeer peer = some (full.Gen.get peer) ∧
      d1.remotesNeedFull peer = some false ∧
      d1.mergedOnPeer peer =
        (match full.Gen d.localNode with
         | some gen => some gen
         | none => d.mergedOnPeer peer) ∧
      d1.localNode = d.localNode := by
  simp only [daemondata.ApplyFull, daemondata.opApplyRemoteFull.call]
  cases hg : full.Gen d.localNode <;> cases hm : marshal _ <;> simp [GoMap.set, hg]

/-- Witness of C8: with `mergedFromPeer[P] = 10` and the need-full flag of `P`
set, `ApplyFull(P, state with Gen[P] = 15)` leaves `mergedFromPeer[P] = 15`
and the flag cleared. -/
theorem C8_apply_full_post_witness :
    daemondata.scenarioNeedFull.mergedFromPeer "P" = some 10 ∧
      daemondata.scenarioNeedFull.remotesNeedFull "P" = some true ∧
      (daemondata.ApplyFull (fun _ => some "") 0 daemondata.scenarioNeedFull "P"
        daemondata.scenarioFull).mergedFromPeer "P" = some 15 ∧
      (daemondata.ApplyFull (fun _ => some "") 0 daemondata.scenarioNeedFull "P"
        daemondata.scenarioFull).remotesNeedFull "P" = some false :=
  ⟨rfl, rfl,
    (C8_apply_full_post (fun _ => some "") 0 daemondata.scenarioNeedFull "P"
      daemondata.scenarioFull).2.1,
    (C8_apply_full_post (fun _ => some "") 0 daemondata.scenarioNeedFull "P"
      daemondata.scenarioFull).2.2.1⟩

/-- C9: a second `ApplyFull(peer, full)` changes none of the node states (with
their generation maps), `mergedFromPeer`, `mergedOnPeer` and the need-full
flags that the first one left. -/
theorem C9_apply_full_twice {σ : Type} (marshal : List (jsondelta.Operation σ) → Option String)
    (now now2 : Nat) (d : daemondata.data σ) (peer : String) (full : cluster.NodeStatus σ) :
    let d1 := daemondata.ApplyFull marshal now d peer full
    let d2 := daemondata.ApplyFull marshal now2 d1 peer full
    d2.Nodes = d1.Nodes ∧ d2.mergedFromPeer = d1.mergedFromPeer ∧
      d2.mergedOnPeer = d1.mergedOnPeer ∧ d2.remotesNeedFull = d1.remotesNeedFull := by
  have hset : ∀ {α : Type} (m : GoMap α) (k : String) (v : α),
      (m.set k v).set k v = m.set k v := by
    intro α m k v
    funext x
    simp only [GoMap.set]
    split <;> rfl
  have hget : ∀ {α : Type} (m : GoMap α) (k : String) (v : α), (m.set k v) k = some v := by
    intro α m k v
    simp [GoMap.set]
  simp only [daemondata.ApplyFull, daemondata.opApplyRemoteFull.call]
  cases hg : full.Gen d.localNode <;> cases hm : marshal _ <;> simp [hg, hm, hset, hget]

/-- C10, as stated, fails: `ApplyFull` on the local node's own name replaces
the local node state, and with it the own generation, here from 10 down to 3. -/
theorem C10_own_gen_counterexample :
    daemondata.scenarioOwn.localNode = "n1" ∧
      daemondata.ownGen daemondata.scenarioOwn = 10 ∧
      daemondata.ownGen (daemondata.ApplyFull (fun _ => some "") 0 daemondata.scenarioOwn "n1"
        daemondata.scenarioStale) = 3 ∧
      ¬ daemondata.ownGen daemondata.scenarioOwn
        ≤ daemondata.ownGen (daemondata.ApplyFull (fun _ => some "") 0 daemondata.scenarioOwn
            "n1" daemondata.scenarioStale) := by
  decide

/-- C10, amended: for every nodename other than the local node, `ApplyFull`
leaves the local node's own generation as it was, so it does not decrease. -/
theorem C10_own_gen_remote {σ : Type} (marshal : List (jsondelta.Operation σ) → Option String)
    (now : Nat) (d : daemondata.data σ) (nodename : String) (full : cluster.NodeStatus σ)
    (h : nodename ≠ d.localNode) :
    daemondata.ownGen d ≤ daemondata.ownGen (daemondata.ApplyFull marshal now d nodename full) ∧
      daemondata.ownGen (daemondata.ApplyFull marshal now d nodename full)
        = daemondata.ownGen d := by
  have h2 : ¬ d.localNode = nodename := fun e => h e.symm
  have : daemondata.ownGen (daemondata.ApplyFull marshal now d nodename full)
      = daemondata.ownGen d := by
    simp only [daemondata.ApplyFull, daemondata.opApplyRemoteFull.call, daemondata.ownGen]
    cases hg : full.Gen d.localNode <;> cases hm : marshal _ <;> simp [GoMap.set, hg, h2]
  exact ⟨Nat.le_of_eq this.symm, this⟩

/-- Witness of C10 (amended): a full of the peer n2 applied on the node n1. -/
theorem C10_own_gen_remote_witness :
    daemondata.ownGen daemondata.scenarioOwn
        ≤ daemondata.ownGen (daemondata.ApplyFull (fun _ => none) 0 daemondata.scenarioOwn "n2"
            daemondata.scenarioStale) ∧
      daemondata.ownGen (daemondata.ApplyFull (fun _ => none) 0 daemondata.scenarioOwn "n2"
          daemondata.scenarioStale)
        = daemondata.ownGen daemondata.scenarioOwn :=
  C10_own_gen_remote (fun _ => none) 0 daemondata.scenarioOwn "n2" daemondata.scenarioStale
    (by decide)

/-! ## The scheduler -/

namespace RangeMap

/-- A map without member is the empty map. -/
theorem eq_empty_of_forall_not_mem {α : Type} (m : RangeMap α) (h : ∀ k, k ∉ m) : m = ∅ := by
  apply AList.ext
  rw [AList.empty_entries]
  cases he : m.entries with
  | nil => rfl
  | cons e es =>
    exfalso
    apply h e.1
    rw [AList.mem_keys]
    simp [AList.keys, List.keys, he]

theorem range_empty {α : Type} (visit : List String → List String) :
    range visit (∅ : RangeMap α) = [] := by
  simp [range, AList.lookup_empty]

/-- What a `range` statement goes through is in the map. -/
theorem lookup_of_mem_range {α : Type} (visit : List String → List String) (m : RangeMap α)
    (kv : String × α) (h : kv ∈ range visit m) : m.lookup kv.1 = some kv.2 := by
  simp only [range, List.mem_filterMap, Option.map_eq_some'] at h
  obtain ⟨k, -, v, hv, rfl⟩ := h
  exact hv

/-- The keys a `range` statement goes through, when each key is visited
once: the keys of the map, in the order of the visit. -/
theorem range_keys {α : Type} (visit : List String → List String) (m : RangeMap α)
    (hp : (visit m.keys).Perm m.keys) : (range visit m).map Prod.fst = visit m.keys := by
  have hsub : ∀ k ∈ visit m.keys, k ∈ m := fun k hk => AList.mem_keys.2 (hp.mem_iff.1 hk)
  unfold range
  generalize visit m.keys = l at hsub
  induction l with
  | nil => rfl
  | cons k ks ih =>
    have hk : k ∈ m := hsub k (List.mem_cons_self _ _)
    obtain ⟨v, hv⟩ := Option.isSome_iff_exists.1 (AList.lookup_isSome.2 hk)
    simp only [List.filterMap_cons, hv, Option.map_some', List.map_cons]
    rw [ih (fun x hx => hsub x (List.mem_cons_of_mem _ hx))]

theorem mem_range_keys {α : Type} (visit : List String → List String) (m : RangeMap α)
    (hp : (visit m.keys).Perm m.keys) (k : String) :
    k ∈ (range visit m).map Prod.fst ↔ k ∈ m := by
  rw [range_keys visit m hp, hp.mem_iff, AList.mem_keys]

theorem nodup_range_keys {α : Type} (visit : List String → List String) (m : RangeMap α)
    (hp : (visit m.keys).Perm m.keys) : ((range visit m).map Prod.fst).Nodup := by
  rw [range_keys visit m hp]
  exact hp.nodup_iff.2 m.keys_nodup

end RangeMap

namespace scheduler

theorem Del_enabled (e : schedule.Entry) (t : T) : (t.Del e).enabled = t.enabled := by
  cases h : t.jobs.lookup (entryKey e) <;> simp [T.Del, h]

theorem Del_of_empty (e : schedule.Entry) (t : T) (h : t.jobs = ∅) : t.Del e = t := by
  unfold T.Del
  simp [h, AList.lookup_empty]

/-- After `Del` the key of the entry has no job. -/
theorem Del_lookup (e : schedule.Entry) (t : T) : (t.Del e).jobs.lookup (entryKey e) = none := by
  cases h : t.jobs.lookup (entryKey e) <;> simp [T.Del, h, AList.lookup_erase]

theorem createJob_enabled (r : Reading) (e : schedule.Entry) (t : T) :
    (t.createJob r e).enabled = t.enabled := by
  unfold T.createJob
  simp only [T.Add]
  split
  · exact Del_enabled e t
  · split
    · rw [Del_enabled, Del_enabled]
    · split
      · rw [Del_enabled, Del_enabled]
      · exact Del_enabled e t

theorem createJob_of_disabled (r : Reading) (e : schedule.Entry) (t : T)
    (hd : t.enabled = false) (h : t.jobs = ∅) : t.createJob r e = t := by
  unfold T.createJob
  simp [Del_of_empty e t h, hd]

theorem foldl_createJob_enabled (l : List (schedule.Entry × Reading)) (t : T) :
    (l.foldl (fun t er => T.createJob er.2 er.1 t) t).enabled = t.enabled := by
  induction l generalizing t with
  | nil => rfl
  | cons a l ih => rw [List.foldl_cons, ih, createJob_enabled]

theorem foldl_createJob_of_disabled (l : List (schedule.Entry × Reading)) (t : T)
    (hd : t.enabled = false) (h : t.jobs = ∅) :
    l.foldl (fun t er => T.createJob er.2 er.1 t) t = t := by
  induction l with
  | nil => rfl
  | cons a l ih => rw [List.foldl_cons, createJob_of_disabled _ _ _ hd h, ih]

theorem scheduleNode_enabled (env : Env) (t : T) : (t.scheduleNode env).enabled = t.enabled := by
  unfold T.scheduleNode
  split
  · rfl
  · exact foldl_createJob_enabled _ _

theorem scheduleObject_enabled (env : Env) (p : path.T) (t : T) :
    (t.scheduleObject env p).enabled = t.enabled := by
  unfold T.scheduleObject
  split
  · rfl
  · rfl
  · split
    · rfl
    · exact foldl_createJob_enabled _ _

theorem scheduleAll_enabled (env : Env) (t : T) : (t.scheduleAll env).enabled = t.enabled := by
  unfold T.scheduleAll
  rw [scheduleNode_enabled]
  generalize env.GetPaths = l
  induction l generalizing t with
  | nil => rfl
  | cons a l ih => rw [List.foldl_cons, ih, scheduleObject_enabled]

theorem schedule_enabled (env : Env) (p : path.T) (t : T) :
    (t.schedule env p).enabled = t.enabled := by
  unfold T.schedule
  split
  · rfl
  · split
    · exact scheduleNode_enabled _ _
    · exact scheduleObject_enabled _ _ _

theorem schedule_of_disabled (env : Env) (p : path.T) (t : T) (hd : t.enabled = false) :
    t.schedule env p = t := by
  unfold T.schedule
  simp [hd]

theorem DelPath_enabled (visit : List String → List String) (p : path.T) (t : T) :
    (t.DelPath visit p).enabled = t.enabled := by
  unfold T.DelPath
  generalize RangeMap.range visit t.jobs = l
  have : ∀ (l : List (String × Job)) (t0 : T),
      (l.foldl (fun t ke => if ke.1 ∈ t.jobs then
          if ke.2.schedule.Path ≠ p then t else t.Del ke.2.schedule else t) t0).enabled
        = t0.enabled := by
    intro l
    induction l with
    | nil => intro t0; rfl
    | cons a l ih =>
      intro t0
      rw [List.foldl_cons, ih]
      split
      · split
        · rfl
        · exact Del_enabled _ _
      · rfl
  exact this l t

theorem DelPath_of_empty (visit : List String → List String) (p : path.T) (t : T)
    (h : t.jobs = ∅) : t.DelPath visit p = t := by
  unfold T.DelPath
  rw [h, RangeMap.range_empty]
  rfl

theorem Purge_enabled (visit : List String → List String) (t : T) :
    (t.Purge visit).enabled = t.enabled := by
  unfold T.Purge
  generalize RangeMap.range visit t.jobs = l
  have : ∀ (l : List (String × Job)) (t0 : T),
      (l.foldl (fun t ke => if ke.1 ∈ t.jobs then
          { t with cancelled := t.cancelled ++ [ke.2.cancel], jobs := t.jobs.erase ke.1 }
        else t) t0).enabled = t0.enabled := by
    intro l
    induction l with
    | nil => intro t0; rfl
    | cons a l ih =>
      intro t0
      rw [List.foldl_cons, ih]
      split <;> rfl
  exact this l t

/-- The members of the jobs map while `Purge` goes through a list of entries. -/
theorem mem_purge_foldl (l : List (String × Job)) (t0 : T) (k : String) :
    k ∈ (l.foldl (fun t ke => if ke.1 ∈ t.jobs then
          { t with cancelled := t.cancelled ++ [ke.2.cancel], jobs := t.jobs.erase ke.1 }
        else t) t0).jobs ↔ k ∈ t0.jobs ∧ k ∉ l.map Prod.fst := by
  induction l generalizing t0 with
  | nil => simp
  | cons a l ih =>
    rw [List.foldl_cons, ih]
    by_cases ha : a.1 ∈ t0.jobs
    · simp only [ha, if_true, AList.mem_erase, List.map_cons, List.mem_cons, not_or]
      tauto
    · simp only [ha, if_false, List.map_cons, List.mem_cons, not_or]
      constructor
      · rintro ⟨h1, h2⟩
        exact ⟨h1, fun e => ha (e ▸ h1), h2⟩
      · rintro ⟨h1, -, h2⟩
        exact ⟨h1, h2⟩

/-- After `Purge` the jobs map is empty, when the `range` statement goes
through each key. -/
theorem Purge_jobs (visit : List String → List String) (t : T)
    (hp : ∀ l, (visit l).Perm l) : (t.Purge visit).jobs = ∅ := by
  apply RangeMap.eq_empty_of_forall_not_mem
  intro k hk
  unfold T.Purge at hk
  rw [mem_purge_foldl] at hk
  exact hk.2 ((RangeMap.mem_range_keys visit t.jobs (hp _) k).2 hk.1)

theorem hasAnyJob_of_empty (visit : List String → List String) (p : path.T) (t : T)
    (h : t.jobs = ∅) : t.hasAnyJob visit p = false := by
  unfold T.hasAnyJob
  rw [h, RangeMap.range_empty]
  rfl

theorem status_invariant (env : Env) (p : path.T) (c1 c2 : Bool) (t : T)
    (h : t.enabled = false → t.jobs = ∅) :
    (if c1 = true then t.schedule env p
      else if c2 = true then t.unschedule env p else t).enabled = false →
    (if c1 = true then t.schedule env p
      else if c2 = true then t.unschedule env p else t).jobs = ∅ := by
  split
  · rw [schedule_enabled]
    intro hd
    rw [schedule_of_disabled _ _ _ hd]
    exact h hd
  · split
    · rw [T.unschedule, DelPath_enabled]
      intro hd
      rw [DelPath_of_empty _ _ _ (h hd)]
      exact h hd
    · exact h

theorem scenarioEnv_visit (l : List String) : (scenarioEnv.visit l).Perm l := List.Perm.refl l

/-- The state after a list of events handled in turn is reachable. -/
theorem reachable_foldl (env : Env) (hp : ∀ l, (env.visit l).Perm l) (evs : List Event) (t : T)
    (h : Reachable t) : Reachable (evs.foldl (fun t ev => t.loop env ev) t) := by
  induction evs generalizing t with
  | nil => exact h
  | cons ev evs ih => exact ih _ (.step env ev t h hp)

/-- One turn of the loop keeps: while scheduling is disabled there is no job. -/
theorem loop_invariant (env : Env) (ev : Event) (t : T) (hp : ∀ l, (env.visit l).Perm l)
    (h : t.enabled = false → t.jobs = ∅) :
    (t.loop env ev).enabled = false → (t.loop env ev).jobs = ∅ := by
  cases ev with
  | InstanceConfigUpdated p =>
    simp only [T.loop, T.onInstConfigUpdated]
    by_cases he : t.enabled = true
    · rw [if_pos he, scheduleObject_enabled, T.unschedule, DelPath_enabled, he]
      intro hc; exact absurd hc (by decide)
    · rw [if_neg he]; exact h
  | InstanceStatusDeleted p =>
    simp only [T.loop, T.onInstStatusDeleted, T.unschedule]
    rw [DelPath_enabled]
    intro hd
    rw [DelPath_of_empty _ _ _ (h hd)]
    exact h hd
  | ObjectStatusDeleted p => exact h
  | ObjectStatusUpdated p isProvisioned =>
    exact status_invariant env p _ _
      { t with provisioned := fun q => if q = p then some isProvisioned else t.provisioned q } h
  | NodeConfigUpdated =>
    simp only [T.loop, T.onNodeConfigUpdated]
    by_cases he : t.enabled = true
    · rw [if_pos he, scheduleNode_enabled, T.unschedule, DelPath_enabled, he]
      intro hc; exact absurd hc (by decide)
    · rw [if_neg he]; exact h
  | NodeMonitorUpdated state =>
    simp only [T.loop, T.onNodeMonitorUpdated]
    split
    · intro _
      exact Purge_jobs _ _ hp
    · split
      · rw [scheduleAll_enabled]
        intro hc; exact Bool.noConfusion hc
      · exact h
  | eventJobDone s b f err r =>
    simp only [T.loop]
    rw [createJob_enabled]
    intro hd
    rw [createJob_of_disabled _ _ _ hd (h hd)]
    exact h hd
  | unsupported => exact h
  | ctxDone =>
    simp only [T.loop]
    intro _
    exact Purge_jobs _ _ hp

end scheduler

/-- C14: in every state reachable from the initial state (scheduling disabled,
no job) by handled events, whatever is read from outside, if scheduling is
disabled then the jobs map is empty. -/
theorem C14_disabled_no_jobs (t : scheduler.T) (hr : scheduler.Reachable t)
    (hd : t.enabled = false) : t.jobs = ∅ := by
  induction hr with
  | init => rfl
  | step env ev t _ hp ih => exact scheduler.loop_invariant env ev t hp ih hd

/-- Witness of C14: scheduling is enabled, then disabled by the maintenance
state: no job is left. -/
theorem C14_disabled_no_jobs_witness :
    (((scheduler.New.loop scheduler.scenarioEnv (.NodeMonitorUpdated .Idle)).loop
        scheduler.scenarioEnv (.ObjectStatusUpdated scheduler.scenarioPath true)).loop
        scheduler.scenarioEnv (.NodeMonitorUpdated .Maintenance)).jobs = ∅ :=
  C14_disabled_no_jobs _
    (.step scheduler.scenarioEnv _ _ (.step scheduler.scenarioEnv _ _
      (.step scheduler.scenarioEnv _ _ .init scheduler.scenarioEnv_visit)
      scheduler.scenarioEnv_visit) scheduler.scenarioEnv_visit)
    (by decide)

/-- C15, as stated, fails: with the clock at 100 before `GetNext`, a next run
at 102 and the clock at 105 when the job is added, the job stored has
`NextRunAt` 102, before its `Queued` time 105. -/
theorem C15_next_run_counterexample :
    scheduler.scenarioLate.now ≤ scheduler.scenarioLate.queued ∧
      (scheduler.T.createJob scheduler.scenarioLate scheduler.scenarioEntry
          { scheduler.New with enabled := true }).jobs.lookup
          (scheduler.entryKey scheduler.scenarioEntry)
        = some { Queued := 105, schedule := { scheduler.scenarioEntry with NextRunAt := 102 },
                 cancel := 0 } ∧
      ¬ ((105 : Int) ≤ 102) := by
  decide

/-- C15, amended: the job that `createJob` stores for an entry has its
`NextRunAt`, the time `GetNext` gave, not before the clock reading taken
before `GetNext`, and its `Queued` time is the later reading taken when the
job is added. -/
theorem C15_next_run (r : scheduler.Reading) (e : schedule.Entry) (t : scheduler.T)
    (job : scheduler.Job)
    (h : (t.createJob r e).jobs.lookup (scheduler.entryKey e) = some job) :
    r.now ≤ job.schedule.NextRunAt ∧ job.Queued = r.queued ∧
      r.next = some job.schedule.NextRunAt := by
  unfold scheduler.T.createJob at h
  simp only [] at h
  split at h
  · rw [scheduler.Del_lookup] at h; exact absurd h (by simp)
  · split at h
    · rw [scheduler.Del_enabled] at *
      have := scheduler.Del_lookup e (t.Del e)
      rw [this] at h; exact absurd h (by simp)
    · next next hn =>
      split at h
      · have := scheduler.Del_lookup e (t.Del e)
        rw [this] at h; exact absurd h (by simp)
      · next hlt =>
        have hk : scheduler.entryKey { e with NextRunAt := next } = scheduler.entryKey e := rfl
        simp only [scheduler.T.Add, hk, AList.lookup_insert, Option.some.injEq] at h
        subst h
        exact ⟨not_lt.1 hlt, rfl, hn⟩

/-- Witness of C15 (amended): the job stored in the scenario. -/
theorem C15_next_run_witness :
    scheduler.scenarioLate.now ≤ (102 : Int) ∧ (105 : Int) = scheduler.scenarioLate.queued ∧
      scheduler.scenarioLate.next = some 102 :=
  C15_next_run scheduler.scenarioLate scheduler.scenarioEntry
    { scheduler.New with enabled := true }
    { Queued := 105, schedule := { scheduler.scenarioEntry with NextRunAt := 102 }, cancel := 0 }
    (by decide)

/-- C16, on the code: the state reached when an object is seen provisioned,
its job is armed, the object is seen unprovisioned, and the job, whose timer
had fired, reports it is done, holds a job for the object though the object is
recorded as not provisioned: `createJob` reschedules the entry of a finished
job without the check `scheduleObject` makes. -/
theorem C16_job_of_unprovisioned :
    scheduler.Reachable
        (scheduler.scenarioEvents.foldl (fun t ev => t.loop scheduler.scenarioEnv ev)
          scheduler.New) ∧
      (scheduler.scenarioEvents.foldl (fun t ev => t.loop scheduler.scenarioEnv ev)
          scheduler.New).enabled = true ∧
      (scheduler.scenarioEvents.foldl (fun t ev => t.loop scheduler.scenarioEnv ev)
          scheduler.New).provisioned scheduler.scenarioPath = some false ∧
      ((scheduler.scenarioEvents.foldl (fun t ev => t.loop scheduler.scenarioEnv ev)
          scheduler.New).jobs.lookup (scheduler.entryKey scheduler.scenarioEntry)).map
          (fun job => job.schedule.Path) = some scheduler.scenarioPath := by
  refine ⟨?_, by decide, by decide, by decide⟩
  exact scheduler.reachable_foldl _ scheduler.scenarioEnv_visit _ _ .init

/-! ## The heartbeat rescan -/

namespace hb

theorem stopHb_view (drv : Drivers) (isTx : Bool) (hbId : String) (t : T) :
    (t.stopHb drv isTx hbId).1.ridSignature = t.ridSignature ∧
      (t.stopHb drv isTx hbId).1.calls = t.calls ∧
      (t.stopHb drv isTx hbId).1.rxs = t.rxs ∧
      (t.stopHb drv isTx hbId).2 = drv.Stop hbId := by
  unfold T.stopHb
  cases isTx <;> simp

/-- A stop of a rid records the call and leaves the recorded signatures. -/
theorem stopHbRid_view (drv : Drivers) (rid : String) (t : T) :
    (t.stopHbRid drv rid).1.ridSignature = t.ridSignature ∧
      (t.stopHbRid drv rid).1.calls = t.calls ++ [Call.stopHbRid rid] := by
  unfold T.stopHbRid
  simp only []
  repeat' split
  all_goals simp [stopHb_view]

/-- A stop of a rid returns no error when no component fails to stop. -/
theorem stopHbRid_ok (drv : Drivers) (hstop : ∀ id, drv.Stop id = none) (rid : String) (t : T) :
    (t.stopHbRid drv rid).2 = none := by
  unfold T.stopHbRid
  simp only [stopHb_view, hstop]
  repeat' split
  all_goals simp_all

theorem startHbRx_view (drv : Drivers) (h : Confer) (t : T) :
    (t.startHbRx drv h).1.ridSignature = t.ridSignature ∧
      (t.startHbRx drv h).1.calls = t.calls := by
  unfold T.startHbRx
  repeat' split
  all_goals simp

theorem startHbTx_view (drv : Drivers) (h : Confer) (t : T) :
    (t.startHbTx drv h).1.ridSignature = t.ridSignature ∧
      (t.startHbTx drv h).1.calls = t.calls := by
  unfold T.startHbTx
  repeat' split
  all_goals simp

/-- A start records the call and leaves the recorded signatures. -/
theorem startHb_view (drv : Drivers) (h : Confer) (t : T) :
    (t.startHb drv h).1.ridSignature = t.ridSignature ∧
      (t.startHb drv h).1.calls = t.calls ++ [Call.startHb h.Name h.Signature] := by
  unfold T.startHb
  simp only []
  repeat' split
  all_goals simp [startHbRx_view, startHbTx_view]

/-- A start returns no error when the driver has a receiver and a
transmitter and both start. -/
theorem startHb_ok (drv : Drivers) (hstart : ∀ id, drv.Start id = none) (h : Confer)
    (hrx : h.Rx.isSome = true) (htx : h.Tx.isSome = true) (t : T) :
    (t.startHb drv h).2 = none := by
  obtain ⟨rx, hrx⟩ := Option.isSome_iff_exists.1 hrx
  obtain ⟨tx, htx⟩ := Option.isSome_iff_exists.1 htx
  unfold T.startHb T.startHbRx T.startHbTx
  simp [hrx, htx, hstart]

end hb

namespace RangeMap

/-- The members of a map built by successive insertions. -/
theorem mem_foldl_insert {α β : Type} (f : String × α → β) (l : List (String × α))
    (m : RangeMap β) (r : String) :
    r ∈ l.foldl (fun m kv => m.insert kv.1 (f kv)) m ↔ r ∈ m ∨ r ∈ l.map Prod.fst := by
  induction l generalizing m with
  | nil => simp
  | cons kv l ih =>
    rw [List.foldl_cons, ih, AList.mem_insert, List.map_cons, List.mem_cons]
    constructor
    · rintro ((h | h) | h)
      · exact Or.inr (Or.inl h)
      · exact Or.inl h
      · exact Or.inr (Or.inr h)
    · rintro (h | h | h)
      · exact Or.inl (Or.inr h)
      · exact Or.inl (Or.inl h)
      · exact Or.inr h

/-- A key that is not inserted keeps its value. -/
theorem lookup_foldl_insert_of_not_mem {α β : Type} (f : String × α → β)
    (l : List (String × α)) (m : RangeMap β) (r : String) (h : r ∉ l.map Prod.fst) :
    (l.foldl (fun m kv => m.insert kv.1 (f kv)) m).lookup r = m.lookup r := by
  induction l generalizing m with
  | nil => rfl
  | cons kv l ih =>
    rw [List.map_cons, List.mem_cons, not_or] at h
    rw [List.foldl_cons, ih _ h.2, AList.lookup_insert_ne h.1]

/-- The value of a key inserted once. -/
theorem lookup_foldl_insert_of_mem {α β : Type} (f : String × α → β)
    (l : List (String × α)) (hn : (l.map Prod.fst).Nodup) (m : RangeMap β) (kv : String × α)
    (h : kv ∈ l) : (l.foldl (fun m kv => m.insert kv.1 (f kv)) m).lookup kv.1 = some (f kv) := by
  induction l generalizing m with
  | nil => cases h
  | cons x l ih =>
    rw [List.map_cons, List.nodup_cons] at hn
    rw [List.foldl_cons]
    rcases List.mem_cons.1 h with rfl | h
    · rw [lookup_foldl_insert_of_not_mem f l _ _ hn.1, AList.lookup_insert]
    · exact ih hn.2 _ h

/-- What a `range` statement goes through, when each key is visited once: the
entries of the map. -/
theorem mem_range_iff {α : Type} (visit : List String → List String) (m : RangeMap α)
    (hp : (visit m.keys).Perm m.keys) (kv : String × α) :
    kv ∈ range visit m ↔ m.lookup kv.1 = some kv.2 := by
  constructor
  · exact lookup_of_mem_range visit m kv
  · intro h
    simp only [range, List.mem_filterMap, Option.map_eq_some']
    refine ⟨kv.1, hp.mem_iff.2 (AList.mem_keys.1 (AList.lookup_isSome.1 ?_)), kv.2, h, rfl⟩
    rw [h]; rfl

theorem not_mem_iff_lookup {α : Type} (m : RangeMap α) (r : String) :
    r ∉ m ↔ m.lookup r = none := by
  rw [← AList.lookup_isSome]
  cases m.lookup r <;> simp

end RangeMap

namespace hb

/-- Every driver of `getHbConfigured` is a configured one, under its name. -/
theorem getHbConfigured_lookup (hbs : List Confer) (r : String) (h : Confer)
    (hl : (getHbConfigured (.ok hbs)).1.lookup r = some h) : h ∈ hbs ∧ h.Name = r := by
  have key : ∀ (l : List Confer) (m : RangeMap Confer),
      (l.foldl (fun ridHb h => ridHb.insert h.Name h) m).lookup r = some h →
        (h ∈ l ∧ h.Name = r) ∨ m.lookup r = some h := by
    intro l
    induction l with
    | nil => intro m hm; exact Or.inr hm
    | cons x l ih =>
      intro m hm
      rw [List.foldl_cons] at hm
      rcases ih _ hm with ⟨h1, h2⟩ | h1
      · exact Or.inl ⟨List.mem_cons_of_mem _ h1, h2⟩
      · by_cases hx : r = x.Name
        · subst hx
          rw [AList.lookup_insert] at h1
          cases h1
          exact Or.inl ⟨List.mem_cons_self _ _, rfl⟩
        · rw [AList.lookup_insert_ne hx] at h1
          exact Or.inr h1
  rcases key hbs ∅ hl with h1 | h1
  · exact h1
  · rw [AList.lookup_empty] at h1; cases h1

/-- The signatures `rescanHb` compares with: the configured ones. -/
theorem ridSignatureNew_lookup (visit : List String → List String)
    (hv : ∀ l, (visit l).Perm l) (hbs : List Confer) (r : String) :
    (((getHbConfigured (.ok hbs)).1.range visit).foldl
      (fun m kv => m.insert kv.1 kv.2.Signature) (∅ : RangeMap String)).lookup r =
      desiredSignature hbs r := by
  unfold desiredSignature
  cases hl : (getHbConfigured (.ok hbs)).1.lookup r with
  | none =>
    have hn : r ∉ ((getHbConfigured (.ok hbs)).1.range visit).map Prod.fst := by
      rw [RangeMap.mem_range_keys _ _ (hv _), RangeMap.not_mem_iff_lookup]
      exact hl
    exact (RangeMap.lookup_foldl_insert_of_not_mem
      (fun kv : String × Confer => kv.2.Signature) _ ∅ r hn).trans (AList.lookup_empty r)
  | some h =>
    have hm : (r, h) ∈ (getHbConfigured (.ok hbs)).1.range visit :=
      (RangeMap.mem_range_iff _ _ (hv _) (r, h)).2 hl
    exact RangeMap.lookup_foldl_insert_of_mem (fun kv : String × Confer => kv.2.Signature) _
      (RangeMap.nodup_range_keys _ _ (hv _)) _ (r, h) hm

end hb

namespace hb

/-- First loop of `rescanHb` when no stop fails: the rids out of the
configuration are stopped, the others keep their recorded signature. -/
theorem rescanDeleted_foldl (drv : Drivers)
    (hstop : ∀ rid t, (T.stopHbRid drv rid t).2 = none) (new : RangeMap String)
    (l : List (String × String)) (t : T) (errs : List String) :
    ∃ t1, l.foldl (rescanDeleted drv new) (t, errs) = (t1, errs) ∧
      t1.calls = t.calls ++
        (l.filter (fun kv => decide (kv.1 ∉ new))).map (fun kv => Call.stopHbRid kv.1) ∧
      ∀ r, r ∈ new → t1.ridSignature.lookup r = t.ridSignature.lookup r := by
  induction l generalizing t with
  | nil => exact ⟨t, rfl, by simp, fun _ _ => rfl⟩
  | cons kv l ih =>
    by_cases hk : kv.1 ∈ new
    · obtain ⟨t1, h1, h2, h3⟩ := ih t
      refine ⟨t1, ?_, ?_, h3⟩
      · rw [List.foldl_cons]
        simpa [rescanDeleted, hk] using h1
      · simpa [hk] using h2
    · obtain ⟨t1, h1, h2, h3⟩ :=
        ih { (t.stopHbRid drv kv.1).1 with
              ridSignature := (t.stopHbRid drv kv.1).1.ridSignature.erase kv.1 }
      refine ⟨t1, ?_, ?_, ?_⟩
      · rw [List.foldl_cons]
        simpa [rescanDeleted, hk, hstop] using h1
      · rw [h2]
        simp [hk, (stopHbRid_view drv kv.1 t).2]
      · intro r hr
        rw [h3 r hr]
        have hne : r ≠ kv.1 := fun h => hk (h ▸ hr)
        simp only []
        rw [AList.lookup_erase_ne hne, (stopHbRid_view drv kv.1 t).1]

/-- First loop of `rescanHb` when every recorded rid is configured: nothing
is done. -/
theorem rescanDeleted_foldl_same (drv : Drivers) (new : RangeMap String)
    (l : List (String × String)) (hl : ∀ kv ∈ l, kv.1 ∈ new) (acc : T × List String) :
    l.foldl (rescanDeleted drv new) acc = acc := by
  induction l with
  | nil => rfl
  | cons kv l ih =>
    rw [List.foldl_cons]
    have hk : kv.1 ∈ new := hl kv (List.mem_cons_self _ _)
    simpa [rescanDeleted, hk] using ih (fun x hx => hl x (List.mem_cons_of_mem _ hx))

/-- Second loop of `rescanHb` when no stop fails: the rids of a changed
signature are stopped and collected, the recorded signatures stay. -/
theorem rescanChanged_foldl (drv : Drivers)
    (hstop : ∀ rid t, (T.stopHbRid drv rid t).2 = none)
    (l : List (String × String)) (t : T) (errs : List String) (st : RangeMap String) :
    ∃ t1, l.foldl (rescanChanged drv) (t, errs, st) =
        (t1, errs, (l.filter (sigChanged t.ridSignature)).foldl
          (fun m kv => m.insert kv.1 kv.2) st) ∧
      t1.ridSignature = t.ridSignature ∧
      t1.calls = t.calls ++
        (l.filter (sigChanged t.ridSignature)).map (fun kv => Call.stopHbRid kv.1) := by
  induction l generalizing t st with
  | nil => exact ⟨t, rfl, rfl, by simp⟩
  | cons kv l ih =>
    by_cases hc : sigChanged t.ridSignature kv = true
    · obtain ⟨t1, h1, h2, h3⟩ := ih (t.stopHbRid drv kv.1).1 (st.insert kv.1 kv.2)
      rw [(stopHbRid_view drv kv.1 t).1] at h1 h2 h3
      have hstep : rescanChanged drv (t, errs, st) kv =
          ((t.stopHbRid drv kv.1).1, errs, st.insert kv.1 kv.2) := by
        unfold sigChanged at hc
        unfold rescanChanged
        cases hlk : t.ridSignature.lookup kv.1 with
        | none => rw [hlk] at hc; cases hc
        | some sig =>
          rw [hlk] at hc
          have hne : sig ≠ kv.2 := of_decide_eq_true hc
          simp [hlk, hne, hstop]
      refine ⟨t1, ?_, h2, ?_⟩
      · rw [List.foldl_cons, hstep, h1, List.filter_cons_of_pos hc, List.foldl_cons]
      · rw [h3, List.filter_cons_of_pos hc, (stopHbRid_view drv kv.1 t).2]
        simp
    · obtain ⟨t1, h1, h2, h3⟩ := ih t st
      have hstep : rescanChanged drv (t, errs, st) kv = (t, errs, st) := by
        unfold sigChanged at hc
        unfold rescanChanged
        cases hlk : t.ridSignature.lookup kv.1 with
        | none => simp [hlk]
        | some sig =>
          rw [hlk] at hc
          have he : sig = kv.2 := by
            by_contra hne
            exact hc (decide_eq_true hne)
          simp [hlk, he]
      refine ⟨t1, ?_, h2, ?_⟩
      · rw [List.foldl_cons, hstep, h1, List.filter_cons_of_neg hc]
      · rw [h3, List.filter_cons_of_neg hc]

/-- Second loop of `rescanHb` when no signature differs: nothing is done. -/
theorem rescanChanged_foldl_same (drv : Drivers) (l : List (String × String))
    (acc : T × List String × RangeMap String)
    (hl : ∀ kv ∈ l, sigChanged acc.1.ridSignature kv = false) :
    l.foldl (rescanChanged drv) acc = acc := by
  induction l with
  | nil => rfl
  | cons kv l ih =>
    rw [List.foldl_cons]
    have hc := hl kv (List.mem_cons_self _ _)
    have hstep : rescanChanged drv acc kv = acc := by
      unfold sigChanged at hc
      unfold rescanChanged
      cases hlk : acc.1.ridSignature.lookup kv.1 with
      | none => simp [hlk]
      | some sig =>
        rw [hlk] at hc
        have he : sig = kv.2 := by
          by_contra hne
          exact Bool.noConfusion ((decide_eq_true hne).symm.trans hc)
        simp [hlk, he]
    rw [hstep]
    exact ih (fun x hx => hl x (List.mem_cons_of_mem _ hx))

end hb

namespace hb

/-- Third loop of `rescanHb` when no start fails: every stopped rid is
started and recorded. -/
theorem rescanRestart_foldl (drv : Drivers) (ridHb : RangeMap Confer)
    (l : List (String × String))
    (hl : ∀ kv ∈ l, ∃ h, ridHb.lookup kv.1 = some h ∧ h.Name = kv.1 ∧ h.Signature = kv.2 ∧
      ∀ t, (T.startHb drv h t).2 = none)
    (t : T) (errs : List String) :
    ∃ t1, l.foldl (rescanRestart drv ridHb) (t, errs) = (t1, errs) ∧
      t1.calls = t.calls ++ l.map (fun kv => Call.startHb kv.1 kv.2) ∧
      ∀ r, r ∈ t1.ridSignature ↔ r ∈ t.ridSignature ∨ r ∈ l.map Prod.fst := by
  induction l generalizing t with
  | nil => exact ⟨t, rfl, by simp, by simp⟩
  | cons kv l ih =>
    obtain ⟨h, hh, hname, hsig, hok⟩ := hl kv (List.mem_cons_self _ _)
    obtain ⟨t1, h1, h2, h3⟩ := ih (fun x hx => hl x (List.mem_cons_of_mem _ hx))
      { (t.startHb drv h).1 with
        ridSignature := (t.startHb drv h).1.ridSignature.insert kv.1 kv.2 }
    have hstep : rescanRestart drv ridHb (t, errs) kv =
        ({ (t.startHb drv h).1 with
            ridSignature := (t.startHb drv h).1.ridSignature.insert kv.1 kv.2 }, errs) := by
      unfold rescanRestart
      simp [hh, hok]
    refine ⟨t1, ?_, ?_, ?_⟩
    · rw [List.foldl_cons, hstep, h1]
    · rw [h2]
      simp only []
      rw [(startHb_view drv h t).2, hname, hsig]
      simp
    · intro r
      rw [h3 r]
      simp only []
      rw [AList.mem_insert, (startHb_view drv h t).1, List.map_cons, List.mem_cons]
      constructor
      · rintro ((h | h) | h)
        · exact Or.inr (Or.inl h)
        · exact Or.inl h
        · exact Or.inr (Or.inr h)
      · rintro (h | h | h)
        · exact Or.inl (Or.inr h)
        · exact Or.inl (Or.inl h)
        · exact Or.inr h

/-- Fourth loop of `rescanHb` when no start fails: the rids without a
recorded signature are started. -/
theorem rescanNew_foldl (drv : Drivers) (ridHb : RangeMap Confer)
    (l : List (String × String))
    (hl : ∀ kv ∈ l, ∃ h, ridHb.lookup kv.1 = some h ∧ h.Name = kv.1 ∧ h.Signature = kv.2 ∧
      ∀ t, (T.startHb drv h t).2 = none)
    (hn : (l.map Prod.fst).Nodup) (t : T) (errs : List String) :
    ∃ t1, l.foldl (rescanNew drv ridHb) (t, errs) = (t1, errs) ∧
      t1.calls = t.calls ++
        (l.filter (fun kv => decide (kv.1 ∉ t.ridSignature))).map
          (fun kv => Call.startHb kv.1 kv.2) := by
  induction l generalizing t with
  | nil => exact ⟨t, rfl, by simp⟩
  | cons kv l ih =>
    obtain ⟨h, hh, hname, hsig, hok⟩ := hl kv (List.mem_cons_self _ _)
    rw [List.map_cons, List.nodup_cons] at hn
    have htail : ∀ (rs : RangeMap String),
        l.filter (fun x => decide (x.1 ∉ rs.insert kv.1 kv.2)) =
          l.filter (fun x => decide (x.1 ∉ rs)) := by
      intro rs
      apply List.filter_congr
      intro x hx
      have hne : x.1 ≠ kv.1 := fun he => hn.1 (he ▸ List.mem_map_of_mem Prod.fst hx)
      simp [AList.mem_insert, hne]
    by_cases hk : kv.1 ∈ t.ridSignature
    · obtain ⟨t1, h1, h2⟩ := ih (fun x hx => hl x (List.mem_cons_of_mem _ hx)) hn.2
        { t with ridSignature := t.ridSignature.insert kv.1 kv.2 }
      have hstep : rescanNew drv ridHb (t, errs) kv =
          ({ t with ridSignature := t.ridSignature.insert kv.1 kv.2 }, errs) := by
        unfold rescanNew
        simp [hk]
      refine ⟨t1, ?_, ?_⟩
      · rw [List.foldl_cons, hstep, h1]
      · rw [h2]
        simp only []
        rw [htail, List.filter_cons_of_neg (by simpa using hk)]
    · obtain ⟨t1, h1, h2⟩ := ih (fun x hx => hl x (List.mem_cons_of_mem _ hx)) hn.2
        { (t.startHb drv h).1 with
          ridSignature := (t.startHb drv h).1.ridSignature.insert kv.1 kv.2 }
      have hstep : rescanNew drv ridHb (t, errs) kv =
          ({ (t.startHb drv h).1 with
              ridSignature := (t.startHb drv h).1.ridSignature.insert kv.1 kv.2 }, errs) := by
        unfold rescanNew
        simp [hk, hh, hok]
      refine ⟨t1, ?_, ?_⟩
      · rw [List.foldl_cons, hstep, h1]
      · rw [h2]
        simp only []
        rw [(startHb_view drv h t).1, (startHb_view drv h t).2, htail,
          List.filter_cons_of_pos (by simpa using hk), hname, hsig]
        simp

/-- Fourth loop of `rescanHb` when every rid has its signature recorded: no
start, and every recorded signature stays. -/
theorem rescanNew_foldl_same (drv : Drivers) (ridHb : RangeMap Confer)
    (l : List (String × String)) (t : T) (errs : List String)
    (hl : ∀ kv ∈ l, t.ridSignature.lookup kv.1 = some kv.2) :
    ∃ t1, l.foldl (rescanNew drv ridHb) (t, errs) = (t1, errs) ∧ t1.calls = t.calls ∧
      ∀ r, t1.ridSignature.lookup r = t.ridSignature.lookup r := by
  induction l generalizing t with
  | nil => exact ⟨t, rfl, rfl, fun _ => rfl⟩
  | cons kv l ih =>
    have hlk := hl kv (List.mem_cons_self _ _)
    have hk : kv.1 ∈ t.ridSignature := by
      rw [← AList.lookup_isSome, hlk]; rfl
    have hsame : ∀ r, (t.ridSignature.insert kv.1 kv.2).lookup r = t.ridSignature.lookup r := by
      intro r
      by_cases hr : r = kv.1
      · rw [hr, AList.lookup_insert, hlk]
      · rw [AList.lookup_insert_ne hr]
    obtain ⟨t1, h1, h2, h3⟩ := ih { t with ridSignature := t.ridSignature.insert kv.1 kv.2 }
      (fun x hx => (hsame x.1).trans (hl x (List.mem_cons_of_mem _ hx)))
    have hstep : rescanNew drv ridHb (t, errs) kv =
        ({ t with ridSignature := t.ridSignature.insert kv.1 kv.2 }, errs) := by
      unfold rescanNew
      simp [hk]
    refine ⟨t1, ?_, h2, fun r => (h3 r).trans (hsame r)⟩
    rw [List.foldl_cons, hstep, h1]

end hb

namespace hb

theorem sigChanged_iff (rs : RangeMap String) (kv : String × String) :
    sigChanged rs kv = true ↔ ∃ s, rs.lookup kv.1 = some s ∧ s ≠ kv.2 := by
  unfold sigChanged
  cases h : rs.lookup kv.1 with
  | none => simp
  | some s => simp

/-- The rid of a configured signature has a configured driver of that name
and signature. -/
theorem desiredSignature_driver (hbs : List Confer) (r s : String)
    (h : desiredSignature hbs r = some s) :
    ∃ c, (getHbConfigured (.ok hbs)).1.lookup r = some c ∧ c.Name = r ∧ c.Signature = s ∧
      c ∈ hbs := by
  unfold desiredSignature at h
  cases hl : (getHbConfigured (.ok hbs)).1.lookup r with
  | none => rw [hl] at h; cases h
  | some c =>
    rw [hl] at h
    obtain ⟨hm, hname⟩ := getHbConfigured_lookup hbs r c hl
    exact ⟨c, rfl, hname, Option.some.inj h, hm⟩

/-- The starts of a list of configured rids, as start calls. -/
theorem map_startHb (hbs : List Confer) (l : List (String × String))
    (hl : ∀ kv ∈ l, desiredSignature hbs kv.1 = some kv.2) :
    l.map (fun kv => Call.startHb kv.1 kv.2) = (l.map Prod.fst).map (startCall hbs) := by
  rw [List.map_map]
  apply List.map_congr_left
  intro kv hkv
  simp [startCall, hl kv hkv]

theorem map_stopHbRid (l : List (String × String)) :
    l.map (fun kv => Call.stopHbRid kv.1) = (l.map Prod.fst).map Call.stopHbRid := by
  rw [List.map_map]
  rfl

/-- The method `rescanHb` when no stop and no start fails: the state after the
four loops. -/
theorem rescanHb_ok (visit : Nat → List String → List String)
    (hv : ∀ i l, (visit i l).Perm l) (drv : Drivers) (hbs : List Confer) (t : T)
    (hstop : ∀ rid t1, (T.stopHbRid drv rid t1).2 = none)
    (hstart : ∀ h ∈ hbs, ∀ t1, (T.startHb drv h t1).2 = none)
    (new stopped : RangeMap String)
    (hnew : new = ((getHbConfigured (.ok hbs)).1.range (visit 0)).foldl
      (fun m kv => m.insert kv.1 kv.2.Signature) ∅)
    (hstopped : stopped = ((new.range (visit 2)).filter (sigChanged t.ridSignature)).foldl
      (fun m kv => m.insert kv.1 kv.2) ∅) :
    (t.rescanHb visit drv (.ok hbs)).2 = none ∧
      (t.rescanHb visit drv (.ok hbs)).1.calls = t.calls ++
        (((t.ridSignature.range (visit 1)).filter (fun kv => decide (kv.1 ∉ new))).map
          Prod.fst).map Call.stopHbRid ++
        (((new.range (visit 2)).filter (sigChanged t.ridSignature)).map
          Prod.fst).map Call.stopHbRid ++
        ((stopped.range (visit 3)).map Prod.fst).map (startCall hbs) ++
        (((new.range (visit 4)).filter (fun kv => decide (kv.1 ∉ t.ridSignature))).map
          Prod.fst).map (startCall hbs) := by
  have hlook : ∀ r, new.lookup r = desiredSignature hbs r := by
    intro r
    rw [hnew]
    exact ridSignatureNew_lookup (visit 0) (hv 0) hbs r
  have hdrv : ∀ kv : String × String, new.lookup kv.1 = some kv.2 →
      ∃ h, (getHbConfigured (.ok hbs)).1.lookup kv.1 = some h ∧ h.Name = kv.1 ∧
        h.Signature = kv.2 ∧ ∀ t1, (T.startHb drv h t1).2 = none := by
    intro kv hkv
    rw [hlook] at hkv
    obtain ⟨c, h1, h2, h3, h4⟩ := desiredSignature_driver hbs kv.1 kv.2 hkv
    exact ⟨c, h1, h2, h3, hstart c h4⟩
  obtain ⟨t1, e1, c1, k1⟩ :=
    rescanDeleted_foldl drv hstop new (t.ridSignature.range (visit 1)) t []
  obtain ⟨t2, e2, rs2, c2⟩ := rescanChanged_foldl drv hstop (new.range (visit 2)) t1 [] ∅
  -- the second loop sees the signatures recorded before the rescan
  have hfilter : (new.range (visit 2)).filter (sigChanged t1.ridSignature) =
      (new.range (visit 2)).filter (sigChanged t.ridSignature) := by
    apply List.filter_congr
    intro kv hkv
    have hm : kv.1 ∈ new := by
      rw [← AList.lookup_isSome, RangeMap.lookup_of_mem_range _ _ _ hkv]; rfl
    unfold sigChanged
    rw [k1 kv.1 hm]
  rw [hfilter] at e2 c2
  rw [← hstopped] at e2
  have hstoppedNew : ∀ kv : String × String, stopped.lookup kv.1 = some kv.2 →
      new.lookup kv.1 = some kv.2 := by
    intro kv hkv
    have hm : kv.1 ∈ stopped := by rw [← AList.lookup_isSome, hkv]; rfl
    rw [hstopped, RangeMap.mem_foldl_insert (fun kv : String × String => kv.2)] at hm
    rcases hm with hm | hm
    · exact absurd hm (AList.not_mem_empty _)
    · obtain ⟨x, hx, hx1⟩ := List.mem_map.1 hm
      have hl := RangeMap.lookup_foldl_insert_of_mem (fun kv : String × String => kv.2)
        ((new.range (visit 2)).filter (sigChanged t.ridSignature))
        (((List.filter_sublist _).map Prod.fst).nodup (RangeMap.nodup_range_keys _ _ (hv 2 _)))
        ∅ x hx
      rw [← hstopped, hx1, hkv] at hl
      have hx2 := RangeMap.lookup_of_mem_range _ _ _ (List.mem_of_mem_filter hx)
      rw [hx1] at hx2
      rw [hx2]
      exact hl.symm
  obtain ⟨t3, e3, c3, m3⟩ := rescanRestart_foldl drv (getHbConfigured (.ok hbs)).1
    (stopped.range (visit 3))
    (fun kv hkv => hdrv kv (hstoppedNew kv (RangeMap.lookup_of_mem_range _ _ _ hkv))) t2 []
  obtain ⟨t4, e4, c4⟩ := rescanNew_foldl drv (getHbConfigured (.ok hbs)).1
    (new.range (visit 4))
    (fun kv hkv => hdrv kv (RangeMap.lookup_of_mem_range _ _ _ hkv))
    (RangeMap.nodup_range_keys _ _ (hv 4 _)) t3 []
  -- the fourth loop sees the rids recorded before the rescan
  have hfilter4 : (new.range (visit 4)).filter (fun kv => decide (kv.1 ∉ t3.ridSignature)) =
      (new.range (visit 4)).filter (fun kv => decide (kv.1 ∉ t.ridSignature)) := by
    apply List.filter_congr
    intro kv hkv
    have hm : kv.1 ∈ new := by
      rw [← AList.lookup_isSome, RangeMap.lookup_of_mem_range _ _ _ hkv]; rfl
    have h1 : kv.1 ∈ t1.ridSignature ↔ kv.1 ∈ t.ridSignature := by
      rw [← AList.lookup_isSome, ← AList.lookup_isSome, k1 kv.1 hm]
    have h3 : kv.1 ∈ t3.ridSignature ↔ kv.1 ∈ t.ridSignature := by
      rw [m3, rs2, h1, RangeMap.mem_range_keys _ _ (hv 3 _)]
      constructor
      · rintro (h | h)
        · exact h
        · rw [hstopped, RangeMap.mem_foldl_insert (fun kv : String × String => kv.2)] at h
          rcases h with h | h
          · exact absurd h (AList.not_mem_empty _)
          · obtain ⟨x, hx, hx1⟩ := List.mem_map.1 h
            obtain ⟨s, hs, -⟩ := (sigChanged_iff _ _).1 (List.of_mem_filter hx)
            rw [← hx1, ← AList.lookup_isSome, hs]; rfl
      · exact Or.inl
    simp only [h3]
  rw [hfilter4] at c4
  have hres : t.rescanHb visit drv (.ok hbs) = (t4, none) := by
    simp only [getHbConfigured] at hnew e3 e4
    simp only [T.rescanHb, getHbConfigured]
    rw [← hnew, e1]
    simp only []
    rw [e2]
    simp only []
    rw [e3, e4]
    simp
  rw [hres]
  refine ⟨rfl, ?_⟩
  simp only []
  rw [c4, c3, c2, c1, map_stopHbRid, map_stopHbRid,
    map_startHb hbs _ (fun kv hkv => (hlook kv.1).symm.trans
      (hstoppedNew kv (RangeMap.lookup_of_mem_range _ _ _ hkv))),
    map_startHb hbs _ (fun kv hkv => (hlook kv.1).symm.trans
      (RangeMap.lookup_of_mem_range _ _ _ (List.mem_of_mem_filter hkv)))]

end hb

namespace hb

/-- One turn of the first loop of `rescanHb`, whatever the stop returns: a rid
out of the configuration is stopped, the rids of the configuration keep their
recorded signature, and no error is dropped. -/
theorem rescanDeleted_step (drv : Drivers) (new : RangeMap String) (acc : T × List String)
    (kv : String × String) :
    (rescanDeleted drv new acc kv).1.calls =
        acc.1.calls ++ (if kv.1 ∉ new then [Call.stopHbRid kv.1] else []) ∧
      (∀ r, r ∈ new → (rescanDeleted drv new acc kv).1.ridSignature.lookup r =
        acc.1.ridSignature.lookup r) ∧
      acc.2.length ≤ (rescanDeleted drv new acc kv).2.length := by
  unfold rescanDeleted
  by_cases hk : kv.1 ∈ new
  · simp [hk]
  · simp only [hk, if_false, not_false_eq_true, if_true]
    cases he : (acc.1.stopHbRid drv kv.1).2 with
    | none =>
      refine ⟨(stopHbRid_view drv kv.1 acc.1).2, ?_, le_refl _⟩
      intro r hr
      have hne : r ≠ kv.1 := fun h => hk (h ▸ hr)
      simp only []
      rw [AList.lookup_erase_ne hne, (stopHbRid_view drv kv.1 acc.1).1]
    | some err =>
      refine ⟨(stopHbRid_view drv kv.1 acc.1).2, ?_, ?_⟩
      · intro r _
        simp only []
        rw [(stopHbRid_view drv kv.1 acc.1).1]
      · simp

/-- The first loop of `rescanHb`, whatever the stops return. -/
theorem rescanDeleted_foldl_calls (drv : Drivers) (new : RangeMap String)
    (l : List (String × String)) (acc : T × List String) :
    (l.foldl (rescanDeleted drv new) acc).1.calls = acc.1.calls ++
        (l.filter (fun kv => decide (kv.1 ∉ new))).map (fun kv => Call.stopHbRid kv.1) ∧
      (∀ r, r ∈ new → (l.foldl (rescanDeleted drv new) acc).1.ridSignature.lookup r =
        acc.1.ridSignature.lookup r) ∧
      acc.2.length ≤ (l.foldl (rescanDeleted drv new) acc).2.length := by
  induction l generalizing acc with
  | nil => simp
  | cons kv l ih =>
    obtain ⟨s1, s2, s3⟩ := rescanDeleted_step drv new acc kv
    obtain ⟨h1, h2, h3⟩ := ih (rescanDeleted drv new acc kv)
    rw [List.foldl_cons]
    refine ⟨?_, fun r hr => (h2 r hr).trans (s2 r hr), le_trans s3 h3⟩
    rw [h1, s1]
    by_cases hk : kv.1 ∈ new <;> simp [hk]

/-- One turn of the second loop of `rescanHb`, whatever the stop returns: a
rid of a changed signature is stopped, and collected unless an error is added;
the recorded signatures stay. -/
theorem rescanChanged_step (drv : Drivers) (acc : T × List String × RangeMap String)
    (kv : String × String) :
    (rescanChanged drv acc kv).1.ridSignature = acc.1.ridSignature ∧
      (rescanChanged drv acc kv).1.calls = acc.1.calls ++
        (if sigChanged acc.1.ridSignature kv = true then [Call.stopHbRid kv.1] else []) ∧
      acc.2.1.length ≤ (rescanChanged drv acc kv).2.1.length ∧
      ((rescanChanged drv acc kv).2.1.length = acc.2.1.length →
        (rescanChanged drv acc kv).2.2 =
          if sigChanged acc.1.ridSignature kv = true then acc.2.2.insert kv.1 kv.2
          else acc.2.2) := by
  cases hl : acc.1.ridSignature.lookup kv.1 with
  | none => simp [rescanChanged, sigChanged, hl]
  | some sig =>
    by_cases hs : sig = kv.2
    · simp [rescanChanged, sigChanged, hl, hs]
    · simp only [rescanChanged, sigChanged, hl, ne_eq, hs, not_false_eq_true, if_true,
        decide_True]
      cases he : (acc.1.stopHbRid drv kv.1).2 with
      | none =>
        exact ⟨(stopHbRid_view drv kv.1 acc.1).1, (stopHbRid_view drv kv.1 acc.1).2,
          le_refl _, fun _ => rfl⟩
      | some err =>
        refine ⟨(stopHbRid_view drv kv.1 acc.1).1, (stopHbRid_view drv kv.1 acc.1).2, ?_, ?_⟩
        · simp
        · intro h
          simp at h

/-- The second loop of `rescanHb`, whatever the stops return; when it adds no
error, every rid of a changed signature is collected. -/
theorem rescanChanged_foldl_calls (drv : Drivers) (l : List (String × String))
    (acc : T × List String × RangeMap String) :
    (l.foldl (rescanChanged drv) acc).1.ridSignature = acc.1.ridSignature ∧
      (l.foldl (rescanChanged drv) acc).1.calls = acc.1.calls ++
        (l.filter (sigChanged acc.1.ridSignature)).map (fun kv => Call.stopHbRid kv.1) ∧
      acc.2.1.length ≤ (l.foldl (rescanChanged drv) acc).2.1.length ∧
      ((l.foldl (rescanChanged drv) acc).2.1.length = acc.2.1.length →
        (l.foldl (rescanChanged drv) acc).2.2 =
          (l.filter (sigChanged acc.1.ridSignature)).foldl
            (fun m kv => m.insert kv.1 kv.2) acc.2.2) := by
  induction l generalizing acc with
  | nil => simp
  | cons kv l ih =>
    obtain ⟨s1, s2, s3, s4⟩ := rescanChanged_step drv acc kv
    obtain ⟨h1, h2, h3, h4⟩ := ih (rescanChanged drv acc kv)
    rw [List.foldl_cons]
    rw [s1] at h1 h2 h4
    refine ⟨h1, ?_, le_trans s3 h3, ?_⟩
    · rw [h2, s2]
      by_cases hc : sigChanged acc.1.ridSignature kv = true <;> simp [hc]
    · intro he
      have hstep : (rescanChanged drv acc kv).2.1.length = acc.2.1.length :=
        le_antisymm (he ▸ h3) s3
      rw [h4 (he.trans hstep.symm), s4 hstep]
      by_cases hc : sigChanged acc.1.ridSignature kv = true <;> simp [hc]

end hb

namespace hb

/-- One turn of the third or of the fourth loop of `rescanHb` drops no error. -/
theorem rescanRestart_step_errs (drv : Drivers) (ridHb : RangeMap Confer) (acc : T × List String)
    (kv : String × String) : acc.2.length ≤ (rescanRestart drv ridHb acc kv).2.length := by
  unfold rescanRestart
  simp only []
  split
  · exact le_refl _
  · simp only []
    split <;> simp

theorem rescanNew_step_errs (drv : Drivers) (ridHb : RangeMap Confer) (acc : T × List String)
    (kv : String × String) : acc.2.length ≤ (rescanNew drv ridHb acc kv).2.length := by
  unfold rescanNew
  simp only []
  split
  · split
    · exact le_refl _
    · split <;> simp
  · exact le_refl _

/-- The third loop of `rescanHb` drops no error. -/
theorem rescanRestart_foldl_errs (drv : Drivers) (ridHb : RangeMap Confer)
    (l : List (String × String)) (acc : T × List String) :
    acc.2.length ≤ (l.foldl (rescanRestart drv ridHb) acc).2.length := by
  induction l generalizing acc with
  | nil => exact le_refl _
  | cons kv l ih => exact le_trans (rescanRestart_step_errs drv ridHb acc kv) (ih _)

/-- The fourth loop of `rescanHb` drops no error. -/
theorem rescanNew_foldl_errs (drv : Drivers) (ridHb : RangeMap Confer)
    (l : List (String × String)) (acc : T × List String) :
    acc.2.length ≤ (l.foldl (rescanNew drv ridHb) acc).2.length := by
  induction l generalizing acc with
  | nil => exact le_refl _
  | cons kv l ih => exact le_trans (rescanNew_step_errs drv ridHb acc kv) (ih _)

/-- The third loop of `rescanHb`, whatever the starts return: every stopped
rid is started and recorded. -/
theorem rescanRestart_foldl_calls (drv : Drivers) (ridHb : RangeMap Confer)
    (l : List (String × String))
    (hl : ∀ kv ∈ l, ∃ h, ridHb.lookup kv.1 = some h ∧ h.Name = kv.1 ∧ h.Signature = kv.2)
    (acc : T × List String) :
    (l.foldl (rescanRestart drv ridHb) acc).1.calls =
        acc.1.calls ++ l.map (fun kv => Call.startHb kv.1 kv.2) ∧
      ∀ r, r ∈ (l.foldl (rescanRestart drv ridHb) acc).1.ridSignature ↔
        r ∈ acc.1.ridSignature ∨ r ∈ l.map Prod.fst := by
  induction l generalizing acc with
  | nil => simp
  | cons kv l ih =>
    obtain ⟨h, hh, hname, hsig⟩ := hl kv (List.mem_cons_self _ _)
    obtain ⟨h1, h2⟩ := ih (fun x hx => hl x (List.mem_cons_of_mem _ hx))
      (rescanRestart drv ridHb acc kv)
    have s1 : (rescanRestart drv ridHb acc kv).1.calls =
        acc.1.calls ++ [Call.startHb kv.1 kv.2] := by
      simp only [rescanRestart, hh]
      rw [(startHb_view drv h acc.1).2, hname, hsig]
    have s2 : (rescanRestart drv ridHb acc kv).1.ridSignature =
        acc.1.ridSignature.insert kv.1 kv.2 := by
      simp only [rescanRestart, hh]
      rw [(startHb_view drv h acc.1).1]
    rw [List.foldl_cons]
    refine ⟨?_, ?_⟩
    · rw [h1, s1]; simp
    · intro r
      rw [h2 r, s2, AList.mem_insert, List.map_cons, List.mem_cons]
      constructor
      · rintro ((h | h) | h)
        · exact Or.inr (Or.inl h)
        · exact Or.inl h
        · exact Or.inr (Or.inr h)
      · rintro (h | h | h)
        · exact Or.inl (Or.inr h)
        · exact Or.inl (Or.inl h)
        · exact Or.inr h

/-- The fourth loop of `rescanHb`, whatever the starts return: the rids
without a recorded signature are started. -/
theorem rescanNew_foldl_calls (drv : Drivers) (ridHb : RangeMap Confer)
    (l : List (String × String))
    (hl : ∀ kv ∈ l, ∃ h, ridHb.lookup kv.1 = some h ∧ h.Name = kv.1 ∧ h.Signature = kv.2)
    (hn : (l.map Prod.fst).Nodup) (acc : T × List String) :
    (l.foldl (rescanNew drv ridHb) acc).1.calls = acc.1.calls ++
      (l.filter (fun kv => decide (kv.1 ∉ acc.1.ridSignature))).map
        (fun kv => Call.startHb kv.1 kv.2) := by
  induction l generalizing acc with
  | nil => simp
  | cons kv l ih =>
    obtain ⟨h, hh, hname, hsig⟩ := hl kv (List.mem_cons_self _ _)
    rw [List.map_cons, List.nodup_cons] at hn
    have s1 : (rescanNew drv ridHb acc kv).1.calls = acc.1.calls ++
        (if kv.1 ∉ acc.1.ridSignature then [Call.startHb kv.1 kv.2] else []) := by
      by_cases hk : kv.1 ∈ acc.1.ridSignature
      · simp [rescanNew, hk]
      · simp only [rescanNew, hk, not_false_eq_true, if_true, hh]
        split
        · simp only []
          rw [(startHb_view drv h acc.1).2, hname, hsig]
        · simp only []
          rw [(startHb_view drv h acc.1).2, hname, hsig]
    have s2 : ∀ x ∈ l, (x.1 ∈ (rescanNew drv ridHb acc kv).1.ridSignature ↔
        x.1 ∈ acc.1.ridSignature) := by
      intro x hx
      have hne : x.1 ≠ kv.1 := fun he => hn.1 (he ▸ List.mem_map_of_mem Prod.fst hx)
      by_cases hk : kv.1 ∈ acc.1.ridSignature
      · simp [rescanNew, hk, AList.mem_insert, hne]
      · simp only [rescanNew, hk, not_false_eq_true, if_true, hh]
        split
        · simp only []
          rw [(startHb_view drv h acc.1).1]
        · simp only [AList.mem_insert, hne, false_or]
          rw [(startHb_view drv h acc.1).1]
    rw [List.foldl_cons, ih (fun x hx => hl x (List.mem_cons_of_mem _ hx)) hn.2, s1]
    have htail : l.filter (fun x => decide (x.1 ∉ (rescanNew drv ridHb acc kv).1.ridSignature)) =
        l.filter (fun x => decide (x.1 ∉ acc.1.ridSignature)) := by
      apply List.filter_congr
      intro x hx
      simp only [s2 x hx]
    rw [htail]
    by_cases hk : kv.1 ∈ acc.1.ridSignature <;> simp [hk]

end hb

namespace hb

/-- The method `rescanHb` when it returns no error: the calls of the four
loops. -/
theorem rescanHb_calls (visit : Nat → List String → List String)
    (hv : ∀ i l, (visit i l).Perm l) (drv : Drivers) (hbs : List Confer) (t : T)
    (herr : (t.rescanHb visit drv (.ok hbs)).2 = none)
    (new stopped : RangeMap String)
    (hnew : new = ((getHbConfigured (.ok hbs)).1.range (visit 0)).foldl
      (fun m kv => m.insert kv.1 kv.2.Signature) ∅)
    (hstopped : stopped = ((new.range (visit 2)).filter (sigChanged t.ridSignature)).foldl
      (fun m kv => m.insert kv.1 kv.2) ∅) :
    (t.rescanHb visit drv (.ok hbs)).1.calls = t.calls ++
      (((t.ridSignature.range (visit 1)).filter (fun kv => decide (kv.1 ∉ new))).map
        Prod.fst).map Call.stopHbRid ++
      (((new.range (visit 2)).filter (sigChanged t.ridSignature)).map
        Prod.fst).map Call.stopHbRid ++
      ((stopped.range (visit 3)).map Prod.fst).map (startCall hbs) ++
      (((new.range (visit 4)).filter (fun kv => decide (kv.1 ∉ t.ridSignature))).map
        Prod.fst).map (startCall hbs) := by
  have hlook : ∀ r, new.lookup r = desiredSignature hbs r := by
    intro r
    rw [hnew]
    exact ridSignatureNew_lookup (visit 0) (hv 0) hbs r
  have hdrv : ∀ kv : String × String, new.lookup kv.1 = some kv.2 →
      ∃ h, (getHbConfigured (.ok hbs)).1.lookup kv.1 = some h ∧ h.Name = kv.1 ∧
        h.Signature = kv.2 := by
    intro kv hkv
    rw [hlook] at hkv
    obtain ⟨c, h1, h2, h3, -⟩ := desiredSignature_driver hbs kv.1 kv.2 hkv
    exact ⟨c, h1, h2, h3⟩
  -- the four loops in turn
  obtain ⟨R1, hR1⟩ : ∃ x, x =
      (t.ridSignature.range (visit 1)).foldl (rescanDeleted drv new) (t, []) := ⟨_, rfl⟩
  obtain ⟨R2, hR2⟩ : ∃ x, x =
      (new.range (visit 2)).foldl (rescanChanged drv) (R1.1, R1.2, ∅) := ⟨_, rfl⟩
  obtain ⟨R3, hR3⟩ : ∃ x, x = (R2.2.2.range (visit 3)).foldl
      (rescanRestart drv (getHbConfigured (.ok hbs)).1) (R2.1, R2.2.1) := ⟨_, rfl⟩
  obtain ⟨R4, hR4⟩ : ∃ x, x = (new.range (visit 4)).foldl
      (rescanNew drv (getHbConfigured (.ok hbs)).1) R3 := ⟨_, rfl⟩
  have hres : t.rescanHb visit drv (.ok hbs) =
      if R4.2.length > 0 then
        (R4.1, some (errors.New ("rescanHb errors: [" ++ " ".intercalate R4.2 ++ "]")))
      else (R4.1, none) := by
    subst hR4 hR3 hR2 hR1 hnew
    rfl
  rw [hres] at herr ⊢
  have h4 : R4.2.length = 0 := by
    by_contra hne
    rw [if_pos (Nat.pos_of_ne_zero hne)] at herr
    cases herr
  rw [if_neg (by omega)]
  obtain ⟨c1, k1, -⟩ := rescanDeleted_foldl_calls drv new (t.ridSignature.range (visit 1)) (t, [])
  obtain ⟨rs2, c2, m2, s2⟩ :=
    rescanChanged_foldl_calls drv (new.range (visit 2)) (R1.1, R1.2, ∅)
  have m3 := rescanRestart_foldl_errs drv (getHbConfigured (.ok hbs)).1
    (R2.2.2.range (visit 3)) (R2.1, R2.2.1)
  have m4 := rescanNew_foldl_errs drv (getHbConfigured (.ok hbs)).1 (new.range (visit 4)) R3
  rw [← hR1] at c1 k1
  rw [← hR2] at rs2 c2 m2 s2
  rw [← hR3] at m3
  rw [← hR4] at m4
  simp only [] at c1 k1 rs2 c2 m2 s2 m3
  -- the second loop sees the signatures recorded before the rescan
  have hfilter : (new.range (visit 2)).filter (sigChanged R1.1.ridSignature) =
      (new.range (visit 2)).filter (sigChanged t.ridSignature) := by
    apply List.filter_congr
    intro kv hkv
    have hm : kv.1 ∈ new := by
      rw [← AList.lookup_isSome, RangeMap.lookup_of_mem_range _ _ _ hkv]; rfl
    unfold sigChanged
    rw [k1 kv.1 hm]
  rw [hfilter] at c2 s2
  -- no error: every rid of a changed signature was stopped
  have hst : R2.2.2 = stopped := by
    rw [hstopped]
    exact s2 (by omega)
  rw [hst] at hR3
  have hstoppedNew : ∀ kv : String × String, stopped.lookup kv.1 = some kv.2 →
      new.lookup kv.1 = some kv.2 := by
    intro kv hkv
    have hm : kv.1 ∈ stopped := by rw [← AList.lookup_isSome, hkv]; rfl
    rw [hstopped, RangeMap.mem_foldl_insert (fun kv : String × String => kv.2)] at hm
    rcases hm with hm | hm
    · exact absurd hm (AList.not_mem_empty _)
    · obtain ⟨x, hx, hx1⟩ := List.mem_map.1 hm
      have hl := RangeMap.lookup_foldl_insert_of_mem (fun kv : String × String => kv.2)
        ((new.range (visit 2)).filter (sigChanged t.ridSignature))
        (((List.filter_sublist _).map Prod.fst).nodup (RangeMap.nodup_range_keys _ _ (hv 2 _)))
        ∅ x hx
      rw [← hstopped, hx1, hkv] at hl
      have hx2 := RangeMap.lookup_of_mem_range _ _ _ (List.mem_of_mem_filter hx)
      rw [hx1] at hx2
      rw [hx2]
      exact hl.symm
  obtain ⟨c3, k3⟩ := rescanRestart_foldl_calls drv (getHbConfigured (.ok hbs)).1
    (stopped.range (visit 3))
    (fun kv hkv => hdrv kv (hstoppedNew kv (RangeMap.lookup_of_mem_range _ _ _ hkv)))
    (R2.1, R2.2.1)
  have c4 := rescanNew_foldl_calls drv (getHbConfigured (.ok hbs)).1 (new.range (visit 4))
    (fun kv hkv => hdrv kv (RangeMap.lookup_of_mem_range _ _ _ hkv))
    (RangeMap.nodup_range_keys _ _ (hv 4 _)) R3
  rw [← hR3] at c3 k3
  rw [← hR4] at c4
  simp only [] at c3 k3
  -- the fourth loop sees the rids recorded before the rescan
  have hfilter4 : (new.range (visit 4)).filter (fun kv => decide (kv.1 ∉ R3.1.ridSignature)) =
      (new.range (visit 4)).filter (fun kv => decide (kv.1 ∉ t.ridSignature)) := by
    apply List.filter_congr
    intro kv hkv
    have hm : kv.1 ∈ new := by
      rw [← AList.lookup_isSome, RangeMap.lookup_of_mem_range _ _ _ hkv]; rfl
    have h1 : kv.1 ∈ R1.1.ridSignature ↔ kv.1 ∈ t.ridSignature := by
      rw [← AList.lookup_isSome, ← AList.lookup_isSome, k1 kv.1 hm]
    have h3 : kv.1 ∈ R3.1.ridSignature ↔ kv.1 ∈ t.ridSignature := by
      rw [k3, rs2, h1, RangeMap.mem_range_keys _ _ (hv 3 _)]
      constructor
      · rintro (h | h)
        · exact h
        · rw [hstopped, RangeMap.mem_foldl_insert (fun kv : String × String => kv.2)] at h
          rcases h with h | h
          · exact absurd h (AList.not_mem_empty _)
          · obtain ⟨x, hx, hx1⟩ := List.mem_map.1 h
            obtain ⟨s, hs, -⟩ := (sigChanged_iff _ _).1 (List.of_mem_filter hx)
            rw [← hx1, ← AList.lookup_isSome, hs]; rfl
      · exact Or.inl
    simp only [h3]
  rw [hfilter4] at c4
  simp only []
  rw [c4, c3, c2, c1, map_stopHbRid, map_stopHbRid,
    map_startHb hbs _ (fun kv hkv => (hlook kv.1).symm.trans
      (hstoppedNew kv (RangeMap.lookup_of_mem_range _ _ _ hkv))),
    map_startHb hbs _ (fun kv hkv => (hlook kv.1).symm.trans
      (RangeMap.lookup_of_mem_range _ _ _ (List.mem_of_mem_filter hkv)))]

end hb


/-- C11: when a rescan returns no error, that is when no stop and no start it
issues fails, its calls are, after the calls made before it, four runs in this
order: a stop of each recorded rid that the configuration no longer has
(`l1`), a stop of each recorded rid whose configured signature differs from
the recorded one (`l2`), a start of each of the rids of `l2` (`l3`, the same
rids, each once), a start of each configured rid that is not recorded (`l4`).
Hence every stop comes before every start, and a rid recorded with its
configured signature is in none of the runs, whatever its driver would answer
to a stop or a start. -/
theorem C11_rescan_order (visit : Nat → List String → List String)
    (hv : ∀ i l, (visit i l).Perm l) (drv : hb.Drivers) (hbs : List hb.Confer) (t : hb.T)
    (herr : (t.rescanHb visit drv (.ok hbs)).2 = none) :
    ∃ l1 l2 l3 l4 : List String,
      (t.rescanHb visit drv (.ok hbs)).1.calls =
        t.calls ++ l1.map hb.Call.stopHbRid ++ l2.map hb.Call.stopHbRid ++
          l3.map (hb.startCall hbs) ++ l4.map (hb.startCall hbs) ∧
      l1.Nodup ∧
      (∀ r, r ∈ l1 ↔ r ∈ t.ridSignature ∧ hb.desiredSignature hbs r = none) ∧
      l2.Nodup ∧
      (∀ r, r ∈ l2 ↔ ∃ s s1, t.ridSignature.lookup r = some s ∧
        hb.desiredSignature hbs r = some s1 ∧ s ≠ s1) ∧
      l3.Perm l2 ∧
      l4.Nodup ∧
      (∀ r, r ∈ l4 ↔ r ∉ t.ridSignature ∧ ∃ s, hb.desiredSignature hbs r = some s) := by
  have hcalls := hb.rescanHb_calls visit hv drv hbs t herr _ _ rfl rfl
  have hlook := hb.ridSignatureNew_lookup (visit 0) (hv 0) hbs
  refine ⟨_, _, _, _, hcalls, ?_, ?_, ?_, ?_, ?_, ?_, ?_⟩
  · exact ((List.filter_sublist _).map Prod.fst).nodup (RangeMap.nodup_range_keys _ _ (hv 1 _))
  · intro r
    constructor
    · intro hr
      obtain ⟨kv, hkv, rfl⟩ := List.mem_map.1 hr
      obtain ⟨hm, hn⟩ := List.mem_filter.1 hkv
      have hn := of_decide_eq_true hn
      rw [RangeMap.not_mem_iff_lookup, hlook] at hn
      refine ⟨?_, hn⟩
      rw [← AList.lookup_isSome, RangeMap.lookup_of_mem_range _ _ _ hm]; rfl
    · rintro ⟨hm, hn⟩
      obtain ⟨s, hs⟩ := Option.isSome_iff_exists.1 (AList.lookup_isSome.2 hm)
      refine List.mem_map.2 ⟨(r, s), List.mem_filter.2 ⟨?_, decide_eq_true ?_⟩, rfl⟩
      · exact (RangeMap.mem_range_iff _ _ (hv 1 _) (r, s)).2 hs
      · rw [RangeMap.not_mem_iff_lookup, hlook]; exact hn
  · exact ((List.filter_sublist _).map Prod.fst).nodup (RangeMap.nodup_range_keys _ _ (hv 2 _))
  · intro r
    constructor
    · intro hr
      obtain ⟨kv, hkv, rfl⟩ := List.mem_map.1 hr
      obtain ⟨hm, hc⟩ := List.mem_filter.1 hkv
      obtain ⟨s, hs, hne⟩ := (hb.sigChanged_iff _ _).1 hc
      have hd := RangeMap.lookup_of_mem_range _ _ _ hm
      rw [hlook] at hd
      exact ⟨s, kv.2, hs, hd, hne⟩
    · rintro ⟨s, s1, hs, hd, hne⟩
      refine List.mem_map.2 ⟨(r, s1), List.mem_filter.2 ⟨?_, ?_⟩, rfl⟩
      · refine (RangeMap.mem_range_iff _ _ (hv 2 _) (r, s1)).2 ?_
        rw [hlook]; exact hd
      · exact (hb.sigChanged_iff _ _).2 ⟨s, hs, hne⟩
  · refine (List.perm_ext_iff_of_nodup (RangeMap.nodup_range_keys _ _ (hv 3 _))
      (((List.filter_sublist _).map Prod.fst).nodup
        (RangeMap.nodup_range_keys _ _ (hv 2 _)))).2 ?_
    intro r
    rw [RangeMap.mem_range_keys _ _ (hv 3 _),
      RangeMap.mem_foldl_insert (fun kv : String × String => kv.2)]
    constructor
    · rintro (h | h)
      · exact absurd h (AList.not_mem_empty _)
      · exact h
    · exact Or.inr
  · exact ((List.filter_sublist _).map Prod.fst).nodup (RangeMap.nodup_range_keys _ _ (hv 4 _))
  · intro r
    constructor
    · intro hr
      obtain ⟨kv, hkv, rfl⟩ := List.mem_map.1 hr
      obtain ⟨hm, hn⟩ := List.mem_filter.1 hkv
      have hd := RangeMap.lookup_of_mem_range _ _ _ hm
      rw [hlook] at hd
      exact ⟨of_decide_eq_true hn, kv.2, hd⟩
    · rintro ⟨hn, s, hd⟩
      refine List.mem_map.2 ⟨(r, s), List.mem_filter.2 ⟨?_, decide_eq_true hn⟩, rfl⟩
      refine (RangeMap.mem_range_iff _ _ (hv 4 _) (r, s)).2 ?_
      rw [hlook]; exact hd

/-- Witness of C11: from hb#1 running with sigA to the configuration hb#1 with
sigB and hb#2 with sigC, the drivers never failing, the rescan returns no
error, stops hb#1, starts hb#1 with sigB, then starts hb#2. From hb#1 running
with sigA to the configuration hb#1 with sigA and hb#2 with sigC, the receiver
of hb#1 being one that would not start, the rescan returns no error and
starts hb#2 only. -/
theorem C11_rescan_order_witness :
    (hb.scenarioRunning.rescanHb (fun _ l => l) hb.scenarioDrivers (.ok hb.scenarioDesired)).1.calls
        = [hb.Call.stopHbRid "hb#1", hb.Call.startHb "hb#1" "sigB",
            hb.Call.startHb "hb#2" "sigC"] ∧
      (hb.scenarioRunning.rescanHb (fun _ l => l) hb.scenarioDriversRxFails
          (.ok hb.scenarioGrown)).1.calls = [hb.Call.startHb "hb#2" "sigC"] ∧
      (∃ l1 l2 l3 l4 : List String,
        (hb.scenarioRunning.rescanHb (fun _ l => l) hb.scenarioDrivers
          (.ok hb.scenarioDesired)).1.calls =
          hb.scenarioRunning.calls ++ l1.map hb.Call.stopHbRid ++ l2.map hb.Call.stopHbRid ++
            l3.map (hb.startCall hb.scenarioDesired) ++
            l4.map (hb.startCall hb.scenarioDesired) ∧
        l1.Nodup ∧
        (∀ r, r ∈ l1 ↔ r ∈ hb.scenarioRunning.ridSignature ∧
          hb.desiredSignature hb.scenarioDesired r = none) ∧
        l2.Nodup ∧
        (∀ r, r ∈ l2 ↔ ∃ s s1, hb.scenarioRunning.ridSignature.lookup r = some s ∧
          hb.desiredSignature hb.scenarioDesired r = some s1 ∧ s ≠ s1) ∧
        l3.Perm l2 ∧
        l4.Nodup ∧
        (∀ r, r ∈ l4 ↔ r ∉ hb.scenarioRunning.ridSignature ∧
          ∃ s, hb.desiredSignature hb.scenarioDesired r = some s)) ∧
      ∃ l1 l2 l3 l4 : List String,
        (hb.scenarioRunning.rescanHb (fun _ l => l) hb.scenarioDriversRxFails
          (.ok hb.scenarioGrown)).1.calls =
          hb.scenarioRunning.calls ++ l1.map hb.Call.stopHbRid ++ l2.map hb.Call.stopHbRid ++
            l3.map (hb.startCall hb.scenarioGrown) ++
            l4.map (hb.startCall hb.scenarioGrown) ∧
        l1.Nodup ∧
        (∀ r, r ∈ l1 ↔ r ∈ hb.scenarioRunning.ridSignature ∧
          hb.desiredSignature hb.scenarioGrown r = none) ∧
        l2.Nodup ∧
        (∀ r, r ∈ l2 ↔ ∃ s s1, hb.scenarioRunning.ridSignature.lookup r = some s ∧
          hb.desiredSignature hb.scenarioGrown r = some s1 ∧ s ≠ s1) ∧
        l3.Perm l2 ∧
        l4.Nodup ∧
        (∀ r, r ∈ l4 ↔ r ∉ hb.scenarioRunning.ridSignature ∧
          ∃ s, hb.desiredSignature hb.scenarioGrown r = some s) :=
  ⟨by decide, by decide,
    C11_rescan_order (fun _ l => l) (fun _ _ => List.Perm.refl _) hb.scenarioDrivers
      hb.scenarioDesired hb.scenarioRunning (by decide),
    C11_rescan_order (fun _ l => l) (fun _ _ => List.Perm.refl _) hb.scenarioDriversRxFails
      hb.scenarioGrown hb.scenarioRunning (by decide)⟩

/-- C12: when the recorded signature of every rid is the configured one, the
rescan returns no error, makes no call to `stopHbRid` or `startHb`, whatever
the drivers would answer, and every rid keeps its recorded signature. -/
theorem C12_rescan_same (visit : Nat → List String → List String)
    (hv : ∀ i l, (visit i l).Perm l) (drv : hb.Drivers) (hbs : List hb.Confer) (t : hb.T)
    (hsame : ∀ rid, t.ridSignature.lookup rid = hb.desiredSignature hbs rid) :
    (t.rescanHb visit drv (.ok hbs)).2 = none ∧
      (t.rescanHb visit drv (.ok hbs)).1.calls = t.calls ∧
      ∀ rid, (t.rescanHb visit drv (.ok hbs)).1.ridSignature.lookup rid =
        t.ridSignature.lookup rid := by
  have hlook := hb.ridSignatureNew_lookup (visit 0) (hv 0) hbs
  obtain ⟨new, hnew⟩ : ∃ new : RangeMap String, new =
      ((hb.getHbConfigured (.ok hbs)).1.range (visit 0)).foldl
        (fun m kv => m.insert kv.1 kv.2.Signature) ∅ := ⟨_, rfl⟩
  rw [← hnew] at hlook
  have e1 := hb.rescanDeleted_foldl_same drv new (t.ridSignature.range (visit 1))
    (fun kv hkv => by
      rw [← AList.lookup_isSome, hlook, ← hsame, RangeMap.lookup_of_mem_range _ _ _ hkv]; rfl)
    (t, [])
  have e2 := hb.rescanChanged_foldl_same drv (new.range (visit 2)) (t, [], ∅)
    (fun kv hkv => by
      have hd := RangeMap.lookup_of_mem_range _ _ _ hkv
      rw [hlook, ← hsame] at hd
      simp [hb.sigChanged, hd])
  obtain ⟨t4, e4, c4, k4⟩ := hb.rescanNew_foldl_same drv (hb.getHbConfigured (.ok hbs)).1
    (new.range (visit 4)) t []
    (fun kv hkv => by
      have hd := RangeMap.lookup_of_mem_range _ _ _ hkv
      rw [hlook, ← hsame] at hd
      exact hd)
  have hres : t.rescanHb visit drv (.ok hbs) = (t4, none) := by
    simp only [hb.getHbConfigured] at hnew e4
    simp only [hb.T.rescanHb, hb.getHbConfigured]
    rw [← hnew, e1]
    simp only []
    rw [e2]
    simp only [RangeMap.range_empty, List.foldl_nil]
    rw [e4]
    simp
  rw [hres]
  exact ⟨rfl, c4, k4⟩

/-- Witness of C12: hb#1 runs with sigA and the configuration is hb#1 with
sigA; the rescan does nothing, even with a receiver that would not start. -/
theorem C12_rescan_same_witness :
    (hb.scenarioRunning.rescanHb (fun _ l => l) hb.scenarioDriversRxFails
        (.ok hb.scenarioSame)).2 = none ∧
      (hb.scenarioRunning.rescanHb (fun _ l => l) hb.scenarioDriversRxFails
        (.ok hb.scenarioSame)).1.calls = hb.scenarioRunning.calls ∧
      ∀ rid, (hb.scenarioRunning.rescanHb (fun _ l => l) hb.scenarioDriversRxFails
        (.ok hb.scenarioSame)).1.ridSignature.lookup rid =
          hb.scenarioRunning.ridSignature.lookup rid :=
  C12_rescan_same (fun _ l => l) (fun _ _ => List.Perm.refl _) hb.scenarioDriversRxFails
    hb.scenarioSame hb.scenarioRunning (fun rid => by
      by_cases h : rid = "hb#1"
      · subst h; decide
      · simp only [hb.scenarioRunning, hb.scenarioSame, hb.desiredSignature, hb.getHbConfigured,
          List.foldl, AList.lookup_insert_ne h, AList.lookup_empty, Option.map_none'])

/-- C13, evaluated: hb#1 runs with sigA, the configuration has hb#1 with sigB,
and the receiver of hb#1 does not start. The first rescan stops hb#1, calls
`startHb`, which fails, returns an error and records sigB all the same, with
no receiver of hb#1 in place. A second rescan with the same configuration
returns no error and calls nothing: the start is not tried again. -/
theorem C13_failed_restart_not_retried :
    (hb.scenarioRunning.rescanHb (fun _ l => l) hb.scenarioDriversRxFails
        (.ok hb.scenarioChanged)).2 =
        some (errors.New "rescanHb errors: [bind: address in use]") ∧
      (hb.scenarioRunning.rescanHb (fun _ l => l) hb.scenarioDriversRxFails
        (.ok hb.scenarioChanged)).1.calls =
        [hb.Call.stopHbRid "hb#1", hb.Call.startHb "hb#1" "sigB"] ∧
      (hb.scenarioRunning.rescanHb (fun _ l => l) hb.scenarioDriversRxFails
        (.ok hb.scenarioChanged)).1.rxs "hb#1" = none ∧
      (hb.scenarioRunning.rescanHb (fun _ l => l) hb.scenarioDriversRxFails
        (.ok hb.scenarioChanged)).1.ridSignature.lookup "hb#1" = some "sigB" ∧
      ((hb.scenarioRunning.rescanHb (fun _ l => l) hb.scenarioDriversRxFails
        (.ok hb.scenarioChanged)).1.rescanHb (fun _ l => l) hb.scenarioDriversRxFails
        (.ok hb.scenarioChanged)).2 = none ∧
      ((hb.scenarioRunning.rescanHb (fun _ l => l) hb.scenarioDriversRxFails
        (.ok hb.scenarioChanged)).1.rescanHb (fun _ l => l) hb.scenarioDriversRxFails
        (.ok hb.scenarioChanged)).1.calls =
        [hb.Call.stopHbRid "hb#1", hb.Call.startHb "hb#1" "sigB"] := by
  decide

/-! ## The heartbeat reader -/

/-- C20, on the code: the reader issues one `ApplyPatch` for a patch message,
one `ApplyPing` for a ping message and no store operation for another kind, but
two `ApplyFull` for a full message. -/
theorem C20_reader_dispatch {σ : Type} (msg : hb.Msg σ) :
    (hb.msgFromRx msg).countP hb.Op.isApplyFull = (if msg.Kind = "full" then 2 else 0) ∧
      (hb.msgFromRx msg).countP hb.Op.isApplyPatch = (if msg.Kind = "patch" then 1 else 0) ∧
      (hb.msgFromRx msg).countP hb.Op.isApplyPing = (if msg.Kind = "ping" then 1 else 0) ∧
      (hb.msgFromRx msg).countP hb.Op.isStoreOp =
        (if msg.Kind = "full" then 2
         else if msg.Kind = "patch" ∨ msg.Kind = "ping" then 1 else 0) := by
  unfold hb.msgFromRx
  by_cases h1 : msg.Kind = "patch"
  · have h2 : ¬ msg.Kind = "full" := by rw [h1]; decide
    have h3 : ¬ msg.Kind = "ping" := by rw [h1]; decide
    simp [h1, hb.Op.isApplyFull, hb.Op.isApplyPatch, hb.Op.isApplyPing, hb.Op.isStoreOp,
      List.countP_cons]
  · by_cases h2 : msg.Kind = "full"
    · have h3 : ¬ msg.Kind = "ping" := by rw [h2]; decide
      simp [h2, hb.Op.isApplyFull, hb.Op.isApplyPatch, hb.Op.isApplyPing, hb.Op.isStoreOp,
        List.countP_cons]
    · by_cases h3 : msg.Kind = "ping"
      · simp [h3, hb.Op.isApplyFull, hb.Op.isApplyPatch, hb.Op.isApplyPing, hb.Op.isStoreOp,
          List.countP_cons]
      · simp [h1, h2, h3]

/-! ## The config watcher -/

/-- C19, as stated, fails: a file without modification time, checked by a
watcher that has recorded none yet, has its (zero) time equal to the recorded
one, and the check returns an error. -/
theorem C19_same_mtime_counterexample :
    (instcfg.scenarioOutside 0).mtime = (instcfg.scenarioWatcher 0).lastMtime ∧
      (instcfg.scenarioWatcher 0).forceRefresh = false ∧
      ((instcfg.scenarioWatcher 0).configFileCheck (fun a b => decide (a = b))
        (instcfg.scenarioOutside 0)).2 = some instcfg.configFileCheckError := by
  decide

/-- C19, amended: when the file has a modification time, equal to the last
recorded one, and `forceRefresh` is false, `configFileCheck` returns no error
and leaves the watcher as it was: `cfg`, `lastMtime`, `forceRefresh` and all
the rest unchanged, no `SetInstanceConfig` sent. -/
theorem C19_same_mtime (ConfigEqual : coreinstance.Config → coreinstance.Config → Bool)
    (out : instcfg.Outside) (o : instcfg.T)
    (hz : out.mtime ≠ 0) (hm : out.mtime = o.lastMtime) (hf : o.forceRefresh = false) :
    o.configFileCheck ConfigEqual out = (o, none) := by
  have hc : out.mtime = o.lastMtime ∧ (!o.forceRefresh) = true := ⟨hm, by simp [hf]⟩
  exact (if_neg hz).trans (if_pos hc)

/-- Witness of C19 (amended): a file modified at 5, last seen modified at 5. -/
theorem C19_same_mtime_witness :
    (instcfg.scenarioWatcher 5).configFileCheck (fun a b => decide (a = b))
        (instcfg.scenarioOutside 5) = (instcfg.scenarioWatcher 5, none) :=
  C19_same_mtime _ (instcfg.scenarioOutside 5) (instcfg.scenarioWatcher 5)
    (by decide) (by decide) (by decide)

/-! ## Discovery of remote configs -/

namespace daemondiscover

theorem inScope_iff (cfg : coreinstance.Config) (d : discover) :
    d.inScope cfg = true ↔ d.localhost ∈ cfg.Scope := by
  unfold discover.inScope
  rw [List.any_eq_true]
  constructor
  · rintro ⟨x, hx, h⟩
    have : x = d.localhost := of_decide_eq_true h
    exact this ▸ hx
  · intro h
    exact ⟨_, h, decide_eq_true rfl⟩

end daemondiscover

/-- C17: with no watcher for `p` and a fetch of `p` in flight, recorded with
the timestamp `t1` and the cancel function `c`, and the local node in the scope
of the received config: a `CfgUpdated` from the node `B` with `Updated`
strictly after `t1` calls `c`, starts a fetch from `B` and leaves
`fetcherFrom[s] = B`, `fetcherUpdated[s] = Updated`; one that is not strictly
after `t1` leaves the whole discovery state as it was. -/
theorem C17_supersession (d : daemondiscover.discover) (p : path.T) (B : String)
    (remoteCfg : coreinstance.Config) (t1 : Int) (c : Nat)
    (hmon : d.moncfg p.String = none)
    (hupd : d.fetcherUpdated p.String = some t1)
    (hcan : d.fetcherCancel p.String = some c)
    (hscope : d.localhost ∈ remoteCfg.Scope) :
    (t1 < remoteCfg.Updated →
      ∃ d1, d.cmdRemoteCfgUpdated p B remoteCfg = some d1 ∧
        d1.cancelled = d.cancelled ++ [c] ∧
        d1.fetcherFrom p.String = some B ∧
        d1.fetcherUpdated p.String = some remoteCfg.Updated ∧
        d1.fetcherCancel p.String = some d.contexts ∧
        d1.fetches = d.fetches ++ [{ ctx := d.contexts, Path := p, Node := B }]) ∧
    (¬ t1 < remoteCfg.Updated → d.cmdRemoteCfgUpdated p B remoteCfg = some d) := by
  constructor
  · intro hlt
    have hs : (daemondiscover.discover.inScope remoteCfg d) = true :=
      (daemondiscover.inScope_iff remoteCfg d).2 hscope
    have hcond : ∀ d0 : daemondiscover.discover, d0.localhost = d.localhost →
        ¬ (p.Kind ≠ kind.T.Sec ∧ (!d0.inScope remoteCfg) = true) := by
      rintro d0 h0 ⟨-, h2⟩
      have : d0.inScope remoteCfg = true := by
        rw [daemondiscover.inScope_iff, h0]; exact hscope
      rw [this] at h2
      exact absurd h2 (by decide)
    unfold daemondiscover.discover.cmdRemoteCfgUpdated
    simp only [hmon, hupd, gt_iff_lt, hlt, if_true]
    simp only [daemondiscover.discover.cancelFetcher, hcan]
    split
    · next h => exact absurd h (hcond _ rfl)
    · refine ⟨_, rfl, ?_⟩
      simp [daemondiscover.discover.fetchCfgFromRemote, GoMap.delete, GoMap.set]
  · intro hle
    unfold daemondiscover.discover.cmdRemoteCfgUpdated
    simp only [hmon, hupd, gt_iff_lt, hle, if_false]

/-- Witness of C17: the fetch of ns/svc/x in flight from A with the timestamp
10 is superseded by the config of B updated at 20, and not by one updated at
10. -/
theorem C17_supersession_witness :
    (∃ d1, daemondiscover.scenarioFetching.cmdRemoteCfgUpdated daemondiscover.scenarioPath "B"
          (daemondiscover.scenarioConfig 20) = some d1 ∧
        d1.cancelled = daemondiscover.scenarioFetching.cancelled ++ [0] ∧
        d1.fetcherFrom daemondiscover.scenarioPath.String = some "B" ∧
        d1.fetcherUpdated daemondiscover.scenarioPath.String
          = some (daemondiscover.scenarioConfig 20).Updated ∧
        d1.fetcherCancel daemondiscover.scenarioPath.String
          = some daemondiscover.scenarioFetching.contexts ∧
        d1.fetches = daemondiscover.scenarioFetching.fetches ++
          [{ ctx := daemondiscover.scenarioFetching.contexts,
             Path := daemondiscover.scenarioPath, Node := "B" }]) ∧
      daemondiscover.scenarioFetching.cmdRemoteCfgUpdated daemondiscover.scenarioPath "B"
          (daemondiscover.scenarioConfig 10) = some daemondiscover.scenarioFetching :=
  ⟨(C17_supersession daemondiscover.scenarioFetching daemondiscover.scenarioPath "B"
      (daemondiscover.scenarioConfig 20) 10 0 (by decide) (by decide) (by decide)
      (by decide)).1 (by decide),
   (C17_supersession daemondiscover.scenarioFetching daemondiscover.scenarioPath "B"
      (daemondiscover.scenarioConfig 10) 10 0 (by decide) (by decide) (by decide)
      (by decide)).2 (by decide)⟩

/-- C18: for a remote `CfgUpdated` on `p` with no watcher and no fetch in
flight for `p`: when the kind of `p` is sec or the local node is in the scope
of the received config, a fetch is started and recorded; otherwise the whole
discovery state is left as it was. -/
theorem C18_scope_rule (d : daemondiscover.discover) (p : path.T) (node : String)
    (remoteCfg : coreinstance.Config)
    (hmon : d.moncfg p.String = none)
    (hupd : d.fetcherUpdated p.String = none)
    (hfrom : d.fetcherFrom p.String = none) :
    (p.Kind = kind.T.Sec ∨ d.localhost ∈ remoteCfg.Scope →
      ∃ d1, d.cmdRemoteCfgUpdated p node remoteCfg = some d1 ∧
        d1.fetches = d.fetches ++ [{ ctx := d.contexts, Path := p, Node := node }] ∧
        d1.fetcherFrom p.String = some node ∧
        d1.fetcherUpdated p.String = some remoteCfg.Updated ∧
        d1.fetcherCancel p.String = some d.contexts) ∧
    (¬ (p.Kind = kind.T.Sec ∨ d.localhost ∈ remoteCfg.Scope) →
      d.cmdRemoteCfgUpdated p node remoteCfg = some d) := by
  have hiff := daemondiscover.inScope_iff remoteCfg d
  constructor
  · intro hc
    have hcond : ¬ (p.Kind ≠ kind.T.Sec ∧ (!d.inScope remoteCfg) = true) := by
      rintro ⟨h1, h2⟩
      rcases hc with hc | hc
      · exact h1 hc
      · rw [hiff.2 hc] at h2; exact absurd h2 (by decide)
    unfold daemondiscover.discover.cmdRemoteCfgUpdated
    simp only [hmon, hupd, hcond, if_false]
    refine ⟨_, rfl, ?_⟩
    simp [daemondiscover.discover.fetchCfgFromRemote, hfrom, GoMap.set]
  · intro hc
    have hcond : p.Kind ≠ kind.T.Sec ∧ (!d.inScope remoteCfg) = true := by
      refine ⟨fun h => hc (Or.inl h), ?_⟩
      cases hs : d.inScope remoteCfg
      · rfl
      · exact absurd (Or.inr (hiff.1 hs)) hc
    unfold daemondiscover.discover.cmdRemoteCfgUpdated
    simp only [hmon, hupd]
    exact if_pos hcond

/-- Witness of C18: on the node n1, a config of ns/svc/x with the scope n1, n2
is fetched. -/
theorem C18_scope_rule_witness :
    ∃ d1, daemondiscover.scenarioIdle.cmdRemoteCfgUpdated daemondiscover.scenarioPath "B"
        (daemondiscover.scenarioConfig 20) = some d1 ∧
      d1.fetches = daemondiscover.scenarioIdle.fetches ++
        [{ ctx := daemondiscover.scenarioIdle.contexts, Path := daemondiscover.scenarioPath,
           Node := "B" }] ∧
      d1.fetcherFrom daemondiscover.scenarioPath.String = some "B" ∧
      d1.fetcherUpdated daemondiscover.scenarioPath.String
        = some (daemondiscover.scenarioConfig 20).Updated ∧
      d1.fetcherCancel daemondiscover.scenarioPath.String
        = some daemondiscover.scenarioIdle.contexts :=
  (C18_scope_rule daemondiscover.scenarioIdle daemondiscover.scenarioPath "B"
    (daemondiscover.scenarioConfig 20) (by decide) (by decide) (by decide)).1
    (Or.inr (by decide))

/-! ## The jobs of the scheduler: cancellation -/

namespace scheduler

/-- The loop of `Purge` over entries still in the map, each key once: every
cancel function is called, in the order of the visit. -/
theorem purge_foldl_cancelled (l : List (String × Job)) (hn : (l.map Prod.fst).Nodup) (t0 : T)
    (hm : ∀ ke ∈ l, ke.1 ∈ t0.jobs) :
    (l.foldl (fun t ke => if ke.1 ∈ t.jobs then
          { t with cancelled := t.cancelled ++ [ke.2.cancel], jobs := t.jobs.erase ke.1 }
        else t) t0).cancelled = t0.cancelled ++ l.map (fun ke => ke.2.cancel) := by
  induction l generalizing t0 with
  | nil => simp
  | cons a l ih =>
    rw [List.map_cons, List.nodup_cons] at hn
    have ha : a.1 ∈ t0.jobs := hm a (List.mem_cons_self _ _)
    rw [List.foldl_cons, if_pos ha, ih hn.2]
    · simp
    · intro ke hke
      have hne : ke.1 ≠ a.1 := fun he => hn.1 (he ▸ List.mem_map_of_mem Prod.fst hke)
      simp only [AList.mem_erase]
      exact ⟨hne, hm ke (List.mem_cons_of_mem _ hke)⟩

/-- The method `Purge` calls the cancel function of every job, in the order
of the visit. -/
theorem Purge_cancelled (visit : List String → List String) (t : T)
    (hp : ∀ l, (visit l).Perm l) :
    (t.Purge visit).cancelled =
      t.cancelled ++ (t.jobs.range visit).map (fun ke => ke.2.cancel) := by
  unfold T.Purge
  apply purge_foldl_cancelled _ (RangeMap.nodup_range_keys _ _ (hp _))
  intro ke hke
  exact (RangeMap.mem_range_keys _ _ (hp _) ke.1).1 (List.mem_map_of_mem Prod.fst hke)

/-- The method `Del` on an entry that has a job. -/
theorem Del_of_lookup (e : schedule.Entry) (t : T) (job : Job)
    (h : t.jobs.lookup (entryKey e) = some job) :
    t.Del e = { t with cancelled := t.cancelled ++ [job.cancel],
                       jobs := t.jobs.erase (entryKey e) } := by
  simp [T.Del, h]

/-- The loop of `DelPath` over entries still in the map under their entry
key, each key once: the entries of the path are deleted and their cancel
functions called, the others stay. -/
theorem delPath_foldl (p : path.T) (l : List (String × Job)) (hn : (l.map Prod.fst).Nodup)
    (t0 : T)
    (hm : ∀ ke ∈ l, t0.jobs.lookup ke.1 = some ke.2 ∧ entryKey ke.2.schedule = ke.1) :
    (l.foldl (fun t ke => if ke.1 ∈ t.jobs then
          if ke.2.schedule.Path ≠ p then t else t.Del ke.2.schedule else t) t0).cancelled =
        t0.cancelled ++
          (l.filter (fun ke => decide (ke.2.schedule.Path = p))).map (fun ke => ke.2.cancel) ∧
      ∀ k, (l.foldl (fun t ke => if ke.1 ∈ t.jobs then
          if ke.2.schedule.Path ≠ p then t else t.Del ke.2.schedule else t) t0).jobs.lookup k =
        if k ∈ (l.filter (fun ke => decide (ke.2.schedule.Path = p))).map Prod.fst then none
        else t0.jobs.lookup k := by
  induction l generalizing t0 with
  | nil => simp
  | cons a l ih =>
    rw [List.map_cons, List.nodup_cons] at hn
    obtain ⟨hla, hka⟩ := hm a (List.mem_cons_self _ _)
    have ha : a.1 ∈ t0.jobs := by rw [← AList.lookup_isSome, hla]; rfl
    rw [List.foldl_cons, if_pos ha]
    by_cases hp : a.2.schedule.Path = p
    · have hd : t0.Del a.2.schedule =
          { t0 with cancelled := t0.cancelled ++ [a.2.cancel], jobs := t0.jobs.erase a.1 } := by
        rw [Del_of_lookup a.2.schedule t0 a.2 (by rw [hka]; exact hla), hka]
      rw [if_neg (not_not.2 hp), hd, List.filter_cons_of_pos (by simpa using hp)]
      have := ih hn.2 { t0 with cancelled := t0.cancelled ++ [a.2.cancel],
                                jobs := t0.jobs.erase a.1 } (by
        intro ke hke
        have hne : ke.1 ≠ a.1 := fun he => hn.1 (he ▸ List.mem_map_of_mem Prod.fst hke)
        simp only []
        rw [AList.lookup_erase_ne hne]
        exact hm ke (List.mem_cons_of_mem _ hke))
      obtain ⟨h1, h2⟩ := this
      refine ⟨?_, ?_⟩
      · rw [h1]; simp
      · intro k
        rw [h2 k]
        simp only [List.map_cons, List.mem_cons]
        by_cases hk : k = a.1
        · subst hk
          simp [AList.lookup_erase]
        · simp only [AList.lookup_erase_ne hk, hk, false_or]
    · rw [if_pos hp, List.filter_cons_of_neg (by simpa using hp)]
      exact ih hn.2 t0 (fun ke hke => hm ke (List.mem_cons_of_mem _ hke))

end scheduler

namespace scheduler

theorem keyed_erase (jobs : Jobs) (k : String) (h : Jobs.keyed jobs) :
    Jobs.keyed (jobs.erase k) := by
  intro k1 job hl
  by_cases hk : k1 = k
  · subst hk
    rw [AList.lookup_erase] at hl
    cases hl
  · rw [AList.lookup_erase_ne hk] at hl
    exact h k1 job hl

theorem keyed_insert (jobs : Jobs) (now : Int) (e : schedule.Entry) (cancel : Nat)
    (h : Jobs.keyed jobs) :
    Jobs.keyed (jobs.insert (entryKey e) { Queued := now, schedule := e, cancel := cancel }) := by
  intro k1 job hl
  by_cases hk : k1 = entryKey e
  · subst hk
    rw [AList.lookup_insert] at hl
    cases hl
    rfl
  · rw [AList.lookup_insert_ne hk] at hl
    exact h k1 job hl

theorem Del_keyed (e : schedule.Entry) (t : T) (h : Jobs.keyed t.jobs) :
    Jobs.keyed (t.Del e).jobs := by
  cases hl : t.jobs.lookup (entryKey e) with
  | none => simpa [T.Del, hl] using h
  | some job => simpa [T.Del, hl] using keyed_erase _ _ h

theorem createJob_keyed (r : Reading) (e : schedule.Entry) (t : T) (h : Jobs.keyed t.jobs) :
    Jobs.keyed (t.createJob r e).jobs := by
  unfold T.createJob
  simp only []
  split
  · exact Del_keyed e t h
  · split
    · exact Del_keyed e _ (Del_keyed e t h)
    · split
      · exact Del_keyed e _ (Del_keyed e t h)
      · exact keyed_insert _ _ _ _ (Del_keyed e t h)

theorem foldl_createJob_keyed (l : List (schedule.Entry × Reading)) (t : T)
    (h : Jobs.keyed t.jobs) :
    Jobs.keyed (l.foldl (fun t er => t.createJob er.2 er.1) t).jobs := by
  induction l generalizing t with
  | nil => exact h
  | cons a l ih => exact ih _ (createJob_keyed _ _ _ h)

theorem scheduleNode_keyed (env : Env) (t : T) (h : Jobs.keyed t.jobs) :
    Jobs.keyed (t.scheduleNode env).jobs := by
  unfold T.scheduleNode
  split
  · exact h
  · exact foldl_createJob_keyed _ _ h

theorem scheduleObject_keyed (env : Env) (p : path.T) (t : T) (h : Jobs.keyed t.jobs) :
    Jobs.keyed (t.scheduleObject env p).jobs := by
  unfold T.scheduleObject
  split
  · exact h
  · exact h
  · split
    · exact h
    · exact foldl_createJob_keyed _ _ h

theorem scheduleAll_keyed (env : Env) (t : T) (h : Jobs.keyed t.jobs) :
    Jobs.keyed (t.scheduleAll env).jobs := by
  unfold T.scheduleAll
  apply scheduleNode_keyed
  generalize env.GetPaths = l
  induction l generalizing t with
  | nil => exact h
  | cons a l ih => exact ih _ (scheduleObject_keyed env a t h)

theorem schedule_keyed (env : Env) (p : path.T) (t : T) (h : Jobs.keyed t.jobs) :
    Jobs.keyed (t.schedule env p).jobs := by
  unfold T.schedule
  split
  · exact h
  · split
    · exact scheduleNode_keyed env t h
    · exact scheduleObject_keyed env p t h

theorem DelPath_keyed (visit : List String → List String) (p : path.T) (t : T)
    (h : Jobs.keyed t.jobs) : Jobs.keyed (t.DelPath visit p).jobs := by
  unfold T.DelPath
  generalize RangeMap.range visit t.jobs = l
  induction l generalizing t with
  | nil => exact h
  | cons a l ih =>
    rw [List.foldl_cons]
    apply ih
    split
    · split
      · exact h
      · exact Del_keyed _ t h
    · exact h

theorem Purge_keyed (visit : List String → List String) (t : T)
    (h : Jobs.keyed t.jobs) : Jobs.keyed (t.Purge visit).jobs := by
  unfold T.Purge
  generalize RangeMap.range visit t.jobs = l
  induction l generalizing t with
  | nil => exact h
  | cons a l ih =>
    rw [List.foldl_cons]
    apply ih
    split
    · exact keyed_erase _ _ h
    · exact h

/-- One turn of the loop keeps every job under the key of its entry. -/
theorem loop_keyed (env : Env) (ev : Event) (t : T) (h : Jobs.keyed t.jobs) :
    Jobs.keyed (t.loop env ev).jobs := by
  cases ev with
  | InstanceConfigUpdated p =>
    simp only [T.loop, T.onInstConfigUpdated]
    split
    · exact scheduleObject_keyed _ _ _ (DelPath_keyed _ _ _ h)
    · exact h
  | InstanceStatusDeleted p => exact DelPath_keyed _ _ _ h
  | ObjectStatusDeleted p => exact h
  | ObjectStatusUpdated p isProvisioned =>
    simp only [T.loop, T.onMonObjectStatusUpdated]
    split
    · exact schedule_keyed _ _ _ h
    · split
      · exact DelPath_keyed _ _ _ h
      · exact h
  | NodeConfigUpdated =>
    simp only [T.loop, T.onNodeConfigUpdated]
    split
    · exact scheduleNode_keyed _ _ (DelPath_keyed _ _ _ h)
    · exact h
  | NodeMonitorUpdated state =>
    simp only [T.loop, T.onNodeMonitorUpdated]
    split
    · exact Purge_keyed _ _ h
    · split
      · exact scheduleAll_keyed _ _ h
      · exact h
  | eventJobDone s b f err r => exact createJob_keyed _ _ _ h
  | unsupported => exact h
  | ctxDone => exact Purge_keyed _ _ h

/-- In every reachable state of the scheduler, every job is stored under the
key of its entry. -/
theorem reachable_keyed (t : T) (hr : Reachable t) : Jobs.keyed t.jobs := by
  induction hr with
  | init =>
    intro k job hl
    simp [New, AList.lookup_empty] at hl
  | step env ev t _ _ ih => exact loop_keyed env ev t ih

/-- In every reachable state of the scheduler, no job is left while scheduling
is disabled. -/
theorem reachable_disabled (t : T) (hr : Reachable t) (hd : t.enabled = false) :
    t.jobs = ∅ := by
  induction hr with
  | init => rfl
  | step env ev t _ hp ih => exact loop_invariant env ev t hp ih hd

/-- The job that `createJob` stores for an entry: the entry with the time
`GetNext` gave as its next run. -/
theorem createJob_lookup (r : Reading) (e : schedule.Entry) (t : T) (job : Job)
    (h : (t.createJob r e).jobs.lookup (entryKey e) = some job) :
    ∃ next, r.next = some next ∧ job.schedule = { e with NextRunAt := next } := by
  unfold T.createJob at h
  simp only [] at h
  split at h
  · rw [Del_lookup] at h; cases h
  · split at h
    · rw [Del_lookup e (t.Del e)] at h; cases h
    · next next hn =>
      split at h
      · rw [Del_lookup e (t.Del e)] at h; cases h
      · have hk : entryKey { e with NextRunAt := next } = entryKey e := rfl
        simp only [T.Add, hk, AList.lookup_insert, Option.some.injEq] at h
        subst h
        exact ⟨next, hn, rfl⟩

end scheduler

/-- C22: when a timer armed by `createJob` fires, the begin time of the run is
the planned time `next` when the clock is less than 500 ms after it, and the
clock otherwise; `SetLastRun` is called with that time, the event of the job
done carries it, and a job that the loop stores on that event has it as
`LastRunAt`. -/
theorem C22_drift_control (tmr : scheduler.Timer) (o : scheduler.Firing) :
    (tmr.fire o).event.begin =
        (if o.begin - tmr.next < 500 * time.Millisecond then tmr.next else o.begin) ∧
      scheduler.FireCall.SetLastRun tmr.schedule (tmr.fire o).event.begin ∈ (tmr.fire o).calls ∧
      ∀ (t : scheduler.T) (env : scheduler.Env) (r : scheduler.Reading) (job : scheduler.Job),
        (t.loop env ((tmr.fire o).event.toEvent r)).jobs.lookup
            (scheduler.entryKey tmr.schedule) = some job →
          job.schedule.LastRunAt = (tmr.fire o).event.begin := by
  have hb : (tmr.fire o).event.begin =
      (if o.begin - tmr.next < 500 * time.Millisecond then tmr.next else o.begin) := by
    simp only [scheduler.Timer.fire, scheduler.timerFunc, time.Sub, time.minDuration,
      time.maxDuration, time.Millisecond]
    split_ifs <;> first | rfl | omega
  refine ⟨hb, ?_, ?_⟩
  · simp only [scheduler.Timer.fire, scheduler.timerFunc]
    split <;> simp
  · intro t env r job hl
    have he : (tmr.fire o).event.schedule = tmr.schedule := rfl
    simp only [scheduler.JobDone.toEvent, scheduler.T.loop, he] at hl
    obtain ⟨next, -, hj⟩ := scheduler.createJob_lookup r
      { tmr.schedule with LastRunAt := (tmr.fire o).event.begin } t job hl
    rw [hj]

/-- Witness of C22: the scenario timer, planned at 11 s, fires 0.2 s late:
the run begins at 11 s, and the job the loop stores on the event, rescheduled
at 21 s, has 11 s as `LastRunAt`. -/
theorem C22_drift_control_witness :
    (scheduler.scenarioTimer.fire (scheduler.scenarioFiring 200000000 none)).event.begin =
        (if (scheduler.scenarioFiring 200000000 none).begin - scheduler.scenarioTimer.next <
            500 * time.Millisecond
          then scheduler.scenarioTimer.next else (scheduler.scenarioFiring 200000000 none).begin) ∧
      (11000000000 : Int) =
        (scheduler.scenarioTimer.fire (scheduler.scenarioFiring 200000000 none)).event.begin :=
  ⟨(C22_drift_control scheduler.scenarioTimer (scheduler.scenarioFiring 200000000 none)).1,
    (C22_drift_control scheduler.scenarioTimer (scheduler.scenarioFiring 200000000 none)).2.2
      { scheduler.New with enabled := true } scheduler.scenarioEnv
      { now := 11200000000, next := some 21000000000, queued := 11200000001 }
      { Queued := 11200000001,
        schedule := { scheduler.scenarioEntry with
          LastRunAt := 11000000000, NextRunAt := 21000000000 },
        cancel := 0 }
      (by decide)⟩

/-- C23, on the code: the function of a timer that `createJob` armed calls
`SetLastSuccess` and sends an event without error whatever the action
returns. In the scenario the action returns an error: the error is logged,
`SetLastRun` then `SetLastSuccess` are called, and the event carries no
error. -/
theorem C23_success_on_error (tmr : scheduler.Timer) (o : scheduler.Firing) :
    scheduler.FireCall.SetLastRun tmr.schedule (tmr.fire o).event.begin ∈ (tmr.fire o).calls ∧
      scheduler.FireCall.SetLastSuccess tmr.schedule (tmr.fire o).event.begin ∈
        (tmr.fire o).calls ∧
      (tmr.fire o).event.err = none ∧
      (scheduler.scenarioTimer.fire
          (scheduler.scenarioFiring 0 (some (errors.New "exit status 1")))).calls =
        [scheduler.FireCall.action scheduler.scenarioTimer.schedule,
         scheduler.FireCall.SetLastRun scheduler.scenarioTimer.schedule 11000000000,
         scheduler.FireCall.SetLastSuccess scheduler.scenarioTimer.schedule 11000000000] ∧
      (scheduler.scenarioTimer.fire
          (scheduler.scenarioFiring 0 (some (errors.New "exit status 1")))).logged =
        [errors.New "exit status 1"] ∧
      (scheduler.scenarioTimer.fire
          (scheduler.scenarioFiring 0 (some (errors.New "exit status 1")))).event.err = none := by
  refine ⟨?_, ?_, rfl, by decide, by decide, by decide⟩
  · simp only [scheduler.Timer.fire, scheduler.timerFunc]
    split <;> simp
  · simp only [scheduler.Timer.fire, scheduler.timerFunc]
    split <;> simp

/-- C24: from every reachable state of the scheduler, after the handling of
`NodeMonitorUpdated` with the state `s`: when `s` is one of zero, upgrade,
shutting and maintenance, scheduling is disabled, the jobs map is empty and the
cancel function of every job the map had has been called; otherwise scheduling
is enabled. -/
theorem C24_monitor_gating (t : scheduler.T) (hr : scheduler.Reachable t) (env : scheduler.Env)
    (hv : ∀ l, (env.visit l).Perm l) (s : node.MonitorState) :
    (s = .Zero ∨ s = .Upgrade ∨ s = .Shutting ∨ s = .Maintenance →
      (t.loop env (.NodeMonitorUpdated s)).enabled = false ∧
      (t.loop env (.NodeMonitorUpdated s)).jobs = ∅ ∧
      (t.loop env (.NodeMonitorUpdated s)).cancelled =
        t.cancelled ++ (t.jobs.range env.visit).map (fun ke => ke.2.cancel)) ∧
    (¬ (s = .Zero ∨ s = .Upgrade ∨ s = .Shutting ∨ s = .Maintenance) →
      (t.loop env (.NodeMonitorUpdated s)).enabled = true) := by
  have hinc : s ∈ scheduler.incompatibleNodeMonitorStatus ↔
      (s = .Zero ∨ s = .Upgrade ∨ s = .Shutting ∨ s = .Maintenance) := by
    simp [scheduler.incompatibleNodeMonitorStatus]
  constructor
  · intro hs
    have hm := hinc.2 hs
    simp only [scheduler.T.loop, scheduler.T.onNodeMonitorUpdated, hm, decide_True,
      Bool.true_and, Bool.not_true, Bool.false_and]
    cases he : t.enabled with
    | true =>
      simp only [if_true]
      exact ⟨trivial, scheduler.Purge_jobs _ _ hv, scheduler.Purge_cancelled _ _ hv⟩
    | false =>
      have hj := scheduler.reachable_disabled t hr he
      simp only [Bool.false_eq_true, if_false]
      refine ⟨he, hj, ?_⟩
      rw [hj, RangeMap.range_empty]
      simp
  · intro hs
    have hm : s ∉ scheduler.incompatibleNodeMonitorStatus := fun h => hs (hinc.1 h)
    simp only [scheduler.T.loop, scheduler.T.onNodeMonitorUpdated, hm, decide_False,
      Bool.false_and, Bool.not_false, Bool.true_and]
    cases he : t.enabled with
    | true => simpa using he
    | false =>
      simp only [Bool.false_eq_true, if_false, Bool.not_false, if_true]
      rw [scheduler.scheduleAll_enabled]

/-- Witness of C24: the node monitor goes from idle to maintenance while the
three jobs of the scenario object are armed: the jobs map becomes empty and the
three timers are stopped. -/
theorem C24_monitor_gating_witness :
    scheduler.scenarioArmed.jobs.keys.length = 3 ∧
      (scheduler.scenarioArmed.loop scheduler.scenarioEnvThree
        (.NodeMonitorUpdated .Maintenance)).enabled = false ∧
      (scheduler.scenarioArmed.loop scheduler.scenarioEnvThree
        (.NodeMonitorUpdated .Maintenance)).jobs = ∅ ∧
      (scheduler.scenarioArmed.loop scheduler.scenarioEnvThree
        (.NodeMonitorUpdated .Maintenance)).cancelled =
        scheduler.scenarioArmed.cancelled ++
          (scheduler.scenarioArmed.jobs.range scheduler.scenarioEnvThree.visit).map
            (fun ke => ke.2.cancel) :=
  ⟨by decide,
    (C24_monitor_gating scheduler.scenarioArmed
      (.step scheduler.scenarioEnvThree _ _
        (.step scheduler.scenarioEnvThree _ _ .init (fun l => List.Perm.refl l))
        (fun l => List.Perm.refl l))
      scheduler.scenarioEnvThree (fun l => List.Perm.refl l) .Maintenance).1
      (Or.inr (Or.inr (Or.inr rfl)))⟩

/-- C27: for a jobs map where every job is under the key of its entry (as
`Add` stores it) and `range` statements that visit each key once. The entries
visited are the entries of the map, each once. After `DelPath(p)` the map has
exactly the prior entries whose path differs from `p`, and the cancel functions
called are those of the removed entries, one call for each. `Del(e)` on an
entry without job changes nothing. After `Purge` the map is empty and the
cancel functions called are those of the prior entries, one call for each. -/
theorem C27_cancellation (visit : List String → List String) (hv : ∀ l, (visit l).Perm l)
    (t : scheduler.T) (hk : scheduler.Jobs.keyed t.jobs) (p : path.T) (e : schedule.Entry) :
    ((t.jobs.range visit).map Prod.fst).Nodup ∧
      (∀ ke, ke ∈ t.jobs.range visit ↔ t.jobs.lookup ke.1 = some ke.2) ∧
      (∀ k, (t.DelPath visit p).jobs.lookup k =
        (t.jobs.lookup k).filter (fun job => decide (job.schedule.Path ≠ p))) ∧
      (t.DelPath visit p).cancelled = t.cancelled ++
        ((t.jobs.range visit).filter (fun ke => decide (ke.2.schedule.Path = p))).map
          (fun ke => ke.2.cancel) ∧
      (t.jobs.lookup (scheduler.entryKey e) = none → t.Del e = t) ∧
      (t.Purge visit).jobs = ∅ ∧
      (t.Purge visit).cancelled =
        t.cancelled ++ (t.jobs.range visit).map (fun ke => ke.2.cancel) := by
  have hdel := scheduler.delPath_foldl p (t.jobs.range visit)
    (RangeMap.nodup_range_keys _ _ (hv _)) t (fun ke hke =>
      ⟨RangeMap.lookup_of_mem_range _ _ _ hke, hk _ _ (RangeMap.lookup_of_mem_range _ _ _ hke)⟩)
  refine ⟨RangeMap.nodup_range_keys _ _ (hv _), RangeMap.mem_range_iff _ _ (hv _), ?_, hdel.1,
    ?_, scheduler.Purge_jobs _ _ hv, scheduler.Purge_cancelled _ _ hv⟩
  · intro k
    unfold scheduler.T.DelPath
    rw [hdel.2 k]
    cases hl : t.jobs.lookup k with
    | none => simp
    | some job =>
      by_cases hp : job.schedule.Path = p
      · have hm : k ∈ ((t.jobs.range visit).filter
            (fun ke => decide (ke.2.schedule.Path = p))).map Prod.fst :=
          List.mem_map.2 ⟨(k, job), List.mem_filter.2
            ⟨(RangeMap.mem_range_iff _ _ (hv _) (k, job)).2 hl, by simpa using hp⟩, rfl⟩
        rw [if_pos hm]
        simp [Option.filter, hp]
      · have hm : k ∉ ((t.jobs.range visit).filter
            (fun ke => decide (ke.2.schedule.Path = p))).map Prod.fst := by
          intro hm
          obtain ⟨ke, hke, rfl⟩ := List.mem_map.1 hm
          obtain ⟨h1, h2⟩ := List.mem_filter.1 hke
          have h3 := RangeMap.lookup_of_mem_range _ _ _ h1
          rw [hl] at h3
          cases h3
          exact hp (of_decide_eq_true h2)
        rw [if_neg hm]
        simp [Option.filter, hp]
  · intro hl
    simp [scheduler.T.Del, hl]

/-- Witness of C27: the three jobs of the scenario object are armed; `DelPath`
of its path leaves no job and stops the three timers, `DelPath` of another path
does nothing, and `Purge` stops the three timers. -/
theorem C27_cancellation_witness :
    (scheduler.scenarioArmed.DelPath (fun l => l) scheduler.scenarioPath).jobs.keys = [] ∧
      (scheduler.scenarioArmed.DelPath (fun l => l) scheduler.scenarioPath).cancelled =
        [2, 1, 0] ∧
      (scheduler.scenarioArmed.DelPath (fun l => l) scheduler.zeroPath).jobs.keys =
        scheduler.scenarioArmed.jobs.keys ∧
      (scheduler.scenarioArmed.DelPath (fun l => l) scheduler.zeroPath).cancelled = [] ∧
      (scheduler.scenarioArmed.Purge (fun l => l)).cancelled =
        scheduler.scenarioArmed.cancelled ++
          (scheduler.scenarioArmed.jobs.range (fun l => l)).map (fun ke => ke.2.cancel) :=
  ⟨by decide, by decide, by decide, by decide,
    (C27_cancellation (fun l => l) (fun l => List.Perm.refl l) scheduler.scenarioArmed
      (scheduler.reachable_keyed _
        (.step scheduler.scenarioEnvThree _ _
          (.step scheduler.scenarioEnvThree _ _ .init (fun l => List.Perm.refl l))
          (fun l => List.Perm.refl l)))
      scheduler.scenarioPath scheduler.scenarioEntry).2.2.2.2.2.2⟩

/-! ## Discovery: the install of a fetched config -/

/-- C21, as stated, fails: the config fetched for the valid path (ns1, svc,
s1) is installed under `<etc>/namespaces/`, not at `<etc>/ns1/svc/s1.conf`, and
the one fetched for the valid root path (root, svc, s1) is installed at
`<etc>/s1.conf`, not at `<etc>/svc/s1.conf`. -/
theorem C21_install_location_counterexample :
    path.New "s1" "ns1" "svc" = .ok daemondiscover.scenarioObject ∧
      ((daemondiscover.scenarioStarted daemondiscover.scenarioObject).cmdRemoteCfgFetched
        "/etc/opensvc" false none
        (daemondiscover.scenarioFetchedMsg daemondiscover.scenarioObject)).renames =
        [("/var/tmp/fetched.conf", "/etc/opensvc/namespaces/ns1/svc/s1.conf")] ∧
      "/etc/opensvc/namespaces/ns1/svc/s1.conf" ≠ "/etc/opensvc" ++ "/ns1/svc/s1.conf" ∧
      path.New "s1" "root" "svc" = .ok daemondiscover.scenarioRootObject ∧
      ((daemondiscover.scenarioStarted daemondiscover.scenarioRootObject).cmdRemoteCfgFetched
        "/etc/opensvc" false none
        (daemondiscover.scenarioFetchedMsg daemondiscover.scenarioRootObject)).renames =
        [("/var/tmp/fetched.conf", "/etc/opensvc/s1.conf")] ∧
      "/etc/opensvc/s1.conf" ≠ "/etc/opensvc" ++ "/svc/s1.conf" := by
  decide

/-- C21, amended: for every valid path (ns, kind, name), when the context of
the message is not done, the fetched file is renamed once, to
`<etc>/namespaces/<ns>/<kind>/<name>.conf` when ns is not root, to
`<etc>/<name>.conf` when ns is root and the kind is svc or ccfg, and to
`<etc>/<kind>/<name>.conf` for the other kinds in root; what the rename returns
is sent on the result channel. -/
theorem C21_install_location (name nspace kd : String) (p : path.T)
    (h : path.New name nspace kd = .ok p) (Etc : String) (rename : Option errors.Error)
    (c : daemondiscover.RemoteFileConfig) (hc : c.Path = p) (d : daemondiscover.discover) :
    (d.cmdRemoteCfgFetched Etc false rename c).renames =
        [(c.Filename,
          if p.Namespace ≠ "root" then
            Etc ++ "/" ++ "namespaces/" ++ (p.Namespace ++ "/" ++ p.Kind.String ++ "/" ++ p.Name)
              ++ ".conf"
          else if p.Kind = kind.T.Svc ∨ p.Kind = kind.T.Ccfg then
            Etc ++ "/" ++ "" ++ p.Name ++ ".conf"
          else Etc ++ "/" ++ "" ++ (p.Kind.String ++ "/" ++ p.Name) ++ ".conf")] ∧
      (d.cmdRemoteCfgFetched Etc false rename c).Err = [rename] := by
  have hcan := path.New_ok_canonical h
  subst hc
  simp only [daemondiscover.discover.cmdRemoteCfgFetched, path.String_of_canonical hcan,
    Bool.false_eq_true, if_false, and_true, List.cons.injEq, Prod.mk.injEq, true_and]
  by_cases hr : c.Path.Namespace = "root"
  · by_cases hk : c.Path.Kind = kind.T.Svc ∨ c.Path.Kind = kind.T.Ccfg
    · simp only [hr, hk, ne_eq, not_true_eq_false, if_true, if_false]
    · simp only [hr, hk, ne_eq, not_true_eq_false, if_true, if_false]
  · simp only [hr, ne_eq, not_false_eq_true, if_true, if_false]

/-- Witness of C21 (amended): the scenario message of the path (ns1, svc,
s1). -/
theorem C21_install_location_witness :
    ((daemondiscover.scenarioStarted daemondiscover.scenarioObject).cmdRemoteCfgFetched
        "/etc/opensvc" false none
        (daemondiscover.scenarioFetchedMsg daemondiscover.scenarioObject)).renames =
        [((daemondiscover.scenarioFetchedMsg daemondiscover.scenarioObject).Filename,
          if daemondiscover.scenarioObject.Namespace ≠ "root" then
            "/etc/opensvc" ++ "/" ++ "namespaces/" ++
              (daemondiscover.scenarioObject.Namespace ++ "/" ++
                daemondiscover.scenarioObject.Kind.String ++ "/" ++
                daemondiscover.scenarioObject.Name) ++ ".conf"
          else if daemondiscover.scenarioObject.Kind = kind.T.Svc ∨
              daemondiscover.scenarioObject.Kind = kind.T.Ccfg then
            "/etc/opensvc" ++ "/" ++ "" ++ daemondiscover.scenarioObject.Name ++ ".conf"
          else "/etc/opensvc" ++ "/" ++ "" ++
            (daemondiscover.scenarioObject.Kind.String ++ "/" ++
              daemondiscover.scenarioObject.Name) ++ ".conf")] ∧
      ((daemondiscover.scenarioStarted daemondiscover.scenarioObject).cmdRemoteCfgFetched
        "/etc/opensvc" false none
        (daemondiscover.scenarioFetchedMsg daemondiscover.scenarioObject)).Err = [none] :=
  C21_install_location "s1" "ns1" "svc" daemondiscover.scenarioObject (by decide) "/etc/opensvc"
    none (daemondiscover.scenarioFetchedMsg daemondiscover.scenarioObject) rfl
    (daemondiscover.scenarioStarted daemondiscover.scenarioObject)

/-- C25, on the code: the discovery has empty maps and a fetch of ns1/svc/s1
is started from the node B, which has no entry in `fetcherNodeCancel`. The
fetch is registered with its cancel function in `fetcherCancel`, and
`fetcherNodeCancel[B]` is made empty: it has no entry for ns1/svc/s1. A second
fetch from B, of the path s1, is recorded there. -/
theorem C25_peer_index_missing :
    (daemondiscover.scenarioStarted daemondiscover.scenarioObject).fetcherFrom "ns1/svc/s1" =
        some "B" ∧
      (daemondiscover.scenarioStarted daemondiscover.scenarioObject).fetcherCancel "ns1/svc/s1" =
        some 0 ∧
      (daemondiscover.scenarioStarted daemondiscover.scenarioObject).fetches =
        [{ ctx := 0, Path := daemondiscover.scenarioObject, Node := "B" }] ∧
      ((daemondiscover.scenarioStarted daemondiscover.scenarioObject).fetcherNodeCancel "B").map
        (fun m => m "ns1/svc/s1") = some none ∧
      (((daemondiscover.scenarioStarted daemondiscover.scenarioObject).fetchCfgFromRemote
        daemondiscover.scenarioRootObject "B" 21).fetcherNodeCancel "B").map
          (fun m => (m "ns1/svc/s1", m "s1")) = some (none, some 1) := by
  decide

/-! ## Discovery: the bookkeeping of the fetches -/

namespace daemondiscover

theorem init_bookkeeping (localhost : String) : (discover.init localhost).Bookkeeping := by
  constructor <;> simp [discover.init, GoMap.empty]

/-- The method `cancelFetcher` on a path with a registered cancel function. -/
theorem cancelFetcher_eq (d : discover) (s : String) (c : Nat)
    (hc : d.fetcherCancel s = some c) :
    d.cancelFetcher s = some
      { d with
        cancelled := d.cancelled ++ [c]
        fetcherCancel := d.fetcherCancel.delete s
        fetcherNodeCancel :=
          match d.fetcherNodeCancel (d.fetcherFrom.get s) with
          | some m => d.fetcherNodeCancel.set (d.fetcherFrom.get s) (m.delete s)
          | none => d.fetcherNodeCancel
        fetcherUpdated := d.fetcherUpdated.delete s
        fetcherFrom := d.fetcherFrom.delete s } := by
  simp only [discover.cancelFetcher, hc]

/-- The method `fetchCfgFromRemote` for a path without fetch in progress. -/
theorem fetchCfgFromRemote_eq (d : discover) (p : path.T) (node : String) (updated : Int)
    (hf : d.fetcherFrom p.String = none) :
    d.fetchCfgFromRemote p node updated =
      { d with
        contexts := d.contexts + 1
        fetcherCancel := d.fetcherCancel.set p.String d.contexts
        fetcherFrom := d.fetcherFrom.set p.String node
        fetcherUpdated := d.fetcherUpdated.set p.String updated
        fetcherNodeCancel :=
          match d.fetcherNodeCancel node with
          | some m => d.fetcherNodeCancel.set node (m.set p.String d.contexts)
          | none => d.fetcherNodeCancel.set node GoMap.empty
        fetches := d.fetches ++ [{ ctx := d.contexts, Path := p, Node := node }] } := by
  simp only [discover.fetchCfgFromRemote, hf]

/-- The method `cancelFetcher` on a path with a registered cancel function
does not panic and keeps the bookkeeping. -/
theorem cancelFetcher_bookkeeping (d : discover) (hb : d.Bookkeeping) (s : String) (c : Nat)
    (hc : d.fetcherCancel s = some c) :
    ∃ d1, d.cancelFetcher s = some d1 ∧ d1.Bookkeeping ∧ d1.fetcherFrom s = none ∧
      d1.moncfg = d.moncfg ∧ d1.localhost = d.localhost := by
  refine ⟨_, cancelFetcher_eq d s c hc, ?_, ?_, rfl, rfl⟩
  · constructor
    · intro s1
      simp only [GoMap.delete]
      split
      · rfl
      · exact hb.from_cancel s1
    · intro s1
      simp only [GoMap.delete]
      split
      · rfl
      · exact hb.updated_cancel s1
    · intro s1 c1 h1
      simp only [GoMap.delete] at h1
      split at h1
      · cases h1
      · next hne =>
        obtain ⟨h2, h3⟩ := hb.live s1 c1 h1
        refine ⟨?_, h3⟩
        simp only [List.mem_append, List.mem_singleton, not_or]
        exact ⟨h2, fun he => hne (hb.inj s1 s c1 h1 (he ▸ hc))⟩
    · intro s1 s2 c1 h1 h2
      simp only [GoMap.delete] at h1 h2
      split at h1
      · cases h1
      · split at h2
        · cases h2
        · exact hb.inj s1 s2 c1 h1 h2
    · intro c1 h1
      simp only [List.mem_append, List.mem_singleton] at h1
      rcases h1 with h1 | h1
      · exact hb.made c1 h1
      · rw [h1]; exact (hb.live s c hc).2
    · intro f hf hn
      simp only [List.mem_append, List.mem_singleton, not_or] at hn
      have h1 := hb.fetch f hf hn.1
      simp only [GoMap.delete]
      split
      · next he =>
        rw [he, hc] at h1
        exact absurd (Option.some.inj h1).symm hn.2
      · exact h1
  · simp [GoMap.delete]

/-- The method `fetchCfgFromRemote` keeps the bookkeeping. -/
theorem fetchCfgFromRemote_bookkeeping (d : discover) (hb : d.Bookkeeping) (p : path.T)
    (node : String) (updated : Int) :
    (d.fetchCfgFromRemote p node updated).Bookkeeping ∧
      (d.fetchCfgFromRemote p node updated).localhost = d.localhost := by
  cases hf : d.fetcherFrom p.String with
  | some n =>
    have : d.fetchCfgFromRemote p node updated = d := by
      simp only [discover.fetchCfgFromRemote, hf]
    rw [this]
    exact ⟨hb, rfl⟩
  | none =>
    rw [fetchCfgFromRemote_eq d p node updated hf]
    have hcn : d.fetcherCancel p.String = none := by
      have := hb.from_cancel p.String
      rw [hf] at this
      cases h : d.fetcherCancel p.String with
      | none => rfl
      | some c => rw [h] at this; cases this
    refine ⟨?_, rfl⟩
    constructor
    · intro s1
      simp only [GoMap.set]
      split
      · rfl
      · exact hb.from_cancel s1
    · intro s1
      simp only [GoMap.set]
      split
      · rfl
      · exact hb.updated_cancel s1
    · intro s1 c1 h1
      simp only [GoMap.set] at h1
      split at h1
      · cases h1
        exact ⟨fun hm => absurd (hb.made _ hm) (lt_irrefl _), Nat.lt_succ_self _⟩
      · obtain ⟨h2, h3⟩ := hb.live s1 c1 h1
        exact ⟨h2, Nat.lt_succ_of_lt h3⟩
    · intro s1 s2 c1 h1 h2
      simp only [GoMap.set] at h1 h2
      split at h1
      · next he1 =>
        split at h2
        · next he2 => rw [he1, he2]
        · cases h1
          exact absurd (hb.live s2 _ h2).2 (lt_irrefl _)
      · split at h2
        · cases h2
          exact absurd (hb.live s1 _ h1).2 (lt_irrefl _)
        · exact hb.inj s1 s2 c1 h1 h2
    · intro c1 h1
      exact Nat.lt_succ_of_lt (hb.made c1 h1)
    · intro f hf1 hn
      simp only [List.mem_append, List.mem_singleton] at hf1
      simp only [GoMap.set]
      rcases hf1 with hf1 | hf1
      · have h1 := hb.fetch f hf1 hn
        split
        · next he => rw [he, hcn] at h1; cases h1
        · exact h1
      · rw [hf1]
        simp

end daemondiscover

namespace daemondiscover

/-- The bookkeeping reads the maps of the fetches only. -/
theorem bookkeeping_congr (d d1 : discover) (hb : d.Bookkeeping)
    (h1 : d1.fetcherFrom = d.fetcherFrom) (h2 : d1.fetcherUpdated = d.fetcherUpdated)
    (h3 : d1.fetcherCancel = d.fetcherCancel) (h4 : d1.contexts = d.contexts)
    (h5 : d1.cancelled = d.cancelled) (h6 : d1.fetches = d.fetches) : d1.Bookkeeping := by
  constructor
  · rw [h1, h3]; exact hb.from_cancel
  · rw [h2, h3]; exact hb.updated_cancel
  · rw [h3, h4, h5]; exact hb.live
  · rw [h3]; exact hb.inj
  · rw [h4, h5]; exact hb.made
  · rw [h3, h5, h6]; exact hb.fetch

theorem cmdLocalCfgFileAdded_bookkeeping (d : discover) (hb : d.Bookkeeping) (p : path.T)
    (filename : String) : (d.cmdLocalCfgFileAdded p filename).Bookkeeping := by
  unfold discover.cmdLocalCfgFileAdded
  simp only []
  split
  · exact hb
  · exact bookkeeping_congr d _ hb rfl rfl rfl rfl rfl rfl

theorem cmdInstCfgDone_bookkeeping (d : discover) (hb : d.Bookkeeping) (fileExists : Bool)
    (p : path.T) (filename : String) : (d.cmdInstCfgDone fileExists p filename).Bookkeeping := by
  unfold discover.cmdInstCfgDone
  simp only []
  split
  · apply cmdLocalCfgFileAdded_bookkeeping
    exact bookkeeping_congr d _ hb rfl rfl rfl rfl rfl rfl
  · exact bookkeeping_congr d _ hb rfl rfl rfl rfl rfl rfl

/-- A key of `fetcherUpdated` or of `fetcherFrom` has a cancel function. -/
theorem cancel_of_updated (d : discover) (hb : d.Bookkeeping) (s : String) (u : Int)
    (h : d.fetcherUpdated s = some u) : ∃ c, d.fetcherCancel s = some c := by
  have := hb.updated_cancel s
  rw [h] at this
  exact Option.isSome_iff_exists.1 this.symm

theorem cancel_of_from (d : discover) (hb : d.Bookkeeping) (s : String) (n : String)
    (h : d.fetcherFrom s = some n) : ∃ c, d.fetcherCancel s = some c := by
  have := hb.from_cancel s
  rw [h] at this
  exact Option.isSome_iff_exists.1 this.symm

/-- The method `cmdRemoteCfgUpdated` does not panic and keeps the bookkeeping. -/
theorem cmdRemoteCfgUpdated_bookkeeping (d : discover) (hb : d.Bookkeeping) (p : path.T)
    (node : String) (remoteCfg : coreinstance.Config) :
    ∃ d1, d.cmdRemoteCfgUpdated p node remoteCfg = some d1 ∧ d1.Bookkeeping := by
  have hfetch : ∀ d0 : discover, d0.Bookkeeping →
      ∃ d1, (if p.Kind ≠ kind.T.Sec ∧ (!d0.inScope remoteCfg) = true then some d0
        else some (d0.fetchCfgFromRemote p node remoteCfg.Updated)) = some d1 ∧
        d1.Bookkeeping := by
    intro d0 h0
    split
    · exact ⟨d0, rfl, h0⟩
    · exact ⟨_, rfl, (fetchCfgFromRemote_bookkeeping d0 h0 p node remoteCfg.Updated).1⟩
  unfold discover.cmdRemoteCfgUpdated
  simp only []
  cases hm : d.moncfg p.String with
  | some _ => exact ⟨d, rfl, hb⟩
  | none =>
    simp only []
    cases hu : d.fetcherUpdated p.String with
    | none => exact hfetch d hb
    | some u =>
      simp only []
      split
      · obtain ⟨c, hc⟩ := cancel_of_updated d hb _ u hu
        obtain ⟨d1, hd1, hb1, -⟩ := cancelFetcher_bookkeeping d hb _ c hc
        rw [hd1]
        exact hfetch d1 hb1
      · exact ⟨d, rfl, hb⟩

/-- The method `cmdRemoteCfgDeleted` does not panic and keeps the bookkeeping. -/
theorem cmdRemoteCfgDeleted_bookkeeping (d : discover) (hb : d.Bookkeeping) (p : path.T)
    (node : String) : ∃ d1, d.cmdRemoteCfgDeleted p node = some d1 ∧ d1.Bookkeeping := by
  unfold discover.cmdRemoteCfgDeleted
  simp only []
  cases hf : d.fetcherFrom p.String with
  | none => exact ⟨d, rfl, hb⟩
  | some n =>
    simp only []
    split
    · obtain ⟨c, hc⟩ := cancel_of_from d hb _ n hf
      obtain ⟨d1, hd1, hb1, -⟩ := cancelFetcher_bookkeeping d hb _ c hc
      exact ⟨d1, hd1, hb1⟩
    · exact ⟨d, rfl, hb⟩

/-- One turn of the loop on a command that can be received does not panic and
keeps the bookkeeping. -/
theorem cfg_bookkeeping (Etc : String) (i : Cmd) (d : discover) (hb : d.Bookkeeping)
    (hi : i.delivered d) : ∃ d1, d.cfg Etc i = some d1 ∧ d1.Bookkeeping := by
  cases i with
  | CfgFsWatcherCreate p filename => exact ⟨_, rfl, cmdLocalCfgFileAdded_bookkeeping d hb _ _⟩
  | MonCfgDone p filename fileExists => exact ⟨_, rfl, cmdInstCfgDone_bookkeeping d hb _ _ _⟩
  | CfgUpdated p node config =>
    simp only [discover.cfg]
    split
    · exact ⟨d, rfl, hb⟩
    · exact cmdRemoteCfgUpdated_bookkeeping d hb p node config
  | CfgDeleted p node =>
    simp only [discover.cfg]
    split
    · exact ⟨d, rfl, hb⟩
    · exact cmdRemoteCfgDeleted_bookkeeping d hb p node
  | RemoteFileConfig c done rename =>
    simp only [discover.cfg, discover.cmdRemoteCfgFetched]
    cases hd : done with
    | true => exact ⟨d, rfl, hb⟩
    | false =>
      simp only [Bool.false_eq_true, if_false]
      have hn : c.Ctx ∉ d.cancelled := by
        intro hm
        have := hi.2 hm
        rw [hd] at this
        cases this
      have hc := hb.fetch _ hi.1 hn
      obtain ⟨d1, hd1, hb1, -⟩ := cancelFetcher_bookkeeping d hb _ c.Ctx hc
      exact ⟨d1, hd1, hb1⟩
  | unknown => exact ⟨d, rfl, hb⟩

/-- Every reachable state of the discovery keeps the bookkeeping. -/
theorem reachable_bookkeeping (localhost : String) (d : discover)
    (hr : Reachable localhost d) : d.Bookkeeping := by
  induction hr with
  | init => exact init_bookkeeping localhost
  | step Etc i d d1 _ hi he ih =>
    obtain ⟨d2, h2, hb2⟩ := cfg_bookkeeping Etc i d ih hi
    rw [he] at h2
    cases h2
    exact hb2

end daemondiscover

/-- C29: in every state of the discovery reachable from empty maps through the
handlers of the loop, the message of a complete fetch being one of a fetch that
was started, with its own context: `fetcherFrom`, `fetcherUpdated` and
`fetcherCancel` have the same keys, and no command that can be received makes a
handler panic, that is `cancelFetcher` is not reached for a path without
registered cancel function. -/
theorem C29_fetcher_bookkeeping (localhost : String) (d : daemondiscover.discover)
    (hr : daemondiscover.Reachable localhost d) :
    (∀ s, (d.fetcherFrom s).isSome = (d.fetcherCancel s).isSome ∧
      (d.fetcherUpdated s).isSome = (d.fetcherCancel s).isSome) ∧
    (∀ Etc i, daemondiscover.Cmd.delivered d i → (d.cfg Etc i).isSome = true) ∧
    (∀ Etc done rename c, daemondiscover.Cmd.delivered d (.RemoteFileConfig c done rename) →
      done = false → (d.fetcherCancel c.Path.String).isSome = true ∧
        ((d.cmdRemoteCfgFetched Etc done rename c).d).isSome = true) := by
  have hb := daemondiscover.reachable_bookkeeping localhost d hr
  refine ⟨fun s => ⟨hb.from_cancel s, hb.updated_cancel s⟩, ?_, ?_⟩
  · intro Etc i hi
    obtain ⟨d1, h1, -⟩ := daemondiscover.cfg_bookkeeping Etc i d hb hi
    rw [h1]; rfl
  · intro Etc done rename c hi hd
    have hn : c.Ctx ∉ d.cancelled := by
      intro hm
      have := hi.2 hm
      rw [hd] at this
      cases this
    have hc := hb.fetch _ hi.1 hn
    constructor
    · rw [hc]; rfl
    · obtain ⟨d1, h1, -⟩ := daemondiscover.cfg_bookkeeping Etc (.RemoteFileConfig c done rename)
        d hb hi
      exact (congrArg Option.isSome h1).trans rfl

/-- Witness of C29: from empty maps on the node n1, a config of ns1/svc/s1
updated on the node B starts a fetch; in that state the three maps have the
same keys and the delivery of the fetched config does not panic. -/
theorem C29_fetcher_bookkeeping_witness :
    (∀ s, ((daemondiscover.scenarioStarted daemondiscover.scenarioObject).fetcherFrom s).isSome =
        ((daemondiscover.scenarioStarted daemondiscover.scenarioObject).fetcherCancel s).isSome ∧
      ((daemondiscover.scenarioStarted daemondiscover.scenarioObject).fetcherUpdated s).isSome =
        ((daemondiscover.scenarioStarted daemondiscover.scenarioObject).fetcherCancel s).isSome) ∧
    (((daemondiscover.scenarioStarted daemondiscover.scenarioObject).cfg "/etc/opensvc"
      (.RemoteFileConfig (daemondiscover.scenarioFetchedMsg daemondiscover.scenarioObject)
        false none)).isSome = true) :=
  ⟨(C29_fetcher_bookkeeping "n1" (daemondiscover.scenarioStarted daemondiscover.scenarioObject)
      (.step "/etc/opensvc"
        (.CfgUpdated daemondiscover.scenarioObject "B"
          { daemondiscover.scenarioConfig 20 with Path := daemondiscover.scenarioObject })
        (daemondiscover.discover.init "n1") _ .init trivial rfl)).1,
    (C29_fetcher_bookkeeping "n1" (daemondiscover.scenarioStarted daemondiscover.scenarioObject)
      (.step "/etc/opensvc"
        (.CfgUpdated daemondiscover.scenarioObject "B"
          { daemondiscover.scenarioConfig 20 with Path := daemondiscover.scenarioObject })
        (daemondiscover.discover.init "n1") _ .init trivial rfl)).2.1 "/etc/opensvc"
      (.RemoteFileConfig (daemondiscover.scenarioFetchedMsg daemondiscover.scenarioObject)
        false none)
      ⟨by decide, by decide⟩⟩

/-! ## Object paths: the canonical string as a fixpoint -/

namespace path

/-- A path that `Parse` returns is one that `New` returned. -/
theorem Parse_ok_canonical {s : String} {t : T} (h : Parse s = .ok t) : t.Canonical := by
  unfold Parse at h
  simp only [] at h
  split at h
  · exact New_ok_canonical h
  · split at h <;> exact New_ok_canonical h
  · split at h <;> exact New_ok_canonical h
  · exact New_ok_canonical h

/-- `Parse` reads its argument through `strings.ToLower`. -/
theorem Parse_ToLower (s : String) : Parse (strings.ToLower s) = Parse s := by
  unfold Parse
  simp only [strings.ToLower_twice]

/-- The root path of a name that `New` accepted, with the kind svc or ccfg,
is one that `New` returns; its canonical string is the name. -/
theorem New_root_of_canonical {t : T} (h : t.Canonical) (k : kind.T)
    (hk : k = kind.T.Svc ∨ k = kind.T.Ccfg) :
    New t.Name "root" k.String = .ok { Name := t.Name, Namespace := "root", Kind := k } ∧
      T.String { Name := t.Name, Namespace := "root", Kind := k } = t.Name := by
  have hc : T.Canonical { Name := t.Name, Namespace := "root", Kind := k } := by
    have h1 : hostnameRegexRFC952.MatchString "root" = true := by decide
    have h2 : strings.ToLower "root" = "root" := by decide
    refine ⟨?_, h.name_match, h.name_lower, h.name_free, ?_, h1, h2⟩
    · show k ≠ kind.T.Invalid
      rcases hk with rfl | rfl <;> decide
    · intro hn
      rcases hk with rfl | rfl <;> cases hn
  refine ⟨New_of_canonical hc, ?_⟩
  rw [String_of_canonical hc]
  simp only [if_true, hk]

end path

/-- C28: for every string on which `Parse` succeeds with a path `p`,
`Parse(p.String())` succeeds too, with a path whose canonical string is
`p.String()`; and `Parse` of a string is `Parse` of the lowercased string. -/
theorem C28_parse_fixpoint (s : String) :
    (∀ p, path.Parse s = .ok p →
      ∃ q, path.Parse p.String = .ok q ∧ q.String = p.String) ∧
    path.Parse s = path.Parse (strings.ToLower s) := by
  refine ⟨?_, (path.Parse_ToLower s).symm⟩
  intro p hp
  have hc := path.Parse_ok_canonical hp
  rw [path.Parse_String_of_canonical hc]
  by_cases hr : p.Namespace = "root" ∧ (p.Kind = kind.T.Svc ∨ p.Kind = kind.T.Ccfg)
  · rw [if_pos hr, path.String_of_canonical hc]
    simp only [hr.1, hr.2, if_true]
    by_cases hn : p.Name = "cluster"
    · rw [if_pos hn]
      exact ⟨_, (path.New_root_of_canonical hc kind.T.Ccfg (Or.inr rfl)).1,
        (path.New_root_of_canonical hc kind.T.Ccfg (Or.inr rfl)).2⟩
    · rw [if_neg hn]
      exact ⟨_, (path.New_root_of_canonical hc kind.T.Svc (Or.inl rfl)).1,
        (path.New_root_of_canonical hc kind.T.Svc (Or.inl rfl)).2⟩
  · rw [if_neg hr]
    exact ⟨p, rfl, rfl⟩

/-- Witness of C28: "SVC/Cluster" parses to the root svc named cluster, whose
canonical string "cluster" parses to the cluster config, of the same canonical
string. -/
theorem C28_parse_fixpoint_witness :
    path.Parse "SVC/Cluster" =
        .ok { Name := "cluster", Namespace := "root", Kind := kind.T.Svc } ∧
      path.Parse "cluster" =
        .ok { Name := "cluster", Namespace := "root", Kind := kind.T.Ccfg } ∧
      (∃ q, path.Parse
          (path.T.String { Name := "cluster", Namespace := "root", Kind := kind.T.Svc }) = .ok q ∧
        q.String = path.T.String { Name := "cluster", Namespace := "root", Kind := kind.T.Svc }) ∧
      path.Parse "SVC/Cluster" = path.Parse (strings.ToLower "SVC/Cluster") :=
  ⟨by decide, by decide,
    (C28_parse_fixpoint "SVC/Cluster").1
      { Name := "cluster", Namespace := "root", Kind := kind.T.Svc } (by decide),
    (C28_parse_fixpoint "SVC/Cluster").2⟩

/-! ## Sorting of strings -/

namespace strings

/-- The order of Go strings on code point lists is the lexicographic order. -/
theorem lessRunes_iff (a b : List Char) : lessRunes a b = true ↔ List.Lex (· < ·) a b := by
  induction a generalizing b with
  | nil =>
    cases b with
    | nil =>
      simp only [lessRunes, Bool.false_eq_true, false_iff]
      intro h; cases h
    | cons y ys => simpa [lessRunes] using List.Lex.nil
  | cons x xs ih =>
    cases b with
    | nil =>
      simp only [lessRunes, Bool.false_eq_true, false_iff]
      intro h; cases h
    | cons y ys =>
      unfold lessRunes
      by_cases h1 : x < y
      · simpa [h1] using List.Lex.rel h1
      · by_cases h2 : y < x
        · simp only [h1, h2, if_false, if_true, Bool.false_eq_true, false_iff]
          intro h
          cases h with
          | cons _ => exact lt_irrefl _ h2
          | rel h3 => exact h1 h3
        · simp only [h1, h2, if_false, ih ys]
          have he : x = y := le_antisymm (not_lt.1 h2) (not_lt.1 h1)
          subst he
          constructor
          · exact List.Lex.cons
          · intro h
            cases h with
            | cons h5 => exact h5
            | rel h3 => exact absurd h3 h1

/-- The order of Go strings is the order of strings. -/
theorem Less_iff (a b : String) : Less a b = true ↔ a < b := by
  rw [String.lt_iff_toList_lt]
  exact lessRunes_iff a.data b.data

theorem not_Less_iff (a b : String) : Less b a = false ↔ a ≤ b := by
  rw [← not_lt, ← Less_iff]
  cases Less b a <;> simp

end strings

namespace sort

/-- The strings `sort.Strings` gives are in increasing order. -/
theorem Strings_sorted (l : List String) :
    (Strings l).Sorted (fun a b => strings.Less b a = false) :=
  @List.sorted_insertionSort String (fun a b => strings.Less b a = false) _
    ⟨fun a b => by
      simp only [strings.not_Less_iff]
      exact le_total a b⟩
    ⟨fun a b c => by
      simp only [strings.not_Less_iff]
      exact le_trans⟩ l

/-- The strings `sort.Strings` gives are the strings it is given. -/
theorem Strings_perm (l : List String) : (Strings l).Perm l :=
  List.perm_insertionSort _ l

end sort

/-! ## The config watcher: a changed file -/

namespace instcfg

/-- The method `configFileCheck` past its first two returns: the file has a
modification time, which is not the last recorded one, its checksum is read,
the configurer resolves some nodes and the file still has a modification
time. -/
theorem configFileCheck_changed (ConfigEqual : coreinstance.Config → coreinstance.Config → Bool)
    (out : Outside) (o : T) (checksum : String) (nodes : List String)
    (hm : out.mtime ≠ 0) (hd : out.mtime ≠ o.lastMtime)
    (hc : out.md5 = some checksum) (hn : out.nodes = some nodes) (hne : nodes ≠ [])
    (hnm : out.newMtime ≠ 0) :
    o.configFileCheck ConfigEqual out =
      if ¬ out.newMtime = out.mtime then
        ({ (if o.path.String = clusterPath.String then
              { o with loadSections := o.loadSections + 1 } else o) with
            configure := some nodes, forceRefresh := false }, none)
      else if (!nodes.contains o.localhost) = true then
        ({ (if o.path.String = clusterPath.String then
              { o with loadSections := o.loadSections + 1 } else o) with
            configure := some nodes, forceRefresh := false }, some configFileCheckError)
      else
        (T.updateCfg ConfigEqual
          { o.cfg with Nodename := o.localhost, Scope := sort.Strings nodes,
                       Checksum := checksum, Updated := out.mtime }
          { (if o.path.String = clusterPath.String then
              { o with loadSections := o.loadSections + 1 } else o) with
            configure := some nodes, forceRefresh := false, lastMtime := out.mtime }, none) := by
  have hlen : ¬ nodes.length = 0 := fun h => hne (List.length_eq_zero.1 h)
  unfold T.configFileCheck
  simp only []
  rw [if_neg hm, if_neg (fun h => hd h.1)]
  simp only [hc, hn, T.setConfigure, Option.getD_some, hlen, if_false, hnm]
  by_cases hp : o.path.String = clusterPath.String
  · simp only [hp, if_true]
  · simp only [hp, if_false]

end instcfg

/-- C26, as stated, fails: the file, modified at 5, is not the one last seen
(modified at 1), the nodes resolved are n2 and n1, and the file is gone after
the read: its modification time changed during the read, to the zero time,
and the check returns an error. It also returns an error on a file without
modification time, whatever the last recorded one. -/
theorem C26_changed_file_counterexample :
    (instcfg.scenarioOutsideAfter 5 0).mtime ≠ (instcfg.scenarioWatcher 1).lastMtime ∧
      (instcfg.scenarioOutsideAfter 5 0).newMtime ≠ (instcfg.scenarioOutsideAfter 5 0).mtime ∧
      ((instcfg.scenarioWatcher 1).configFileCheck (fun a b => decide (a = b))
        (instcfg.scenarioOutsideAfter 5 0)).2 = some instcfg.configFileCheckError ∧
      (instcfg.scenarioOutsideAfter 0 0).mtime ≠ (instcfg.scenarioWatcher 1).lastMtime ∧
      (instcfg.scenarioOutsideAfter 0 0).newMtime = (instcfg.scenarioOutsideAfter 0 0).mtime ∧
      ((instcfg.scenarioWatcher 1).configFileCheck (fun a b => decide (a = b))
        (instcfg.scenarioOutsideAfter 0 0)).2 = some instcfg.configFileCheckError := by
  decide

/-- C26, amended: the file has a modification time `mtime`, which differs from
the last recorded one, its checksum is read, the node list resolved is not
empty and the file still has a modification time after the read. When that
time is `mtime`: if the local node is not in the list the check returns an
error and leaves `cfg` unchanged; otherwise it returns no error, sets
`lastMtime` to `mtime` and passes to `updateCfg` the candidate made of `cfg`
with the local node as `Nodename`, the node list sorted in increasing order as
`Scope`, the checksum as `Checksum` and `mtime` as `Updated`, which becomes
`cfg` and is sent to the store unless `ConfigEqual` finds it equal to `cfg`.
When that time is not `mtime` the check returns no error and leaves `cfg` and
`lastMtime` unchanged. -/
theorem C26_changed_file (ConfigEqual : coreinstance.Config → coreinstance.Config → Bool)
    (out : instcfg.Outside) (o : instcfg.T) (checksum : String) (nodes : List String)
    (hm : out.mtime ≠ 0) (hd : out.mtime ≠ o.lastMtime)
    (hc : out.md5 = some checksum) (hn : out.nodes = some nodes) (hne : nodes ≠ [])
    (hnm : out.newMtime ≠ 0) :
    (out.newMtime = out.mtime → o.localhost ∉ nodes →
      (o.configFileCheck ConfigEqual out).2 = some instcfg.configFileCheckError ∧
      (o.configFileCheck ConfigEqual out).1.cfg = o.cfg ∧
      (o.configFileCheck ConfigEqual out).1.dataCmdC = o.dataCmdC) ∧
    (out.newMtime = out.mtime → o.localhost ∈ nodes →
      ∃ cand : coreinstance.Config,
        cand = { o.cfg with Nodename := o.localhost, Scope := sort.Strings nodes,
                            Checksum := checksum, Updated := out.mtime } ∧
        cand.Scope.Perm nodes ∧
        cand.Scope.Sorted (fun a b => strings.Less b a = false) ∧
        (o.configFileCheck ConfigEqual out).2 = none ∧
        (o.configFileCheck ConfigEqual out).1.lastMtime = out.mtime ∧
        (o.configFileCheck ConfigEqual out).1.cfg =
          (if ConfigEqual o.cfg cand = true then o.cfg else cand) ∧
        (o.configFileCheck ConfigEqual out).1.dataCmdC =
          (if ConfigEqual o.cfg cand = true then o.dataCmdC
            else o.dataCmdC ++ [(o.path, cand)])) ∧
    (out.newMtime ≠ out.mtime →
      (o.configFileCheck ConfigEqual out).2 = none ∧
      (o.configFileCheck ConfigEqual out).1.cfg = o.cfg ∧
      (o.configFileCheck ConfigEqual out).1.lastMtime = o.lastMtime ∧
      (o.configFileCheck ConfigEqual out).1.dataCmdC = o.dataCmdC) := by
  rw [instcfg.configFileCheck_changed ConfigEqual out o checksum nodes hm hd hc hn hne hnm]
  refine ⟨?_, ?_, ?_⟩
  · intro h1 h2
    have h3 : (!nodes.contains o.localhost) = true := by simpa using h2
    rw [if_neg (not_not.2 h1), if_pos h3]
    split <;> exact ⟨rfl, rfl, rfl⟩
  · intro h1 h2
    have h3 : ¬ (!nodes.contains o.localhost) = true := by simpa using h2
    rw [if_neg (not_not.2 h1), if_neg h3]
    refine ⟨_, rfl, sort.Strings_perm nodes, sort.Strings_sorted nodes, rfl, ?_, ?_, ?_⟩
    · unfold instcfg.T.updateCfg
      split <;> split <;> rfl
    · unfold instcfg.T.updateCfg
      split <;> split <;> simp_all
    · unfold instcfg.T.updateCfg
      split <;> split <;> simp_all
  · intro h1
    rw [if_pos h1]
    split <;> exact ⟨rfl, rfl, rfl, rfl⟩

/-- Witness of C26 (amended): the file, modified at 5 and unchanged during the
read, is not the one last seen (modified at 1), and the nodes resolved are n2
and n1: on n1 the check returns no error, records 5 and stores the candidate
with the scope n1, n2. -/
theorem C26_changed_file_witness :
    ((instcfg.scenarioWatcher 1).configFileCheck (fun a b => decide (a = b))
        (instcfg.scenarioOutsideAfter 5 5)).1.cfg.Scope = ["n1", "n2"] ∧
      ∃ cand : coreinstance.Config,
        cand = { (instcfg.scenarioWatcher 1).cfg with
                  Nodename := (instcfg.scenarioWatcher 1).localhost,
                  Scope := sort.Strings ["n2", "n1"],
                  Checksum := "c0ffee", Updated := (instcfg.scenarioOutsideAfter 5 5).mtime } ∧
        cand.Scope.Perm ["n2", "n1"] ∧
        cand.Scope.Sorted (fun a b => strings.Less b a = false) ∧
        ((instcfg.scenarioWatcher 1).configFileCheck (fun a b => decide (a = b))
          (instcfg.scenarioOutsideAfter 5 5)).2 = none ∧
        ((instcfg.scenarioWatcher 1).configFileCheck (fun a b => decide (a = b))
          (instcfg.scenarioOutsideAfter 5 5)).1.lastMtime =
            (instcfg.scenarioOutsideAfter 5 5).mtime ∧
        ((instcfg.scenarioWatcher 1).configFileCheck (fun a b => decide (a = b))
          (instcfg.scenarioOutsideAfter 5 5)).1.cfg =
          (if (fun a b => decide (a = b)) (instcfg.scenarioWatcher 1).cfg cand = true
            then (instcfg.scenarioWatcher 1).cfg else cand) ∧
        ((instcfg.scenarioWatcher 1).configFileCheck (fun a b => decide (a = b))
          (instcfg.scenarioOutsideAfter 5 5)).1.dataCmdC =
          (if (fun a b => decide (a = b)) (instcfg.scenarioWatcher 1).cfg cand = true
            then (instcfg.scenarioWatcher 1).dataCmdC
            else (instcfg.scenarioWatcher 1).dataCmdC ++
              [((instcfg.scenarioWatcher 1).path, cand)]) :=
  ⟨by decide,
    (C26_changed_file (fun a b => decide (a = b)) (instcfg.scenarioOutsideAfter 5 5)
      (instcfg.scenarioWatcher 1) "c0ffee" ["n2", "n1"] (by decide) (by decide) rfl rfl
      (by decide) (by decide)).2.1 rfl (by decide)⟩

/-! ## The heartbeat rescan: the recorded signatures -/

/-- C30, on the code: hb#1 runs with sigA and the configuration has hb#1 with
sigB. When the transmitter of hb#1 does not stop, the rescan calls
`stopHbRid`, which fails, starts nothing, returns an error, keeps the
transmitter registered, and records sigB for hb#1. When instead the stop
succeeds and the receiver does not start, the rescan returns an error, has no
receiver for hb#1, and records sigB for hb#1 as well. -/
theorem C30_recorded_signature_of_failure :
    hb.scenarioRunning.ridSignature.lookup "hb#1" = some "sigA" ∧
      (hb.scenarioRunning.rescanHb (fun _ l => l) hb.scenarioDriversTxStays
        (.ok hb.scenarioChanged)).2 =
        some (errors.New "rescanHb errors: [stop hb rid %!s(MISSING) error for tx]") ∧
      (hb.scenarioRunning.rescanHb (fun _ l => l) hb.scenarioDriversTxStays
        (.ok hb.scenarioChanged)).1.calls = [hb.Call.stopHbRid "hb#1"] ∧
      (hb.scenarioRunning.rescanHb (fun _ l => l) hb.scenarioDriversTxStays
        (.ok hb.scenarioChanged)).1.txs "hb#1" = some "hb#1.tx" ∧
      (hb.scenarioRunning.rescanHb (fun _ l => l) hb.scenarioDriversTxStays
        (.ok hb.scenarioChanged)).1.ridSignature.lookup "hb#1" = some "sigB" ∧
      (hb.scenarioRunning.rescanHb (fun _ l => l) hb.scenarioDriversRxFails
        (.ok hb.scenarioChanged)).2 =
        some (errors.New "rescanHb errors: [bind: address in use]") ∧
      (hb.scenarioRunning.rescanHb (fun _ l => l) hb.scenarioDriversRxFails
        (.ok hb.scenarioChanged)).1.rxs "hb#1" = none ∧
      (hb.scenarioRunning.rescanHb (fun _ l => l) hb.scenarioDriversRxFails
        (.ok hb.scenarioChanged)).1.ridSignature.lookup "hb#1" = some "sigB" := by
  decide
